import Mathlib

/-!
# MIDI file reader: a shallow embedding of `src/main.cpp`

The program reads a Standard MIDI File through one `std::ifstream`, prints the
header, builds a table of track positions and prints the events of one track.

Conventions of the embedding

* bytes and machine integers are natural numbers; truncation to the width of the
  C++ type is written out (`% 2 ^ 32`, `% 2 ^ 64`, `% 256`);
* the input stream is a record of the file contents, the read position and one
  sticky failure flag (the program never calls `clear()`, and every operation
  that sets `eofbit` here sets `failbit` with it);
* `std::cout` is a list of structured items, one per printed value; number
  formatting (`std::hex`, `std::setw`) is not modelled;
* loops that may run forever take a fuel argument and return `none` when the
  fuel is used up;
* where C++ leaves a choice to the platform the embedding follows x86-64: plain
  `char` is signed, and a 32-bit shift by a count of 32 or more takes the count
  modulo 32.
-/

namespace Midi

/-! ## Output -/

/-- One item written to `std::cout`. -/
inductive Out where
  /-- A string literal printed alone. -/
  | line (s : String)
  /-- A label followed by a number. -/
  | num (label : String) (v : Int)
  /-- A label followed by a string value. -/
  | text (label : String) (value : String)
  /-- A label followed by a sequence of bytes. -/
  | bytes (label : String) (data : List Nat)
  deriving DecidableEq, Repr

/-- The line of thirty underscores, `std::string(30, '_')`. -/
def separator : Out := Out.line "______________________________"

/-! ## Integer conversions -/

/-- Conversion of an `int` to `unsigned char`. -/
def toUChar (v : Int) : Nat := (v % 256).toNat

/-- Conversion of a byte to plain `char`, taken as a signed 8-bit type (as on
x86-64 Linux and the other targets where plain `char` is signed). -/
def toChar (v : Nat) : Int := if v % 256 < 128 then (v % 256 : Nat) else ((v % 256 : Nat) : Int) - 256

/-- Conversion of a stream position (`-1` on failure) to `unsigned long long`. -/
def toU64 (v : Int) : Nat := (v % 2 ^ 64).toNat

/-- Conversion of an `unsigned long long` to the signed 64-bit `std::streamoff`. -/
def toStreamoff (n : Nat) : Int :=
  if n % 2 ^ 64 < 2 ^ 63 then ((n % 2 ^ 64 : Nat) : Int) else ((n % 2 ^ 64 : Nat) : Int) - 2 ^ 64

/-! ## The input stream -/

/-- State of the `std::ifstream`: file contents, get position, failure flag. -/
structure IfStream where
  data : List Nat
  pos : Nat
  fail : Bool
  deriving DecidableEq, Repr

namespace IfStream

/-- `midiFile.get()`: the next byte, or `EOF = -1` with the failure flag set. -/
def get (s : IfStream) : Int × IfStream :=
  if s.fail then (-1, s)
  else
    match s.data.drop s.pos with
    | [] => (-1, { s with fail := true })
    | b :: _ => ((b : Int), { s with pos := s.pos + 1 })

/-- `midiFile.read(&one, 1)`: the buffer keeps its old value when nothing is read. -/
def read1 (s : IfStream) (one : Nat) : Nat × IfStream :=
  if s.fail then (one, s)
  else
    match s.data.drop s.pos with
    | [] => (one, { s with fail := true })
    | b :: _ => (b, { s with pos := s.pos + 1 })

/-- `midiFile.read(buf, n)` into a buffer of `n` bytes: the bytes that are
available are stored, and the failure flag is set when they are fewer than `n`. -/
def read (s : IfStream) (buf : List Nat) (n : Nat) : List Nat × IfStream :=
  if s.fail then (buf, s)
  else
    let got := (s.data.drop s.pos).take n
    if got.length = n then (got, { s with pos := s.pos + n })
    else (got ++ buf.drop got.length, { s with pos := s.pos + got.length, fail := true })

/-- `midiFile.unget()`. -/
def unget (s : IfStream) : IfStream :=
  if s.fail then s
  else if s.pos = 0 then { s with fail := true }
  else { s with pos := s.pos - 1 }

/-- `midiFile.tellg()`: `-1` once the stream has failed. -/
def tellg (s : IfStream) : Int := if s.fail then -1 else (s.pos : Int)

/-- `midiFile.seekg(p)` with an absolute position. -/
def seekg (s : IfStream) (p : Int) : IfStream :=
  if s.fail then s
  else if p < 0 then { s with fail := true }
  else { s with pos := p.toNat }

end IfStream

/-! ## Free functions -/

/-- The table `metaEventTypes` at program start. -/
def metaEventTypes : List (Nat × String) :=
  [(0x00, "Sequence Number"),
   (0x01, "Text Event"),
   (0x02, "Copyright Notice"),
   (0x03, "Sequence/Track Name"),
   (0x04, "Instrument Name"),
   (0x05, "Lyric"),
   (0x06, "Marker"),
   (0x07, "Cue Point"),
   (0x20, "MIDI Channel Prefix"),
   (0x2f, "End of Track"),
   (0x51, "Set Tempo"),
   (0x54, "SMPTE Offset"),
   (0x58, "Time Signature"),
   (0x59, "Key Signature"),
   (0x7f, "Sequencer Specific Meta-Event")]

/-- `std::map::operator[]`: the value stored under the key; a key that is absent
is inserted with the empty string. -/
def mapIndex (m : List (Nat × String)) (k : Nat) : String × List (Nat × String) :=
  match m.lookup k with
  | some v => (v, m)
  | none => ("", m ++ [(k, "")])

/-- `as32uint` on a buffer of four bytes. -/
def as32uint (arr : List Nat) : Nat :=
  (arr.getD 3 0 + (arr.getD 2 0 <<< 8) + (arr.getD 1 0 <<< 16) + (arr.getD 0 0 <<< 24)) % 2 ^ 32

/-- `as16uint` on a buffer of two bytes. -/
def as16uint (arr : List Nat) : Nat :=
  (arr.getD 1 0 + (arr.getD 0 0 <<< 8)) % 2 ^ 16

/-- The `while` loop of `unstackVariableNumber`; the head of the list is the top
of the stack. All four variables are 32-bit `unsigned`. For a count below 32
(the first five bytes of a stack) `top << shift` is the shift modulo `2 ^ 32`.
A count of 32 or more (a stack of six or more bytes) is outside what C++
defines; here it is what the x86-64 shift instruction does, which takes the
count modulo 32, so the sixth byte is shifted by `35 % 32 = 3`. -/
def unstackLoop : List Nat → Nat → Nat → Nat
  | [], result, _ => result
  | b :: stk, result, level =>
      let top := b &&& 0b01111111
      let shift := (level * 7) % 2 ^ 32
      unstackLoop stk ((result + (top <<< (shift % 32)) % 2 ^ 32) % 2 ^ 32) ((level + 1) % 2 ^ 32)

/-- `unstackVariableNumber`. -/
def unstackVariableNumber (stk : List Nat) : Nat := unstackLoop stk 0 0

/-- The loop `do { read(&one, 1); stk.push(one); } while (one & 0x80)` that
`readEvent` runs for the delta-time and for the SysEx and Meta lengths. It
yields the stream, the buffer `one` and the stack (top first). -/
def readVariableLength : Nat → IfStream → Nat → List Nat → Option (IfStream × Nat × List Nat)
  | 0, _, _, _ => none
  | fuel + 1, s, one, stk =>
      let r := s.read1 one
      if r.1 &&& 0b10000000 ≠ 0 then readVariableLength fuel r.2 r.1 (r.1 :: stk)
      else some (r.2, r.1, r.1 :: stk)

/-! ## The reader -/

/-- State of a `MidiReader` object, together with the two globals the member
functions touch: the current contents of the map `metaEventTypes` and what has
been written to `std::cout`. -/
structure MidiReader where
  midiFile : IfStream
  one : Nat
  two : List Nat
  four : List Nat
  lastOp : Nat
  lastChannel : Nat
  headerChunkType : List Nat
  headerLength : Nat
  fileFormat : Nat
  numberOfTracks : Nat
  divisionTime : Nat
  trackPointers : List Nat
  metaMap : List (Nat × String)
  cout : List Out
  deriving DecidableEq, Repr

namespace MidiReader

/-- Append items to `std::cout`. -/
def print (r : MidiReader) (o : List Out) : MidiReader := { r with cout := r.cout ++ o }

/-- `printHeaderContent`. -/
def printHeaderContent (r : MidiReader) : MidiReader :=
  let r := r.print [Out.bytes "Chunk Type: " r.headerChunkType,
                    Out.num "Chunk Length: " r.headerLength,
                    Out.num "File Format: " r.fileFormat,
                    Out.num "Number of Tracks: " r.numberOfTracks]
  if r.divisionTime &&& 0x8000 ≠ 0 then
    let timeFormat : Int := toChar ((r.divisionTime &&& 0xff00) >>> 8)
    let ticksPerFrame : Nat := (r.divisionTime &&& 0x00FF) % 256
    r.print [Out.line "Division Time Type: SMPTE",
             Out.num "Division Time Format:" timeFormat,
             Out.num "Ticks Per Frame: " ticksPerFrame]
  else
    r.print [Out.line "Division Time Type: PPQ",
             Out.num "Division Time Ticks Per Quarter Note: " (as16uint r.two)]

/-- `getNextTrackPointer`: the returned value and the new state. -/
def getNextTrackPointer (r : MidiReader) : Nat × MidiReader :=
  let a := r.midiFile.read r.four 4
  let b := a.2.read a.1 4
  let trackLength := as32uint b.1
  let nextTrackPointer := toU64 b.2.tellg
  ((nextTrackPointer + trackLength) % 2 ^ 64, { r with midiFile := b.2, four := b.1 })

/-- The loop `for (n = 0; n < numberOfTracks; n++)` of the constructor, by the
number of iterations that remain. -/
def scanTracks : Nat → MidiReader → MidiReader
  | 0, r => r
  | n + 1, r =>
      let t := getNextTrackPointer r
      scanTracks n { t.2 with trackPointers := t.2.trackPointers ++ [t.1],
                              midiFile := t.2.midiFile.seekg (toStreamoff t.1) }

/-- The object before the constructor body runs, on a file that exists and holds
`contents`. The buffers `one`, `two`, `four` have no initialiser in the source;
they start as zeros here. -/
def fresh (contents : List Nat) : MidiReader :=
  { midiFile := { data := contents, pos := 0, fail := false },
    one := 0, two := [0, 0], four := [0, 0, 0, 0],
    lastOp := 0, lastChannel := 0,
    headerChunkType := [], headerLength := 0, fileFormat := 0,
    numberOfTracks := 0, divisionTime := 0,
    trackPointers := [], metaMap := metaEventTypes, cout := [] }

/-- The constructor `MidiReader(filename)`. -/
def construct (filename : String) (contents : List Nat) : MidiReader :=
  let r := (fresh contents).print [Out.text "Reading file " filename, separator]
  let a := r.midiFile.read r.four 4
  let r := { r with midiFile := a.2, four := a.1, headerChunkType := a.1 }
  let a := r.midiFile.read r.four 4
  let r := { r with midiFile := a.2, four := a.1, headerLength := as32uint a.1 }
  let a := r.midiFile.read r.two 2
  let r := { r with midiFile := a.2, two := a.1, fileFormat := as16uint a.1 }
  let a := r.midiFile.read r.two 2
  let r := { r with midiFile := a.2, two := a.1, numberOfTracks := as16uint a.1 }
  let a := r.midiFile.read r.two 2
  let r := { r with midiFile := a.2, two := a.1, divisionTime := as16uint a.1 }
  let r := printHeaderContent r
  let r := { r with midiFile := r.midiFile.seekg 0 }
  scanTracks r.numberOfTracks r

/-- `setTrack`; `none` is the `std::out_of_range` thrown by `at`. -/
def setTrack (r : MidiReader) (index : Nat) : Option MidiReader :=
  match r.trackPointers.get? index with
  | none => none
  | some tp => some { r with midiFile := r.midiFile.seekg (toStreamoff tp) }

/-- Handlers that take two data bytes. -/
def takeTwo (label1 label2 : String) (r : MidiReader) : MidiReader :=
  let a := r.midiFile.get
  let data1 := toUChar a.1
  let b := a.2.get
  let data2 := toUChar b.1
  { r with midiFile := b.2, cout := r.cout ++ [Out.num label1 data1, Out.num label2 data2] }

/-- Handlers that take one data byte. -/
def takeOne (label1 : String) (r : MidiReader) : MidiReader :=
  let a := r.midiFile.get
  let data1 := toUChar a.1
  { r with midiFile := a.2, cout := r.cout ++ [Out.num label1 data1] }

/-- `noteOff`. -/
def noteOff : MidiReader → MidiReader := takeTwo "    Note Number: " "    Velocity: "

/-- `noteOn`. -/
def noteOn : MidiReader → MidiReader := takeTwo "    Note Number: " "    Velocity: "

/-- `controlChange`. -/
def controlChange : MidiReader → MidiReader := takeTwo "    Control Change: " "    Value: "

/-- `pkp`. -/
def pkp : MidiReader → MidiReader := takeTwo "    Key: " "    Value: "

/-- `programChange`. -/
def programChange : MidiReader → MidiReader := takeOne "    program Change: "

/-- `channelPressure`. -/
def channelPressure : MidiReader → MidiReader := takeOne "    Value: "

/-- `pitchWheelChange`. -/
def pitchWheelChange : MidiReader → MidiReader :=
  takeTwo "    Least significant 7bits: " "    Most significant 7bits: "

/-- The loop `for (unsigned char i = 0; i < length; i++) midiFile.get();` of the
SysEx branch. The counter is an `unsigned char`, the bound an `unsigned int`. -/
def skipLoop : Nat → Nat → Nat → IfStream → Option IfStream
  | 0, i, length, s => if i < length then none else some s
  | fuel + 1, i, length, s =>
      if i < length then skipLoop fuel ((i + 1) % 256) length s.get.2 else some s

/-- The loop `for (unsigned char i = 0; i < length; i++) data.push_back(midiFile.get());`
of the Meta branch. -/
def dataLoop : Nat → Nat → Nat → IfStream → List Nat → Option (IfStream × List Nat)
  | 0, i, length, s, data => if i < length then none else some (s, data)
  | fuel + 1, i, length, s, data =>
      if i < length then dataLoop fuel ((i + 1) % 256) length s.get.2 (data ++ [toUChar s.get.1])
      else some (s, data)

/-- One arm of the `switch (op)`: print the name, run the handler, store the
running status. -/
def voice (name : String) (handler : MidiReader → MidiReader) (op channel : Nat)
    (r : MidiReader) : MidiReader :=
  { handler (r.print [Out.line name]) with lastOp := op, lastChannel := channel }

/-- The `switch (op)` of `readEvent` (lines 253-293). -/
def switchOp (status op channel : Nat) (r : MidiReader) : MidiReader :=
  if op = 0b10000000 then voice "Note Off" noteOff op channel r
  else if op = 0b10010000 then voice "Note On" noteOn op channel r
  else if op = 0b10100000 then voice "Polyphonic Key Pressure, Aftertouch" pkp op channel r
  else if op = 0b10110000 then voice "Control Change" controlChange op channel r
  else if op = 0b11000000 then voice "Program Change" programChange op channel r
  else if op = 0b11010000 then voice "Channel Pressure, Aftertouch" channelPressure op channel r
  else if op = 0b11100000 then voice "Pitch Wheel Change" pitchWheelChange op channel r
  else r.print [Out.num "Unknown operation: " status]

/-- The last `else` of `readEvent` (lines 242-294): the data bytes of a channel
event, with the running status when the byte read as status has its high bit
clear. -/
def channelEvent (status : Nat) (r : MidiReader) : MidiReader :=
  let running : Bool := (status &&& 0xF0) &&& 0b10000000 = 0
  let op := if running then r.lastOp else status &&& 0xF0
  let channel := if running then r.lastChannel else status &&& 0x0F
  let r := if running then { r with midiFile := r.midiFile.unget } else r
  let r := r.print [Out.num "Channel: " channel]
  switchOp status op channel r

/-- The chain of `if (status == ...)` of `readEvent` (lines 181-294). -/
def dispatch (fuel : Nat) (status : Nat) (r : MidiReader) : Option MidiReader :=
  if status = 0xF0 then
    match readVariableLength fuel r.midiFile r.one [] with
    | none => none
    | some (s2, one2, stk2) =>
      let length := unstackVariableNumber stk2
      let r := { r with midiFile := s2, one := one2,
                        cout := r.cout ++ [Out.bytes "SysEx Event Length: " stk2.reverse,
                                           Out.num "" length] }
      match skipLoop fuel 0 length r.midiFile with
      | none => none
      | some s3 => some { r with midiFile := s3 }
  else if status = 0xF2 then
    let r := r.print [Out.line "Song Position Pointer"]
    some { r with midiFile := r.midiFile.get.2.get.2 }
  else if status = 0xF3 then
    let r := r.print [Out.line "Song Select"]
    some { r with midiFile := r.midiFile.get.2 }
  else if status = 0xFF then
    let r := r.print [Out.line "Meta Event"]
    let a := r.midiFile.get
    let type := toUChar a.1
    let l := mapIndex r.metaMap type
    let r := { r with midiFile := a.2, metaMap := l.2,
                      cout := r.cout ++ [Out.text "Meta Event Type: " l.1] }
    match readVariableLength fuel r.midiFile r.one [] with
    | none => none
    | some (s2, one2, stk2) =>
      let length := unstackVariableNumber stk2
      let r := { r with midiFile := s2, one := one2,
                        cout := r.cout ++ [Out.num "Length: " length] }
      match dataLoop fuel 0 length r.midiFile [] with
      | none => none
      | some (s3, data) =>
        some { r with midiFile := s3,
                      cout := r.cout ++ [Out.bytes "Data(text): " data,
                                         Out.bytes "Data(hex): " data] }
  else if status > 0xF0 then
    some r
  else
    some (channelEvent status r)

/-- `readEvent` (lines 163-295): the delta-time, the status byte, then the chain
of cases. It is `none` when one of its loops does not end within the fuel. -/
def readEvent (fuel : Nat) (r : MidiReader) : Option MidiReader :=
  match readVariableLength fuel r.midiFile r.one [] with
  | none => none
  | some (s1, one1, stk1) =>
    let r := { r with midiFile := s1, one := one1,
                      cout := r.cout ++ [Out.num "Delta Time: " (unstackVariableNumber stk1)] }
    let a := r.midiFile.read1 r.one
    let r := { r with midiFile := a.2, one := a.1 }
    let status := r.one
    let r := if status &&& 0x80 ≠ 0 then r.print [Out.num "Midi Event Status Code: " status] else r
    dispatch fuel status r

/-- The loop `while (midiFile.tellg() < trackStart + trackLength) readEvent();`
with `bound = trackStart + trackLength`. Besides the final state it returns the
positions (as compared by the loop condition) at which it called `readEvent`. -/
def readTrackLoop : Nat → Nat → MidiReader → Option (MidiReader × List Nat)
  | 0, bound, r => if toU64 r.midiFile.tellg < bound then none else some (r, [])
  | fuel + 1, bound, r =>
      if toU64 r.midiFile.tellg < bound then
        match readEvent fuel (r.print [separator]) with
        | none => none
        | some r1 =>
          match readTrackLoop fuel bound r1 with
          | none => none
          | some (r2, started) => some (r2, toU64 r.midiFile.tellg :: started)
      else some (r, [])

/-- The part of `readTrack` before its loop: the new state, `trackLength` and
`trackStart`. -/
def readTrackHeader (r : MidiReader) : MidiReader × Nat × Nat :=
  let r := r.print [separator]
  let a := r.midiFile.read r.four 4
  let r := { r with midiFile := a.2, four := a.1, cout := r.cout ++ [Out.bytes "Chunk Type: " a.1] }
  let a := r.midiFile.read r.four 4
  let r := { r with midiFile := a.2, four := a.1,
                    cout := r.cout ++ [Out.num "Chunk Length: " (as32uint a.1)] }
  (r, as32uint r.four, toU64 r.midiFile.tellg)

/-- `readTrack`. -/
def readTrack (fuel : Nat) (r : MidiReader) : Option (MidiReader × List Nat) :=
  let h := readTrackHeader r
  readTrackLoop fuel ((h.2.2 + h.2.1) % 2 ^ 64) h.1

end MidiReader

/-! ## Reference definitions used to state the properties -/

/-- The MIDI variable-length quantity of `n`: the 7-bit groups of `n`, most
significant group first, every byte but the last with the high bit set. -/
def encodeVlq (n : Nat) : List Nat :=
  ((Nat.digits 128 (n / 128)).reverse.map (fun d => d + 128)) ++ [n % 128]

/-- Most-significant-first accumulation `r := r * 128 + (b & 0x7F)` from `0`. -/
def msbFirst (bytes : List Nat) : Nat :=
  bytes.foldl (fun r b => r * 128 + (b &&& 0x7F)) 0

/-- A byte sequence that the read loop takes as one variable-length quantity:
bytes with the high bit set, then one byte with the high bit clear. -/
def isVarLen : List Nat → Bool
  | [] => false
  | [b] => decide (b < 128)
  | b :: bs => decide (128 ≤ b) && decide (b < 256) && isVarLen bs

/-- Big-endian bytes of a 32-bit value. -/
def be32 (n : Nat) : List Nat :=
  [n / 2 ^ 24 % 256, n / 2 ^ 16 % 256, n / 2 ^ 8 % 256, n % 256]

/-- Big-endian bytes of a 16-bit value. -/
def be16 (n : Nat) : List Nat := [n / 2 ^ 8 % 256, n % 256]

/-- The bytes of a chunk given as its 4-byte tag and its contents: the tag, the
length of the contents as a big-endian 32-bit value, the contents. -/
def trackChunk (c : List Nat × List Nat) : List Nat := c.1 ++ (be32 c.2.length ++ c.2)

/-- The bytes of a sequence of chunks laid out one after the other. -/
def chunks : List (List Nat × List Nat) → List Nat
  | [] => []
  | c :: cs => trackChunk c ++ chunks cs

/-- The file positions at which the chunks of a sequence start when the first
one starts at `p`. -/
def chunkStarts (p : Nat) : List (List Nat × List Nat) → List Nat
  | [] => []
  | c :: cs => p :: chunkStarts (p + 8 + c.2.length) cs

/-- Two track chunks tagged `"MTrk"`: the End-of-Track event `00 FF 2F 00`, and
the Program Change `00 C0 05`. -/
def twoTracks : List (List Nat × List Nat) :=
  [([0x4D, 0x54, 0x72, 0x6B], [0x00, 0xFF, 0x2F, 0x00]),
   ([0x4D, 0x54, 0x72, 0x6B], [0x00, 0xC0, 0x05])]

/-- The file made of the header `"MThd"`, length 6, format 1, 2 tracks, division
96, followed by the chunks of `twoTracks`. -/
def twoTrackFile : List Nat :=
  chunks (([0x4D, 0x54, 0x68, 0x64], [0x00, 0x01, 0x00, 0x02, 0x00, 0x60] ++ []) :: twoTracks)

/-- A reader positioned at the start of an event stream: the state of a new
object whose file holds `bytes`, before anything is read. -/
def onBytes (bytes : List Nat) : MidiReader := MidiReader.fresh bytes

/-! ## Inputs of the examples -/

/-- A track chunk `"MTrk"` of declared length 3 whose only event, the Note-On
`00 90 3C 40`, is 4 bytes long, followed by the bytes `00 FF 2F 00`. -/
def overrunTrack : List Nat :=
  [0x4D, 0x54, 0x72, 0x6B, 0x00, 0x00, 0x00, 0x03, 0x00, 0x90, 0x3C, 0x40, 0x00, 0xFF, 0x2F, 0x00]

/-- The event stream `00 F0 82 00`, 256 payload bytes `01`, then `00 FF 2F 00`. -/
def sysex256 : List Nat := [0x00, 0xF0, 0x82, 0x00] ++ (List.replicate 256 0x01 ++ [0x00, 0xFF, 0x2F, 0x00])

/-- The event stream `00 FF 01 82 00`, 256 payload bytes `41`, then `00 FF 2F 00`. -/
def meta256 : List Nat := [0x00, 0xFF, 0x01, 0x82, 0x00] ++ (List.replicate 256 0x41 ++ [0x00, 0xFF, 0x2F, 0x00])

/-- The header `"MThd"`, length 6, format 1, 2 tracks, division 96, followed by
the first three bytes `4D 54 72` of a track chunk only. -/
def truncatedTrackFile : List Nat :=
  [0x4D, 0x54, 0x68, 0x64, 0x00, 0x00, 0x00, 0x06, 0x00, 0x01, 0x00, 0x02, 0x00, 0x60,
   0x4D, 0x54, 0x72]

/-- The event stream `00 90 3C 40` (Note-On), `00 FF 01 01 41` (Meta), `00 F2 01 02`,
`00 F3 05`, `00 F0 02 01 02` (SysEx), `00 3C 00` (two data bytes without a status
byte). -/
def mixedStream : List Nat :=
  [0x00, 0x90, 0x3C, 0x40, 0x00, 0xFF, 0x01, 0x01, 0x41, 0x00, 0xF2, 0x01, 0x02,
   0x00, 0xF3, 0x05, 0x00, 0xF0, 0x02, 0x01, 0x02, 0x00, 0x3C, 0x00]

/-- The step `r1` is what `readEvent` returns on `r` when the byte after the
delta-time is the status byte of a Meta, SysEx, `0xF2` or `0xF3` event. -/
def NonChannelStep (r r1 : MidiReader) : Prop :=
  ∃ (fuel : Nat) (delta rest : List Nat) (status : Nat),
    isVarLen delta = true ∧ r.midiFile.fail = false ∧
    r.midiFile.data.drop r.midiFile.pos = delta ++ status :: rest ∧
    status ∈ [0xFF, 0xF0, 0xF2, 0xF3] ∧ MidiReader.readEvent fuel r = some r1

/-- The stream `s1` is `s` after some reads: the same contents, and `s1` has
failed or is at a position not before that of `s` (within the contents when
`s` was). -/
def IfStream.Moved (s s1 : IfStream) : Prop :=
  s1.data = s.data ∧
    (s1.fail = true ∨
      (s.fail = false ∧ s.pos ≤ s1.pos ∧ (s.pos ≤ s.data.length → s1.pos ≤ s.data.length)))

/-- The stream `s1` is `s` after at least one read: the same contents, and `s1`
has failed or is at a position strictly after that of `s`, within the contents. -/
def IfStream.Advanced (s s1 : IfStream) : Prop :=
  s1.data = s.data ∧
    (s1.fail = true ∨ (s.fail = false ∧ s.pos < s1.pos ∧ s1.pos ≤ s.data.length))

/-- The states in which the loop of `readTrack`, started in `r` with the given
bound, calls `readEvent` or stops: `r` itself, and what `readEvent` returns on
such a state whose position is below the bound. -/
inductive LoopReaches (bound : Nat) (r : MidiReader) : MidiReader → Prop
  | start : LoopReaches bound r r
  | next {a b : MidiReader} {fuel : Nat} :
      LoopReaches bound r a → toU64 a.midiFile.tellg < bound →
      MidiReader.readEvent fuel (a.print [separator]) = some b → LoopReaches bound r b

/-- The bytes start with the part of an event that decides how long `readEvent`
reads: a delta-time that ends, one more byte, and, when that byte is `0xF0`
(or `0xFF`, after one more byte), a length of at most five bytes that ends and
is below 256. With at most five bytes every shift count in
`unstackVariableNumber` is below 32. -/
def completeHead (bytes : List Nat) : Prop :=
  ∃ (delta tail : List Nat) (status : Nat),
    bytes = delta ++ status :: tail ∧ isVarLen delta = true ∧
    (status = 0xF0 → ∃ len rest, tail = len ++ rest ∧ isVarLen len = true ∧
      len.length ≤ 5 ∧ unstackVariableNumber len.reverse < 256) ∧
    (status = 0xFF → ∃ t len rest, tail = t :: (len ++ rest) ∧ isVarLen len = true ∧
      len.length ≤ 5 ∧ unstackVariableNumber len.reverse < 256)

/-- The file made of the header `"MThd"`, length 6, format 1, 1 track, division
96, and one track chunk `"MTrk"` of declared length 1 whose only byte is `80`. -/
def danglingTrackFile : List Nat :=
  chunks (([0x4D, 0x54, 0x68, 0x64], [0x00, 0x01, 0x00, 0x01, 0x00, 0x60] ++ []) ::
    [([0x4D, 0x54, 0x72, 0x6B], [0x80])])

end Midi

namespace Midi

open MidiReader

/-! ## Bytes and bits -/

theorem land_127 (b : Nat) : b &&& 127 = b % 128 :=
  Nat.and_pow_two_sub_one_eq_mod b 7

theorem highbit_clear {b : Nat} (h : b < 128) : b &&& 128 = 0 := by
  interval_cases b <;> rfl

theorem highbit_set {b : Nat} (h1 : 128 ≤ b) (h2 : b < 256) : b &&& 128 ≠ 0 := by
  interval_cases b <;> decide

theorem toUChar_byte {b : Nat} (h : b < 256) : toUChar (b : Int) = b := by
  unfold toUChar
  omega

/-! ## The stream -/

theorem drop_succ_of_cons {l : List Nat} {p b : Nat} {rest : List Nat}
    (h : l.drop p = b :: rest) : l.drop (p + 1) = rest := by
  rw [← List.tail_drop, h, List.tail_cons]

theorem drop_add_of_append {l : List Nat} {p : Nat} {a rest : List Nat}
    (h : l.drop p = a ++ rest) : l.drop (p + a.length) = rest := by
  rw [← List.drop_drop, h, List.drop_left]

theorem read1_cons {s : IfStream} {b : Nat} {rest : List Nat} (one : Nat)
    (hs : s.fail = false) (hd : s.data.drop s.pos = b :: rest) :
    s.read1 one = (b, { s with pos := s.pos + 1 }) := by
  simp [IfStream.read1, hs, hd]

theorem get_cons {s : IfStream} {b : Nat} {rest : List Nat}
    (hs : s.fail = false) (hd : s.data.drop s.pos = b :: rest) :
    s.get = ((b : Int), { s with pos := s.pos + 1 }) := by
  simp [IfStream.get, hs, hd]

/-! ## Variable-length quantities -/

theorem isVarLen_cons_cons {b c : Nat} {bs : List Nat} :
    isVarLen (b :: c :: bs) = (decide (128 ≤ b) && decide (b < 256) && isVarLen (c :: bs)) := rfl

/-- The read loop takes exactly the bytes of a variable-length sequence. -/
theorem readVariableLength_isVarLen (delta : List Nat) :
    ∀ (fuel : Nat) (s : IfStream) (one : Nat) (stk rest : List Nat),
      isVarLen delta = true → delta.length ≤ fuel → s.fail = false →
      s.data.drop s.pos = delta ++ rest →
      readVariableLength fuel s one stk =
        some ({ s with pos := s.pos + delta.length }, (delta.getLast?).getD 0,
              delta.reverse ++ stk) := by
  induction delta with
  | nil => intro _ _ _ _ _ h; simp [isVarLen] at h
  | cons b bs ih =>
    intro fuel s one stk rest hv hf hs hd
    cases fuel with
    | zero => simp at hf
    | succ fuel =>
      have hr := read1_cons one hs (by simpa using hd)
      cases bs with
      | nil =>
        have hb : b < 128 := by simpa [isVarLen] using hv
        simp [readVariableLength, hr, highbit_clear hb]
      | cons c cs =>
        rw [isVarLen_cons_cons] at hv
        simp only [Bool.and_eq_true, decide_eq_true_eq] at hv
        have hset := highbit_set hv.1.1 hv.1.2
        have hd2 : ({ s with pos := s.pos + 1 } : IfStream).data.drop
            ({ s with pos := s.pos + 1 } : IfStream).pos = (c :: cs) ++ rest :=
          drop_succ_of_cons (by simpa using hd)
        have := ih fuel { s with pos := s.pos + 1 } b (b :: stk) rest hv.2
          (by simpa using hf) hs hd2
        simp only [readVariableLength, hr, ne_eq, hset, not_false_eq_true, if_true, this]
        simp [Nat.add_assoc, Nat.add_comm 1]

theorem msbFirst_append_singleton (bs : List Nat) (b : Nat) :
    msbFirst (bs ++ [b]) = msbFirst bs * 128 + b % 128 := by
  simp [msbFirst, List.foldl_append, land_127]

/-- On a stack of at most four bytes no step of `unstackVariableNumber` overflows,
and the result is the most-significant-first value of the bytes in read order. -/
theorem unstackLoop_msbFirst (stk : List Nat) :
    ∀ (result level : Nat), level + stk.length ≤ 4 → result < 2 ^ (7 * level) →
      unstackLoop stk result level = result + 2 ^ (7 * level) * msbFirst stk.reverse ∧
      unstackLoop stk result level < 2 ^ (7 * (level + stk.length)) := by
  induction stk with
  | nil => intro result level _ hr; simpa [unstackLoop, msbFirst] using hr
  | cons b bs ih =>
    intro result level hl hr
    simp only [List.length_cons] at hl
    have hlev : level ≤ 3 := by omega
    have hpow : (2 : Nat) ^ (7 * level) ≤ 2 ^ 21 :=
      Nat.pow_le_pow_right (by decide) (by omega)
    have hb : b % 128 < 128 := Nat.mod_lt _ (by decide)
    have hmul : b % 128 * 2 ^ (7 * level) + 2 ^ (7 * level) ≤ 128 * 2 ^ (7 * level) := by
      nlinarith
    have hstep : 2 ^ (7 * (level + 1)) = 128 * 2 ^ (7 * level) := by
      rw [Nat.mul_add, Nat.pow_add]; norm_num [Nat.mul_comm]
    have h1 : (level * 7) % 2 ^ 32 % 32 = 7 * level := by omega
    have h2 : (level + 1) % 2 ^ 32 = level + 1 := by omega
    have h3 : ((b &&& 127) <<< (7 * level)) % 2 ^ 32 = b % 128 * 2 ^ (7 * level) := by
      rw [land_127, Nat.shiftLeft_eq]; omega
    have h4 : (result + b % 128 * 2 ^ (7 * level)) % 2 ^ 32
        = result + b % 128 * 2 ^ (7 * level) := by omega
    have hres : result + b % 128 * 2 ^ (7 * level) < 2 ^ (7 * (level + 1)) := by omega
    obtain ⟨e, l⟩ := ih (result + b % 128 * 2 ^ (7 * level)) (level + 1) (by omega) hres
    simp only [unstackLoop, h1, h2, h3, h4, List.reverse_cons, msbFirst_append_singleton,
      List.length_cons]
    refine ⟨?_, by simpa [Nat.add_assoc, Nat.add_comm 1] using l⟩
    rw [e, hstep]; ring

theorem unstackVariableNumber_msbFirst (bytes : List Nat) (h : bytes.length ≤ 4) :
    unstackVariableNumber bytes.reverse = msbFirst bytes := by
  have := (unstackLoop_msbFirst bytes.reverse 0 0 (by simpa using h) (by decide)).1
  simpa [unstackVariableNumber] using this

/-- On a stack of six bytes the count of the last shift is 35; with the count
taken modulo 32, as on x86-64, the bytes `A0 80 80 80 80 00` read in this order
give `0x20 <<< 3 = 256`. -/
theorem unstackVariableNumber_six_bytes :
    unstackVariableNumber [0x00, 0x80, 0x80, 0x80, 0x80, 0xA0] = 256 := by
  decide

theorem msbFirst_groups (m : Nat) :
    msbFirst ((Nat.digits 128 m).reverse.map (fun d => d + 128)) = m := by
  induction m using Nat.strong_induction_on with
  | _ m ih =>
    rcases Nat.eq_zero_or_pos m with h | h
    · subst h; simp [msbFirst]
    · rw [Nat.digits_def' (by decide) h, List.reverse_cons, List.map_append, List.map_singleton,
        msbFirst_append_singleton, ih (m / 128) (Nat.div_lt_self h (by decide))]
      omega

theorem msbFirst_encodeVlq (n : Nat) : msbFirst (encodeVlq n) = n := by
  rw [encodeVlq, msbFirst_append_singleton, msbFirst_groups]
  omega

theorem digits_length_le (k : Nat) : ∀ m, m < 128 ^ k → (Nat.digits 128 m).length ≤ k := by
  induction k with
  | zero => intro m hm; simp at hm; simp [hm]
  | succ k ih =>
    intro m hm
    rcases Nat.eq_zero_or_pos m with h | h
    · subst h; simp
    · rw [Nat.digits_def' (by decide) h, List.length_cons]
      have : m / 128 < 128 ^ k := by
        apply Nat.div_lt_of_lt_mul
        rw [pow_succ] at hm; omega
      have := ih _ this
      omega

theorem encodeVlq_length (n : Nat) (h : n < 2 ^ 28) : (encodeVlq n).length ≤ 4 := by
  have := digits_length_le 3 (n / 128) (by norm_num; omega)
  simp [encodeVlq]; omega

theorem isVarLen_append_last (cont : List Nat) (last : Nat)
    (hc : ∀ x ∈ cont, 128 ≤ x ∧ x < 256) (hl : last < 128) :
    isVarLen (cont ++ [last]) = true := by
  induction cont with
  | nil => simpa [isVarLen] using hl
  | cons c cs ih =>
    have hcs := ih (fun x hx => hc x (List.mem_cons_of_mem _ hx))
    have hc0 := hc c (List.mem_cons_self _ _)
    cases hcc : cs ++ [last] with
    | nil => simp at hcc
    | cons d ds =>
      rw [List.cons_append, hcc, isVarLen_cons_cons, ← hcc, hcs]
      simp [hc0.1, hc0.2]

theorem isVarLen_encodeVlq (n : Nat) : isVarLen (encodeVlq n) = true := by
  apply isVarLen_append_last
  · intro x hx
    simp only [List.mem_map, List.mem_reverse] at hx
    obtain ⟨d, hd, rfl⟩ := hx
    have := Nat.digits_lt_base (by decide : 1 < 128) hd
    omega
  · exact Nat.mod_lt _ (by decide)

/-! ## C1 -/

/-- C1: for every `n < 2 ^ 28`, on a stream whose next bytes are the
variable-length encoding of `n`, the read loop of `readEvent` followed by
`unstackVariableNumber` returns `n`, and the stream has advanced by exactly the
encoded bytes (nothing else about the stream changes). -/
theorem vlq_round_trip (n : Nat) (hn : n < 2 ^ 28) (s : IfStream) (one fuel : Nat)
    (rest : List Nat) (hfuel : 4 ≤ fuel) (hs : s.fail = false)
    (hd : s.data.drop s.pos = encodeVlq n ++ rest) :
    (readVariableLength fuel s one []).map (fun x => (x.1, unstackVariableNumber x.2.2)) =
      some ({ s with pos := s.pos + (encodeVlq n).length }, n) := by
  have hlen := encodeVlq_length n hn
  rw [readVariableLength_isVarLen (encodeVlq n) fuel s one [] rest (isVarLen_encodeVlq n)
    (by omega) hs hd]
  simp [unstackVariableNumber_msbFirst _ hlen, msbFirst_encodeVlq]

/-- C1 at `n = 300` (bytes `82 2C`), followed by one more byte. -/
theorem vlq_round_trip_witness :
    (readVariableLength 4 { data := [0x82, 0x2C, 0x55], pos := 0, fail := false } 0 []).map
        (fun x => (x.1, unstackVariableNumber x.2.2)) =
      some ({ data := [0x82, 0x2C, 0x55], pos := 0 + (encodeVlq 300).length, fail := false },
            300) :=
  vlq_round_trip 300 (by decide) { data := [0x82, 0x2C, 0x55], pos := 0, fail := false } 0 4
    [0x55] (by decide) rfl (by simp [encodeVlq])

/-! ## The start of an event -/

/-- On a stream that holds a delta-time and one more byte, `readEvent` reads
both and goes on with the chain of cases on that byte. -/
theorem readEvent_start (r : MidiReader) (delta rest : List Nat) (status fuel : Nat)
    (hv : isVarLen delta = true) (hf : delta.length ≤ fuel) (hs : r.midiFile.fail = false)
    (hd : r.midiFile.data.drop r.midiFile.pos = delta ++ status :: rest) :
    readEvent fuel r =
      dispatch fuel status
        (if status &&& 0x80 ≠ 0 then
          { r with midiFile := { r.midiFile with pos := r.midiFile.pos + delta.length + 1 },
                   one := status,
                   cout := r.cout ++ [Out.num "Delta Time: " (unstackVariableNumber delta.reverse),
                                      Out.num "Midi Event Status Code: " status] }
        else
          { r with midiFile := { r.midiFile with pos := r.midiFile.pos + delta.length + 1 },
                   one := status,
                   cout := r.cout ++
                     [Out.num "Delta Time: " (unstackVariableNumber delta.reverse)] }) := by
  have h1 := readVariableLength_isVarLen delta fuel r.midiFile r.one [] (status :: rest) hv hf hs hd
  have hd2 : ({ r.midiFile with pos := r.midiFile.pos + delta.length } : IfStream).data.drop
      ({ r.midiFile with pos := r.midiFile.pos + delta.length } : IfStream).pos = status :: rest :=
    drop_add_of_append hd
  have h2 := read1_cons (s := { r.midiFile with pos := r.midiFile.pos + delta.length })
    ((delta.getLast?).getD 0) hs hd2
  simp only [readEvent, h1, List.append_nil, h2]
  split <;> simp [print]

theorem takeOne_cons (label1 : String) (r : MidiReader) (d1 : Nat) (rest : List Nat)
    (hs : r.midiFile.fail = false) (hd : r.midiFile.data.drop r.midiFile.pos = d1 :: rest) :
    takeOne label1 r =
      { r with midiFile := { r.midiFile with pos := r.midiFile.pos + 1 },
               cout := r.cout ++ [Out.num label1 (toUChar d1)] } := by
  simp [takeOne, get_cons hs hd]

theorem takeTwo_cons (label1 label2 : String) (r : MidiReader) (d1 d2 : Nat) (rest : List Nat)
    (hs : r.midiFile.fail = false)
    (hd : r.midiFile.data.drop r.midiFile.pos = d1 :: d2 :: rest) :
    takeTwo label1 label2 r =
      { r with midiFile := { r.midiFile with pos := r.midiFile.pos + 2 },
               cout := r.cout ++ [Out.num label1 (toUChar d1), Out.num label2 (toUChar d2)] } := by
  have h2 : ({ r.midiFile with pos := r.midiFile.pos + 1 } : IfStream).data.drop
      ({ r.midiFile with pos := r.midiFile.pos + 1 } : IfStream).pos = d2 :: rest :=
    drop_succ_of_cons hd
  have g2 := get_cons (s := { r.midiFile with pos := r.midiFile.pos + 1 }) hs h2
  simp [takeTwo, get_cons hs hd, g2]

theorem voice_status_cases {s : Nat} (h1 : 0x80 ≤ s) (h2 : s ≤ 0xEF) :
    (s &&& 0xF0) &&& 0x80 ≠ 0 ∧
    (s &&& 0xF0 = 0x80 ∨ s &&& 0xF0 = 0x90 ∨ s &&& 0xF0 = 0xA0 ∨ s &&& 0xF0 = 0xB0 ∨
      s &&& 0xF0 = 0xC0 ∨ s &&& 0xF0 = 0xD0 ∨ s &&& 0xF0 = 0xE0) := by
  interval_cases s <;> decide

theorem data_status_cases {b : Nat} (h : b < 128) : (b &&& 0xF0) &&& 0x80 = 0 := by
  interval_cases b <;> rfl

/-! ## C10 -/

/-- C10: for a status byte `s` in `0xF1..0xFE` other than `0xF2` and `0xF3`,
`readEvent` stops right after the status byte (the stream has advanced by the
delta-time and the status byte only) and `lastOp`, `lastChannel` and every
other field but the buffer `one` and the output are unchanged. -/
theorem unknown_status_no_payload (r : MidiReader) (delta rest : List Nat) (s fuel : Nat)
    (hv : isVarLen delta = true) (hf : delta.length ≤ fuel) (hs : r.midiFile.fail = false)
    (hd : r.midiFile.data.drop r.midiFile.pos = delta ++ s :: rest)
    (h1 : 0xF1 ≤ s) (h2 : s ≤ 0xFE) (h3 : s ≠ 0xF2) (h4 : s ≠ 0xF3) :
    readEvent fuel r =
      some { r with midiFile := { r.midiFile with pos := r.midiFile.pos + delta.length + 1 },
                    one := s,
                    cout := r.cout ++
                      [Out.num "Delta Time: " (unstackVariableNumber delta.reverse),
                       Out.num "Midi Event Status Code: " s] } := by
  rw [readEvent_start r delta rest s fuel hv hf hs hd]
  have hb : s &&& 0x80 ≠ 0 := highbit_set (by omega) (by omega)
  have e0 : s ≠ 0xF0 := by omega
  have e1 : s ≠ 0xFF := by omega
  have e2 : s > 0xF0 := by omega
  simp [dispatch, hb, e0, e1, e2, h3, h4]

/-- C10 at the status byte `0xF4` after a Note-On on channel 3: the following
byte is not consumed and the running status stays `0x90`, channel `3`. -/
theorem unknown_status_no_payload_witness :
    readEvent 1 { onBytes [0x00, 0xF4, 0x10] with lastOp := 0x90, lastChannel := 3 } =
      some { onBytes [0x00, 0xF4, 0x10] with
               lastOp := 0x90, lastChannel := 3,
               midiFile := { data := [0x00, 0xF4, 0x10], pos := 0 + [0x00].length + 1,
                             fail := false },
               one := 0xF4,
               cout := [] ++ [Out.num "Delta Time: " (unstackVariableNumber [0x00].reverse),
                              Out.num "Midi Event Status Code: " 0xF4] } :=
  unknown_status_no_payload { onBytes [0x00, 0xF4, 0x10] with lastOp := 0x90, lastChannel := 3 }
    [0x00] [0x10] 0xF4 1 rfl (by decide) rfl rfl (by decide) (by decide) (by decide) (by decide)

/-! ## C3 -/

/-- C3: for a status byte `s` in `0x80..0xEF` followed by its data bytes,
`readEvent` consumes, after `s`, exactly one byte when `s & 0xF0` is `0xC0` or
`0xD0` and exactly two bytes otherwise, and afterwards `lastOp = s & 0xF0` and
`lastChannel = s & 0x0F`. -/
theorem channel_voice_payload (r : MidiReader) (delta payload rest : List Nat) (s fuel : Nat)
    (hv : isVarLen delta = true) (hf : delta.length ≤ fuel) (hs : r.midiFile.fail = false)
    (hd : r.midiFile.data.drop r.midiFile.pos = delta ++ s :: (payload ++ rest))
    (h1 : 0x80 ≤ s) (h2 : s ≤ 0xEF)
    (hp : payload.length = if s &&& 0xF0 = 0xC0 ∨ s &&& 0xF0 = 0xD0 then 1 else 2) :
    (readEvent fuel r).map (fun r1 => (r1.midiFile, r1.lastOp, r1.lastChannel)) =
      some ({ r.midiFile with
                pos := r.midiFile.pos + delta.length + 1 +
                  (if s &&& 0xF0 = 0xC0 ∨ s &&& 0xF0 = 0xD0 then 1 else 2) },
            s &&& 0xF0, s &&& 0x0F) := by
  rw [readEvent_start r delta (payload ++ rest) s fuel hv hf hs hd]
  have hb : s &&& 0x80 ≠ 0 := highbit_set (by omega) (by omega)
  have e0 : s ≠ 0xF0 := by omega
  have e1 : s ≠ 0xFF := by omega
  have e2 : ¬ s > 0xF0 := by omega
  have e3 : s ≠ 0xF2 := by omega
  have e4 : s ≠ 0xF3 := by omega
  obtain ⟨hrun, hop⟩ := voice_status_cases h1 h2
  have hd1 : r.midiFile.data.drop (r.midiFile.pos + delta.length + 1) = payload ++ rest := by
    rw [Nat.add_assoc]; exact drop_succ_of_cons (drop_add_of_append hd)
  have hd2 : r.midiFile.data.drop (r.midiFile.pos + delta.length + 2) = (payload ++ rest).tail := by
    rw [← hd1, List.tail_drop]
  rcases hop with h | h | h | h | h | h | h <;>
    simp only [h, Nat.reduceEqDiff, or_self, or_true, true_or, if_true, if_false, or_false] at hp ⊢ <;>
    rcases payload with _ | ⟨d1, _ | ⟨d2, _ | ⟨d3, tl⟩⟩⟩ <;>
    simp at hp <;>
    simp [dispatch, channelEvent, switchOp, voice, print, hb, e0, e1, e2, e3, e4, h,
      noteOff, noteOn, pkp, controlChange, pitchWheelChange, programChange, channelPressure,
      takeTwo, takeOne, IfStream.get, hs, hd1, hd2] at hd1 hd2 ⊢

/-- C3 at the Program Change `00 C5 07` followed by one more byte: one data byte
is consumed and the running status becomes `0xC0`, channel `5`. -/
theorem channel_voice_payload_witness :
    (readEvent 1 (onBytes [0x00, 0xC5, 0x07, 0x99])).map
        (fun r1 => (r1.midiFile, r1.lastOp, r1.lastChannel)) =
      some ({ (onBytes [0x00, 0xC5, 0x07, 0x99]).midiFile with
                pos := (onBytes [0x00, 0xC5, 0x07, 0x99]).midiFile.pos + [0x00].length + 1 +
                  (if 0xC5 &&& 0xF0 = 0xC0 ∨ 0xC5 &&& 0xF0 = 0xD0 then 1 else 2) },
            0xC5 &&& 0xF0, 0xC5 &&& 0x0F) :=
  channel_voice_payload (onBytes [0x00, 0xC5, 0x07, 0x99]) [0x00] [0x07] [0x99] 0xC5 1
    rfl (by decide) rfl rfl (by decide) (by decide) (by decide)

/-! ## C2 -/

/-- Running status in general: with `lastOp` a channel-voice opcode, a byte `b`
below `0x80` after the delta-time is pushed back and the switch on `lastOp`
runs on the stream positioned at `b`. -/
theorem running_status_general (r : MidiReader) (delta more rest : List Nat) (b fuel : Nat)
    (hv : isVarLen delta = true) (hf : delta.length ≤ fuel) (hs : r.midiFile.fail = false)
    (hd : r.midiFile.data.drop r.midiFile.pos = delta ++ b :: (more ++ rest))
    (hb : b < 128)
    (hop : r.lastOp ∈ [0x80, 0x90, 0xA0, 0xB0, 0xC0, 0xD0, 0xE0])
    (hm : more.length = if r.lastOp = 0xC0 ∨ r.lastOp = 0xD0 then 0 else 1)
    (hbytes : ∀ x ∈ more, x < 256) :
    readEvent fuel r =
        some (switchOp b r.lastOp r.lastChannel
          { r with midiFile := { r.midiFile with pos := r.midiFile.pos + delta.length },
                   one := b,
                   cout := r.cout ++
                     [Out.num "Delta Time: " (unstackVariableNumber delta.reverse),
                      Out.num "Channel: " r.lastChannel] }) ∧
      ∃ r1 name labels,
        readEvent fuel r = some r1 ∧
        r1.lastOp = r.lastOp ∧ r1.lastChannel = r.lastChannel ∧
        r1.midiFile =
          { r.midiFile with pos := r.midiFile.pos + delta.length + (b :: more).length } ∧
        labels.length = (b :: more).length ∧
        r1.cout = r.cout ++
          [Out.num "Delta Time: " (unstackVariableNumber delta.reverse),
           Out.num "Channel: " r.lastChannel, Out.line name] ++
          List.zipWith (fun l d => Out.num l (d : Int)) labels (b :: more) := by
  have hb0 : b &&& 0x80 = 0 := highbit_clear hb
  have hrun := data_status_cases hb
  have e0 : b ≠ 0xF0 := by omega
  have e1 : b ≠ 0xFF := by omega
  have e2 : ¬ b > 0xF0 := by omega
  have e3 : b ≠ 0xF2 := by omega
  have e4 : b ≠ 0xF3 := by omega
  have hb256 : b < 256 := by omega
  have hd0 : r.midiFile.data.drop (r.midiFile.pos + delta.length) = b :: (more ++ rest) :=
    drop_add_of_append hd
  have hd1 : r.midiFile.data.drop (r.midiFile.pos + delta.length + 1) = more ++ rest :=
    drop_succ_of_cons hd0
  have key : readEvent fuel r =
      some (switchOp b r.lastOp r.lastChannel
        { r with midiFile := { r.midiFile with pos := r.midiFile.pos + delta.length },
                 one := b,
                 cout := r.cout ++
                   [Out.num "Delta Time: " (unstackVariableNumber delta.reverse),
                    Out.num "Channel: " r.lastChannel] }) := by
    rw [readEvent_start r delta (more ++ rest) b fuel hv hf hs hd]
    simp [dispatch, channelEvent, print, hb0, hrun, e0, e1, e2, e3, e4, IfStream.unget, hs]
  refine ⟨key, ?_⟩
  rw [key]
  simp only [List.mem_cons, List.mem_singleton, List.not_mem_nil, or_false] at hop
  rcases hop with h | h | h | h | h | h | h
  · simp [h] at hm
    obtain ⟨d2, rfl⟩ := List.length_eq_one.mp hm
    have hd2lt : d2 < 256 := hbytes d2 (by simp)
    refine ⟨_, "Note Off", ["    Note Number: ", "    Velocity: "], rfl, ?_⟩
    simp [switchOp, voice, print, noteOff, takeTwo, IfStream.get, hs, hd0, hd1, h,
      toUChar_byte hb256, toUChar_byte hd2lt] at hd0 hd1 ⊢
  · simp [h] at hm
    obtain ⟨d2, rfl⟩ := List.length_eq_one.mp hm
    have hd2lt : d2 < 256 := hbytes d2 (by simp)
    refine ⟨_, "Note On", ["    Note Number: ", "    Velocity: "], rfl, ?_⟩
    simp [switchOp, voice, print, noteOn, takeTwo, IfStream.get, hs, hd0, hd1, h,
      toUChar_byte hb256, toUChar_byte hd2lt] at hd0 hd1 ⊢
  · simp [h] at hm
    obtain ⟨d2, rfl⟩ := List.length_eq_one.mp hm
    have hd2lt : d2 < 256 := hbytes d2 (by simp)
    refine ⟨_, "Polyphonic Key Pressure, Aftertouch", ["    Key: ", "    Value: "], rfl, ?_⟩
    simp [switchOp, voice, print, pkp, takeTwo, IfStream.get, hs, hd0, hd1, h,
      toUChar_byte hb256, toUChar_byte hd2lt] at hd0 hd1 ⊢
  · simp [h] at hm
    obtain ⟨d2, rfl⟩ := List.length_eq_one.mp hm
    have hd2lt : d2 < 256 := hbytes d2 (by simp)
    refine ⟨_, "Control Change", ["    Control Change: ", "    Value: "], rfl, ?_⟩
    simp [switchOp, voice, print, controlChange, takeTwo, IfStream.get, hs, hd0, hd1, h,
      toUChar_byte hb256, toUChar_byte hd2lt] at hd0 hd1 ⊢
  · simp [h] at hm
    subst hm
    refine ⟨_, "Program Change", ["    program Change: "], rfl, ?_⟩
    simp [switchOp, voice, print, programChange, takeOne, IfStream.get, hs, hd0, hd1, h,
      toUChar_byte hb256] at hd0 hd1 ⊢
  · simp [h] at hm
    subst hm
    refine ⟨_, "Channel Pressure, Aftertouch", ["    Value: "], rfl, ?_⟩
    simp [switchOp, voice, print, channelPressure, takeOne, IfStream.get, hs, hd0, hd1, h,
      toUChar_byte hb256] at hd0 hd1 ⊢
  · simp [h] at hm
    obtain ⟨d2, rfl⟩ := List.length_eq_one.mp hm
    have hd2lt : d2 < 256 := hbytes d2 (by simp)
    refine ⟨_, "Pitch Wheel Change", ["    Least significant 7bits: ", "    Most significant 7bits: "], rfl, ?_⟩
    simp [switchOp, voice, print, pitchWheelChange, takeTwo, IfStream.get, hs, hd0, hd1, h,
      toUChar_byte hb256, toUChar_byte hd2lt] at hd0 hd1 ⊢

/-- C2: in every state whose running status is a channel-voice opcode `lastOp`
with channel `lastChannel`, an event whose byte `b` after the delta-time has the
high bit clear is decoded with that opcode and channel: the switch on `lastOp`
runs on the stream positioned at `b`, so `b` is reported as the first data byte,
the stream ends just after the data bytes `b :: more`, and `lastOp`,
`lastChannel` keep their values. In particular the stream
`00 90 3C 40 00 3C 00` is printed as two Note-On events on channel 0 with data
`(0x3C, 0x40)` then `(0x3C, 0x00)`, and all 7 bytes are consumed. -/
theorem running_status :
    (∀ (r : MidiReader) (delta more rest : List Nat) (b fuel : Nat),
      isVarLen delta = true → delta.length ≤ fuel → r.midiFile.fail = false →
      r.midiFile.data.drop r.midiFile.pos = delta ++ b :: (more ++ rest) →
      b < 128 →
      r.lastOp ∈ [0x80, 0x90, 0xA0, 0xB0, 0xC0, 0xD0, 0xE0] →
      more.length = (if r.lastOp = 0xC0 ∨ r.lastOp = 0xD0 then 0 else 1) →
      (∀ x ∈ more, x < 256) →
      readEvent fuel r =
          some (switchOp b r.lastOp r.lastChannel
            { r with midiFile := { r.midiFile with pos := r.midiFile.pos + delta.length },
                     one := b,
                     cout := r.cout ++
                       [Out.num "Delta Time: " (unstackVariableNumber delta.reverse),
                        Out.num "Channel: " r.lastChannel] }) ∧
        ∃ r1 name labels,
          readEvent fuel r = some r1 ∧
          r1.lastOp = r.lastOp ∧ r1.lastChannel = r.lastChannel ∧
          r1.midiFile =
            { r.midiFile with pos := r.midiFile.pos + delta.length + (b :: more).length } ∧
          labels.length = (b :: more).length ∧
          r1.cout = r.cout ++
            [Out.num "Delta Time: " (unstackVariableNumber delta.reverse),
             Out.num "Channel: " r.lastChannel, Out.line name] ++
            List.zipWith (fun l d => Out.num l (d : Int)) labels (b :: more)) ∧
    ((readEvent 1 (onBytes [0x00, 0x90, 0x3C, 0x40, 0x00, 0x3C, 0x00])).bind (readEvent 1)).map
        (fun r => (r.cout, r.midiFile, r.lastOp, r.lastChannel)) =
      some ([Out.num "Delta Time: " 0, Out.num "Midi Event Status Code: " 0x90,
             Out.num "Channel: " 0, Out.line "Note On",
             Out.num "    Note Number: " 0x3C, Out.num "    Velocity: " 0x40,
             Out.num "Delta Time: " 0,
             Out.num "Channel: " 0, Out.line "Note On",
             Out.num "    Note Number: " 0x3C, Out.num "    Velocity: " 0x00],
            { data := [0x00, 0x90, 0x3C, 0x40, 0x00, 0x3C, 0x00], pos := 7, fail := false },
            0x90, 0) :=
  ⟨running_status_general, by decide⟩

/-- C2 on the second event of `00 90 3C 40 00 3C 00`: from the state left by the
first event (position 4, running status `0x90`, channel `0`) the byte `3C` is
the first data byte of a Note-On. -/
theorem running_status_witness :
    readEvent 1
        { onBytes [0x00, 0x90, 0x3C, 0x40, 0x00, 0x3C, 0x00] with
            midiFile := { data := [0x00, 0x90, 0x3C, 0x40, 0x00, 0x3C, 0x00], pos := 4,
                          fail := false },
            one := 0x90, lastOp := 0x90, lastChannel := 0,
            cout := [Out.num "Delta Time: " 0, Out.num "Midi Event Status Code: " 0x90,
                     Out.num "Channel: " 0, Out.line "Note On",
                     Out.num "    Note Number: " 0x3C, Out.num "    Velocity: " 0x40] } =
      some (switchOp 0x3C 0x90 0
        { onBytes [0x00, 0x90, 0x3C, 0x40, 0x00, 0x3C, 0x00] with
            midiFile := { data := [0x00, 0x90, 0x3C, 0x40, 0x00, 0x3C, 0x00], pos := 4 + 1,
                          fail := false },
            one := 0x3C, lastOp := 0x90, lastChannel := 0,
            cout := [Out.num "Delta Time: " 0, Out.num "Midi Event Status Code: " 0x90,
                     Out.num "Channel: " 0, Out.line "Note On",
                     Out.num "    Note Number: " 0x3C, Out.num "    Velocity: " 0x40] ++
                    [Out.num "Delta Time: " (unstackVariableNumber [0x00].reverse),
                     Out.num "Channel: " (0 : Nat)] }) :=
  (running_status.1
    { onBytes [0x00, 0x90, 0x3C, 0x40, 0x00, 0x3C, 0x00] with
        midiFile := { data := [0x00, 0x90, 0x3C, 0x40, 0x00, 0x3C, 0x00], pos := 4,
                      fail := false },
        one := 0x90, lastOp := 0x90, lastChannel := 0,
        cout := [Out.num "Delta Time: " 0, Out.num "Midi Event Status Code: " 0x90,
                 Out.num "Channel: " 0, Out.line "Note On",
                 Out.num "    Note Number: " 0x3C, Out.num "    Velocity: " 0x40] }
    [0x00] [0x00] [] 0x3C 1 rfl (by decide) rfl rfl (by decide) (by decide) (by decide)
    (by decide)).1

/-! ## Loops whose counter is an `unsigned char` -/

/-- With too little fuel the read loop does not get through a variable-length
sequence. -/
theorem readVariableLength_short_fuel (delta : List Nat) :
    ∀ (fuel : Nat) (s : IfStream) (one : Nat) (stk rest : List Nat),
      isVarLen delta = true → fuel < delta.length → s.fail = false →
      s.data.drop s.pos = delta ++ rest →
      readVariableLength fuel s one stk = none := by
  induction delta with
  | nil => intro _ _ _ _ _ h; simp [isVarLen] at h
  | cons b bs ih =>
    intro fuel s one stk rest hv hf hs hd
    cases fuel with
    | zero => rfl
    | succ fuel =>
      have hr := read1_cons one hs (by simpa using hd)
      cases bs with
      | nil => simp at hf
      | cons c cs =>
        rw [isVarLen_cons_cons] at hv
        simp only [Bool.and_eq_true, decide_eq_true_eq] at hv
        have hset := highbit_set hv.1.1 hv.1.2
        have hd2 : ({ s with pos := s.pos + 1 } : IfStream).data.drop
            ({ s with pos := s.pos + 1 } : IfStream).pos = (c :: cs) ++ rest :=
          drop_succ_of_cons (by simpa using hd)
        have := ih fuel { s with pos := s.pos + 1 } b (b :: stk) rest hv.2
          (by simpa using hf) hs hd2
        simp only [readVariableLength, hr, ne_eq, hset, not_false_eq_true, if_true, this]

theorem readEvent_short_fuel (r : MidiReader) (delta rest : List Nat) (fuel : Nat)
    (hv : isVarLen delta = true) (hf : fuel < delta.length) (hs : r.midiFile.fail = false)
    (hd : r.midiFile.data.drop r.midiFile.pos = delta ++ rest) :
    readEvent fuel r = none := by
  simp [readEvent, readVariableLength_short_fuel delta fuel r.midiFile r.one [] rest hv hf hs hd]

/-- The SysEx skip loop never ends when the length is 256 or more: the counter
wraps from 255 to 0 and stays below the length. -/
theorem skipLoop_wraps (length : Nat) (hl : 256 ≤ length) :
    ∀ (fuel i : Nat) (s : IfStream), i < 256 → skipLoop fuel i length s = none := by
  intro fuel
  induction fuel with
  | zero => intro i s hi; simp [skipLoop]; omega
  | succ fuel ih =>
    intro i s hi
    have : i < length := by omega
    simp [skipLoop, this, ih ((i + 1) % 256) s.get.2 (Nat.mod_lt _ (by decide))]

/-- The Meta data loop never ends when the length is 256 or more. -/
theorem dataLoop_wraps (length : Nat) (hl : 256 ≤ length) :
    ∀ (fuel i : Nat) (s : IfStream) (data : List Nat), i < 256 →
      dataLoop fuel i length s data = none := by
  intro fuel
  induction fuel with
  | zero => intro i s data hi; simp [dataLoop]; omega
  | succ fuel ih =>
    intro i s data hi
    have : i < length := by omega
    simp [dataLoop, this, ih ((i + 1) % 256) s.get.2 _ (Nat.mod_lt _ (by decide))]

/-- A SysEx event whose declared length is 256 or more never finishes. -/
theorem dispatch_sysex_long (r : MidiReader) (len rest : List Nat) (fuel : Nat)
    (hv : isVarLen len = true) (hs : r.midiFile.fail = false)
    (hd : r.midiFile.data.drop r.midiFile.pos = len ++ rest)
    (hl : 256 ≤ unstackVariableNumber len.reverse) :
    dispatch fuel 0xF0 r = none := by
  rcases Nat.lt_or_ge fuel len.length with hf | hf
  · simp [dispatch, readVariableLength_short_fuel len fuel r.midiFile r.one [] rest hv hf hs hd]
  · simp [dispatch, readVariableLength_isVarLen len fuel r.midiFile r.one [] rest hv hf hs hd,
      skipLoop_wraps _ hl]

/-- A Meta event whose declared length is 256 or more never finishes. -/
theorem dispatch_meta_long (r : MidiReader) (len rest : List Nat) (t fuel : Nat)
    (hv : isVarLen len = true) (hs : r.midiFile.fail = false)
    (hd : r.midiFile.data.drop r.midiFile.pos = t :: (len ++ rest))
    (hl : 256 ≤ unstackVariableNumber len.reverse) :
    dispatch fuel 0xFF r = none := by
  have hd1 : ({ r.midiFile with pos := r.midiFile.pos + 1 } : IfStream).data.drop
      ({ r.midiFile with pos := r.midiFile.pos + 1 } : IfStream).pos = len ++ rest :=
    drop_succ_of_cons hd
  rcases Nat.lt_or_ge fuel len.length with hf | hf
  · have h1 := readVariableLength_short_fuel len fuel
      { r.midiFile with pos := r.midiFile.pos + 1 } r.one [] rest hv hf hs hd1
    simp [dispatch, print, get_cons hs hd, h1]
  · have h1 := readVariableLength_isVarLen len fuel
      { r.midiFile with pos := r.midiFile.pos + 1 } r.one [] rest hv hf hs hd1
    simp [dispatch, print, get_cons hs hd, h1, dataLoop_wraps _ hl]

/-! ## C5 -/

/-- C5 at the declared length 256: on the SysEx event `00 F0 82 00` followed by
256 payload bytes (and an End-of-Track event), `readEvent` does not finish,
whatever the number of loop iterations allowed. -/
theorem sysex_256_never_finishes : ∀ fuel, readEvent fuel (onBytes sysex256) = none := by
  intro fuel
  rcases Nat.lt_or_ge fuel 1 with hf | hf
  · exact readEvent_short_fuel (onBytes sysex256) [0x00] _ fuel rfl hf rfl rfl
  · rw [readEvent_start (onBytes sysex256) [0x00] _ 0xF0 fuel rfl hf rfl rfl]
    exact dispatch_sysex_long _ [0x82, 0x00] _ fuel rfl rfl rfl (by decide)

/-! ## C4 -/

/-- C4 at the payload length 256: on the Meta event `00 FF 01 82 00` followed by
256 payload bytes (and an End-of-Track event), `readEvent` does not finish,
whatever the number of loop iterations allowed. -/
theorem meta_256_never_finishes : ∀ fuel, readEvent fuel (onBytes meta256) = none := by
  intro fuel
  rcases Nat.lt_or_ge fuel 1 with hf | hf
  · exact readEvent_short_fuel (onBytes meta256) [0x00] _ fuel rfl hf rfl rfl
  · rw [readEvent_start (onBytes meta256) [0x00] _ 0xFF fuel rfl hf rfl rfl]
    exact dispatch_meta_long _ [0x82, 0x00] _ 0x01 fuel rfl rfl rfl (by decide)

/-! ## The header -/

theorem as32uint_bytes {a b c d : Nat} (ha : a < 256) (hb : b < 256) (hc : c < 256)
    (hd : d < 256) : as32uint [a, b, c, d] = a * 2 ^ 24 + b * 2 ^ 16 + c * 2 ^ 8 + d := by
  simp only [as32uint, List.getD_cons_succ, List.getD_cons_zero, Nat.shiftLeft_eq]
  omega

theorem as16uint_bytes {a b : Nat} (ha : a < 256) (hb : b < 256) :
    as16uint [a, b] = a * 2 ^ 8 + b := by
  simp only [as16uint, List.getD_cons_succ, List.getD_cons_zero, Nat.shiftLeft_eq]
  omega

theorem land_shiftRight_8 (a b : Nat) : (a &&& b) >>> 8 = (a >>> 8) &&& (b >>> 8) := by
  simp only [Nat.shiftRight_succ, Nat.shiftRight_zero, Nat.and_div_two]

theorem high_byte (d : Nat) : (d &&& 0xff00) >>> 8 = d / 256 % 256 := by
  rw [land_shiftRight_8, Nat.shiftRight_eq_div_pow]
  exact Nat.and_pow_two_sub_one_eq_mod (d / 2 ^ 8) 8

theorem low_byte (d : Nat) : d &&& 0x00FF = d % 256 :=
  Nat.and_pow_two_sub_one_eq_mod d 8

theorem bit15 (d : Nat) : d &&& 0x8000 = if d / 2 ^ 15 % 2 = 1 then 2 ^ 15 else 0 := by
  have := Nat.and_two_pow d 15
  rw [Nat.testBit_to_div_mod] at this
  simp only [Nat.reducePow] at this ⊢
  rw [this]
  split <;> simp [*]

theorem division_bit15 {d0 d1 : Nat} (_hd0 : d0 < 256) (hd1 : d1 < 256) :
    (d0 * 2 ^ 8 + d1) &&& 0x8000 ≠ 0 ↔ 128 ≤ d0 := by
  rw [bit15]
  split <;> rename_i h
  · simp; omega
  · simp; omega

theorem division_high {d0 d1 : Nat} (hd0 : d0 < 256) (hd1 : d1 < 256) (h : 128 ≤ d0) :
    toChar (((d0 * 2 ^ 8 + d1) &&& 0xff00) >>> 8) = (d0 : Int) - 256 := by
  rw [high_byte]
  have : (d0 * 2 ^ 8 + d1) / 256 % 256 = d0 := by omega
  rw [this]
  unfold toChar
  split <;> omega

theorem division_low {d0 d1 : Nat} (_hd0 : d0 < 256) (hd1 : d1 < 256) :
    ((d0 * 2 ^ 8 + d1) &&& 0x00FF) % 256 = d1 := by
  rw [low_byte]
  omega

/-- The loop over the tracks changes the stream, the buffer `four` and the
table only. -/
theorem scanTracks_frame (n : Nat) :
    ∀ r : MidiReader,
      (scanTracks n r).cout = r.cout ∧
      (scanTracks n r).headerChunkType = r.headerChunkType ∧
      (scanTracks n r).headerLength = r.headerLength ∧
      (scanTracks n r).fileFormat = r.fileFormat ∧
      (scanTracks n r).numberOfTracks = r.numberOfTracks ∧
      (scanTracks n r).divisionTime = r.divisionTime ∧
      (scanTracks n r).two = r.two := by
  induction n with
  | zero => intro r; simp [scanTracks]
  | succ n ih =>
    intro r
    simp only [scanTracks]
    simpa [getNextTrackPointer] using ih _

theorem read_of_append {s : IfStream} (buf bs rest : List Nat) (n : Nat)
    (hs : s.fail = false) (hd : s.data.drop s.pos = bs ++ rest) (hn : bs.length = n) :
    s.read buf n = (bs, { s with pos := s.pos + n }) := by
  subst hn
  simp [IfStream.read, hs, hd]

theorem printHeaderContent_eq (r : MidiReader) :
    printHeaderContent r =
      { r with cout := r.cout ++
          ([Out.bytes "Chunk Type: " r.headerChunkType,
            Out.num "Chunk Length: " r.headerLength,
            Out.num "File Format: " r.fileFormat,
            Out.num "Number of Tracks: " r.numberOfTracks] ++
           if r.divisionTime &&& 0x8000 ≠ 0 then
             [Out.line "Division Time Type: SMPTE",
              Out.num "Division Time Format:" (toChar ((r.divisionTime &&& 0xff00) >>> 8)),
              Out.num "Ticks Per Frame: " (((r.divisionTime &&& 0x00FF) % 256 : Nat) : Int)]
           else
             [Out.line "Division Time Type: PPQ",
              Out.num "Division Time Ticks Per Quarter Note: " (as16uint r.two)]) } := by
  unfold printHeaderContent
  simp only [print]
  split <;> simp

/-- The constructor on a file that holds at least the 14 bytes of a header
chunk: the state in which the loop over the tracks starts. -/
theorem construct_header (filename : String) (t0 t1 t2 t3 l0 l1 l2 l3 f0 f1 n0 n1 d0 d1 : Nat)
    (rest : List Nat) :
    construct filename ([t0, t1, t2, t3, l0, l1, l2, l3, f0, f1, n0, n1, d0, d1] ++ rest) =
      scanTracks (as16uint [n0, n1])
        { midiFile := { data := [t0, t1, t2, t3, l0, l1, l2, l3, f0, f1, n0, n1, d0, d1] ++ rest,
                        pos := 0, fail := false },
          one := 0, two := [d0, d1], four := [l0, l1, l2, l3],
          lastOp := 0, lastChannel := 0,
          headerChunkType := [t0, t1, t2, t3],
          headerLength := as32uint [l0, l1, l2, l3],
          fileFormat := as16uint [f0, f1],
          numberOfTracks := as16uint [n0, n1],
          divisionTime := as16uint [d0, d1],
          trackPointers := [], metaMap := metaEventTypes,
          cout := [Out.text "Reading file " filename, separator] ++
            ([Out.bytes "Chunk Type: " [t0, t1, t2, t3],
              Out.num "Chunk Length: " (as32uint [l0, l1, l2, l3]),
              Out.num "File Format: " (as16uint [f0, f1]),
              Out.num "Number of Tracks: " (as16uint [n0, n1])] ++
             if as16uint [d0, d1] &&& 0x8000 ≠ 0 then
               [Out.line "Division Time Type: SMPTE",
                Out.num "Division Time Format:" (toChar ((as16uint [d0, d1] &&& 0xff00) >>> 8)),
                Out.num "Ticks Per Frame: " (((as16uint [d0, d1] &&& 0x00FF) % 256 : Nat) : Int)]
             else
               [Out.line "Division Time Type: PPQ",
                Out.num "Division Time Ticks Per Quarter Note: " (as16uint [d0, d1])]) } := by
  generalize hfile : [t0, t1, t2, t3, l0, l1, l2, l3, f0, f1, n0, n1, d0, d1] ++ rest = file
  have e1 : ∀ buf, IfStream.read { data := file, pos := 0, fail := false } buf 4 =
      ([t0, t1, t2, t3], { data := file, pos := 4, fail := false }) := fun buf =>
    read_of_append buf _ ([l0, l1, l2, l3, f0, f1, n0, n1, d0, d1] ++ rest) 4 rfl
      (by simp [← hfile]) rfl
  have e2 : ∀ buf, IfStream.read { data := file, pos := 4, fail := false } buf 4 =
      ([l0, l1, l2, l3], { data := file, pos := 8, fail := false }) := fun buf =>
    read_of_append buf _ ([f0, f1, n0, n1, d0, d1] ++ rest) 4 rfl (by simp [← hfile]) rfl
  have e3 : ∀ buf, IfStream.read { data := file, pos := 8, fail := false } buf 2 =
      ([f0, f1], { data := file, pos := 10, fail := false }) := fun buf =>
    read_of_append buf _ ([n0, n1, d0, d1] ++ rest) 2 rfl (by simp [← hfile]) rfl
  have e4 : ∀ buf, IfStream.read { data := file, pos := 10, fail := false } buf 2 =
      ([n0, n1], { data := file, pos := 12, fail := false }) := fun buf =>
    read_of_append buf _ ([d0, d1] ++ rest) 2 rfl (by simp [← hfile]) rfl
  have e5 : ∀ buf, IfStream.read { data := file, pos := 12, fail := false } buf 2 =
      ([d0, d1], { data := file, pos := 14, fail := false }) := fun buf =>
    read_of_append buf _ rest 2 rfl (by simp [← hfile]) rfl
  simp only [construct, fresh, print, e1, e2, e3, e4, e5, List.nil_append,
    printHeaderContent_eq]
  rfl

/-- The fields and the output of the constructor on a file that starts with a
14-byte header chunk. -/
theorem construct_header_fields (filename : String)
    (t0 t1 t2 t3 l0 l1 l2 l3 f0 f1 n0 n1 d0 d1 : Nat) (rest : List Nat)
    (hl0 : l0 < 256) (hl1 : l1 < 256) (hl2 : l2 < 256) (hl3 : l3 < 256)
    (hf0 : f0 < 256) (hf1 : f1 < 256) (hn0 : n0 < 256) (hn1 : n1 < 256)
    (hd0 : d0 < 256) (hd1 : d1 < 256) :
    (construct filename
        ([t0, t1, t2, t3, l0, l1, l2, l3, f0, f1, n0, n1, d0, d1] ++ rest)).headerChunkType =
      [t0, t1, t2, t3] ∧
    (construct filename
        ([t0, t1, t2, t3, l0, l1, l2, l3, f0, f1, n0, n1, d0, d1] ++ rest)).headerLength =
      l0 * 2 ^ 24 + l1 * 2 ^ 16 + l2 * 2 ^ 8 + l3 ∧
    (construct filename
        ([t0, t1, t2, t3, l0, l1, l2, l3, f0, f1, n0, n1, d0, d1] ++ rest)).fileFormat =
      f0 * 2 ^ 8 + f1 ∧
    (construct filename
        ([t0, t1, t2, t3, l0, l1, l2, l3, f0, f1, n0, n1, d0, d1] ++ rest)).numberOfTracks =
      n0 * 2 ^ 8 + n1 ∧
    (construct filename
        ([t0, t1, t2, t3, l0, l1, l2, l3, f0, f1, n0, n1, d0, d1] ++ rest)).divisionTime =
      d0 * 2 ^ 8 + d1 ∧
    (construct filename
        ([t0, t1, t2, t3, l0, l1, l2, l3, f0, f1, n0, n1, d0, d1] ++ rest)).cout =
      [Out.text "Reading file " filename, separator,
       Out.bytes "Chunk Type: " [t0, t1, t2, t3],
       Out.num "Chunk Length: " ((l0 * 2 ^ 24 + l1 * 2 ^ 16 + l2 * 2 ^ 8 + l3 : Nat) : Int),
       Out.num "File Format: " ((f0 * 2 ^ 8 + f1 : Nat) : Int),
       Out.num "Number of Tracks: " ((n0 * 2 ^ 8 + n1 : Nat) : Int)] ++
      (if 128 ≤ d0 then
         [Out.line "Division Time Type: SMPTE",
          Out.num "Division Time Format:" ((d0 : Int) - 256),
          Out.num "Ticks Per Frame: " (d1 : Int)]
       else
         [Out.line "Division Time Type: PPQ",
          Out.num "Division Time Ticks Per Quarter Note: " ((d0 * 2 ^ 8 + d1 : Nat) : Int)]) := by
  rw [construct_header]
  obtain ⟨c, h1, h2, h3, h4, h5, _⟩ := scanTracks_frame (as16uint [n0, n1])
    { midiFile := { data := [t0, t1, t2, t3, l0, l1, l2, l3, f0, f1, n0, n1, d0, d1] ++ rest,
                    pos := 0, fail := false },
      one := 0, two := [d0, d1], four := [l0, l1, l2, l3],
      lastOp := 0, lastChannel := 0,
      headerChunkType := [t0, t1, t2, t3],
      headerLength := as32uint [l0, l1, l2, l3],
      fileFormat := as16uint [f0, f1],
      numberOfTracks := as16uint [n0, n1],
      divisionTime := as16uint [d0, d1],
      trackPointers := [], metaMap := metaEventTypes,
      cout := [Out.text "Reading file " filename, separator] ++
        ([Out.bytes "Chunk Type: " [t0, t1, t2, t3],
          Out.num "Chunk Length: " (as32uint [l0, l1, l2, l3]),
          Out.num "File Format: " (as16uint [f0, f1]),
          Out.num "Number of Tracks: " (as16uint [n0, n1])] ++
         if as16uint [d0, d1] &&& 0x8000 ≠ 0 then
           [Out.line "Division Time Type: SMPTE",
            Out.num "Division Time Format:" (toChar ((as16uint [d0, d1] &&& 0xff00) >>> 8)),
            Out.num "Ticks Per Frame: " (((as16uint [d0, d1] &&& 0x00FF) % 256 : Nat) : Int)]
         else
           [Out.line "Division Time Type: PPQ",
            Out.num "Division Time Ticks Per Quarter Note: " (as16uint [d0, d1])]) }
  rw [c, h1, h2, h3, h4, h5]
  refine ⟨rfl, as32uint_bytes hl0 hl1 hl2 hl3, as16uint_bytes hf0 hf1, as16uint_bytes hn0 hn1,
    as16uint_bytes hd0 hd1, ?_⟩
  rw [as32uint_bytes hl0 hl1 hl2 hl3, as16uint_bytes hf0 hf1, as16uint_bytes hn0 hn1,
    as16uint_bytes hd0 hd1, division_low hd0 hd1]
  by_cases h : 128 ≤ d0
  · rw [if_pos ((division_bit15 hd0 hd1).2 h), if_pos h, division_high hd0 hd1 h]
    rfl
  · rw [if_neg (fun hc => h ((division_bit15 hd0 hd1).1 hc)), if_neg h]
    rfl

/-! ## C6 -/

/-- C6: on every file that starts with a 14-byte header chunk, the constructor
stores as chunk length the big-endian 32-bit value of bytes 4..7 and as
format, track count and division the big-endian 16-bit values of bytes 8..9,
10..11 and 12..13; when bit 15 of the division is clear (its high byte is
below `0x80`) the ticks per quarter note that are printed are the division
value. In particular `"MThd"`, length 6, body `00 01 00 02 00 60` gives format
1, track count 2 and PPQ division 96. -/
theorem header_decoding :
    (∀ (filename : String) (t0 t1 t2 t3 l0 l1 l2 l3 f0 f1 n0 n1 d0 d1 : Nat) (rest : List Nat),
      l0 < 256 → l1 < 256 → l2 < 256 → l3 < 256 → f0 < 256 → f1 < 256 →
      n0 < 256 → n1 < 256 → d0 < 256 → d1 < 256 →
      (construct filename
          ([t0, t1, t2, t3, l0, l1, l2, l3, f0, f1, n0, n1, d0, d1] ++ rest)).headerLength =
        l0 * 2 ^ 24 + l1 * 2 ^ 16 + l2 * 2 ^ 8 + l3 ∧
      (construct filename
          ([t0, t1, t2, t3, l0, l1, l2, l3, f0, f1, n0, n1, d0, d1] ++ rest)).fileFormat =
        f0 * 2 ^ 8 + f1 ∧
      (construct filename
          ([t0, t1, t2, t3, l0, l1, l2, l3, f0, f1, n0, n1, d0, d1] ++ rest)).numberOfTracks =
        n0 * 2 ^ 8 + n1 ∧
      (construct filename
          ([t0, t1, t2, t3, l0, l1, l2, l3, f0, f1, n0, n1, d0, d1] ++ rest)).divisionTime =
        d0 * 2 ^ 8 + d1 ∧
      (d0 < 128 →
        (construct filename
            ([t0, t1, t2, t3, l0, l1, l2, l3, f0, f1, n0, n1, d0, d1] ++ rest)).cout =
          [Out.text "Reading file " filename, separator,
           Out.bytes "Chunk Type: " [t0, t1, t2, t3],
           Out.num "Chunk Length: " ((l0 * 2 ^ 24 + l1 * 2 ^ 16 + l2 * 2 ^ 8 + l3 : Nat) : Int),
           Out.num "File Format: " ((f0 * 2 ^ 8 + f1 : Nat) : Int),
           Out.num "Number of Tracks: " ((n0 * 2 ^ 8 + n1 : Nat) : Int),
           Out.line "Division Time Type: PPQ",
           Out.num "Division Time Ticks Per Quarter Note: "
             ((d0 * 2 ^ 8 + d1 : Nat) : Int)])) ∧
    ((fun r : MidiReader => (r.headerLength, r.fileFormat, r.numberOfTracks, r.divisionTime,
          r.cout))
        (construct "song.mid"
          [0x4D, 0x54, 0x68, 0x64, 0x00, 0x00, 0x00, 0x06, 0x00, 0x01, 0x00, 0x02, 0x00, 0x60]) =
      (6, 1, 2, 96,
       [Out.text "Reading file " "song.mid", separator,
        Out.bytes "Chunk Type: " [0x4D, 0x54, 0x68, 0x64],
        Out.num "Chunk Length: " 6, Out.num "File Format: " 1, Out.num "Number of Tracks: " 2,
        Out.line "Division Time Type: PPQ",
        Out.num "Division Time Ticks Per Quarter Note: " 96])) := by
  refine ⟨?_, by decide⟩
  intro filename t0 t1 t2 t3 l0 l1 l2 l3 f0 f1 n0 n1 d0 d1 rest hl0 hl1 hl2 hl3 hf0 hf1 hn0 hn1
    hd0 hd1
  obtain ⟨_, h2, h3, h4, h5, h6⟩ := construct_header_fields filename t0 t1 t2 t3 l0 l1 l2 l3
    f0 f1 n0 n1 d0 d1 rest hl0 hl1 hl2 hl3 hf0 hf1 hn0 hn1 hd0 hd1
  refine ⟨h2, h3, h4, h5, fun h => ?_⟩
  rw [h6, if_neg (by omega)]
  rfl

/-- C6 on the header `"MThd"`, length 6, body `00 01 00 02 00 60`: the stored
chunk length is 6. -/
theorem header_decoding_witness :
    (construct "song.mid"
        ([0x4D, 0x54, 0x68, 0x64, 0x00, 0x00, 0x00, 0x06, 0x00, 0x01, 0x00, 0x02, 0x00, 0x60] ++
          [])).headerLength =
      0x00 * 2 ^ 24 + 0x00 * 2 ^ 16 + 0x00 * 2 ^ 8 + 0x06 :=
  (header_decoding.1 "song.mid" 0x4D 0x54 0x68 0x64 0x00 0x00 0x00 0x06 0x00 0x01 0x00 0x02
    0x00 0x60 [] (by decide) (by decide) (by decide) (by decide) (by decide) (by decide)
    (by decide) (by decide) (by decide) (by decide)).1

/-! ## C7 -/

/-- C7: on every file that starts with a 14-byte header chunk whose division has
bit 15 set (its high byte `d0` is `0x80` or more), the constructor prints the
division as SMPTE, with as frame-rate code the high byte read as a signed 8-bit
integer (`d0 - 256`, hence in `-128..-1`) and as ticks per frame the low byte
(`0..255`). In particular the division bytes `E2 18` give the frame-rate code
`-30` and 24 ticks per frame. -/
theorem smpte_division :
    (∀ (filename : String) (t0 t1 t2 t3 l0 l1 l2 l3 f0 f1 n0 n1 d0 d1 : Nat) (rest : List Nat),
      l0 < 256 → l1 < 256 → l2 < 256 → l3 < 256 → f0 < 256 → f1 < 256 →
      n0 < 256 → n1 < 256 → d0 < 256 → d1 < 256 → 128 ≤ d0 →
      (construct filename
          ([t0, t1, t2, t3, l0, l1, l2, l3, f0, f1, n0, n1, d0, d1] ++ rest)).divisionTime =
        d0 * 2 ^ 8 + d1 ∧
      (construct filename
          ([t0, t1, t2, t3, l0, l1, l2, l3, f0, f1, n0, n1, d0, d1] ++ rest)).cout =
        [Out.text "Reading file " filename, separator,
         Out.bytes "Chunk Type: " [t0, t1, t2, t3],
         Out.num "Chunk Length: " ((l0 * 2 ^ 24 + l1 * 2 ^ 16 + l2 * 2 ^ 8 + l3 : Nat) : Int),
         Out.num "File Format: " ((f0 * 2 ^ 8 + f1 : Nat) : Int),
         Out.num "Number of Tracks: " ((n0 * 2 ^ 8 + n1 : Nat) : Int),
         Out.line "Division Time Type: SMPTE",
         Out.num "Division Time Format:" ((d0 : Int) - 256),
         Out.num "Ticks Per Frame: " (d1 : Int)] ∧
      -128 ≤ (d0 : Int) - 256 ∧ (d0 : Int) - 256 ≤ -1 ∧ d1 ≤ 255) ∧
    (construct "song.mid"
        [0x4D, 0x54, 0x68, 0x64, 0x00, 0x00, 0x00, 0x06, 0x00, 0x01, 0x00, 0x02, 0xE2, 0x18]).cout =
      [Out.text "Reading file " "song.mid", separator,
       Out.bytes "Chunk Type: " [0x4D, 0x54, 0x68, 0x64],
       Out.num "Chunk Length: " 6, Out.num "File Format: " 1, Out.num "Number of Tracks: " 2,
       Out.line "Division Time Type: SMPTE",
       Out.num "Division Time Format:" (-30),
       Out.num "Ticks Per Frame: " 24] := by
  refine ⟨?_, by decide⟩
  intro filename t0 t1 t2 t3 l0 l1 l2 l3 f0 f1 n0 n1 d0 d1 rest hl0 hl1 hl2 hl3 hf0 hf1 hn0 hn1
    hd0 hd1 h
  obtain ⟨_, _, _, _, h5, h6⟩ := construct_header_fields filename t0 t1 t2 t3 l0 l1 l2 l3
    f0 f1 n0 n1 d0 d1 rest hl0 hl1 hl2 hl3 hf0 hf1 hn0 hn1 hd0 hd1
  refine ⟨h5, ?_, by omega, by omega, by omega⟩
  rw [h6, if_pos h]
  rfl

/-- C7 on the header `"MThd"`, length 6, body `00 01 00 02 E2 18`: the stored
division is `0xE218`. -/
theorem smpte_division_witness :
    (construct "song.mid"
        ([0x4D, 0x54, 0x68, 0x64, 0x00, 0x00, 0x00, 0x06, 0x00, 0x01, 0x00, 0x02, 0xE2, 0x18] ++
          [])).divisionTime =
      0xE2 * 2 ^ 8 + 0x18 :=
  (smpte_division.1 "song.mid" 0x4D 0x54 0x68 0x64 0x00 0x00 0x00 0x06 0x00 0x01 0x00 0x02
    0xE2 0x18 [] (by decide) (by decide) (by decide) (by decide) (by decide) (by decide)
    (by decide) (by decide) (by decide) (by decide) (by decide)).1

/-! ## C9 -/

/-- When the track loop returns, every event was begun below the bound and the
final position is not below it. -/
theorem readTrackLoop_started (bound : Nat) :
    ∀ (fuel : Nat) (r r1 : MidiReader) (started : List Nat),
      readTrackLoop fuel bound r = some (r1, started) →
      (∀ p ∈ started, p < bound) ∧ ¬ toU64 r1.midiFile.tellg < bound := by
  intro fuel
  induction fuel with
  | zero =>
    intro r r1 started h
    by_cases hc : toU64 r.midiFile.tellg < bound
    · simp [readTrackLoop, hc] at h
    · simp only [readTrackLoop, hc, if_false, Option.some.injEq, Prod.mk.injEq] at h
      obtain ⟨rfl, rfl⟩ := h
      exact ⟨by simp, hc⟩
  | succ fuel ih =>
    intro r r1 started h
    by_cases hc : toU64 r.midiFile.tellg < bound
    · simp only [readTrackLoop, hc, if_true] at h
      cases he : readEvent fuel (r.print [separator]) with
      | none => simp [he] at h
      | some r2 =>
        cases hl : readTrackLoop fuel bound r2 with
        | none => simp [he, hl] at h
        | some x =>
          obtain ⟨r3, st⟩ := x
          simp only [he, hl, Option.some.injEq, Prod.mk.injEq] at h
          obtain ⟨rfl, rfl⟩ := h
          obtain ⟨h1, h2⟩ := ih r2 r3 st hl
          refine ⟨?_, h2⟩
          intro p hp
          rcases List.mem_cons.mp hp with rfl | hp
          · exact hc
          · exact h1 p hp
    · simp only [readTrackLoop, hc, if_false, Option.some.injEq, Prod.mk.injEq] at h
      obtain ⟨rfl, rfl⟩ := h
      exact ⟨by simp, hc⟩

/-- C9: with `bound = trackStart + trackLength` as computed by `readTrack`,
(1) at a position that is not below the bound the loop of `readTrack` returns
at once, without calling `readEvent`; (2) at a position below the bound it
calls `readEvent` there and goes on from the state that `readEvent` leaves;
(3) whenever `readTrack` returns, every event was begun at a position strictly
below the bound and the final position is not below it; (4) a track of
declared length 0 yields no event; (5) when an event begun below the bound
leaves the stream at or past the bound, the loop returns normally right after
it. In particular on a track of declared length 3 holding the 4-byte event
`00 90 3C 40`, `readTrack` returns after that one event, begun at position 8,
with the stream at position 12 (past the bound 11) and not failed. -/
theorem track_boundary :
    (∀ (fuel bound : Nat) (r : MidiReader), ¬ toU64 r.midiFile.tellg < bound →
      readTrackLoop fuel bound r = some (r, [])) ∧
    (∀ (fuel bound : Nat) (r : MidiReader), toU64 r.midiFile.tellg < bound →
      readTrackLoop (fuel + 1) bound r =
        (readEvent fuel (r.print [separator])).bind (fun r1 =>
          (readTrackLoop fuel bound r1).map (fun x => (x.1, toU64 r.midiFile.tellg :: x.2)))) ∧
    (∀ (fuel : Nat) (r r1 : MidiReader) (started : List Nat),
      readTrack fuel r = some (r1, started) →
      (∀ p ∈ started, p < ((readTrackHeader r).2.2 + (readTrackHeader r).2.1) % 2 ^ 64) ∧
      ¬ toU64 r1.midiFile.tellg <
          ((readTrackHeader r).2.2 + (readTrackHeader r).2.1) % 2 ^ 64) ∧
    (∀ (fuel : Nat) (r : MidiReader), (readTrackHeader r).2.1 = 0 →
      readTrack fuel r = some ((readTrackHeader r).1, [])) ∧
    (∀ (fuel bound : Nat) (r r1 : MidiReader), toU64 r.midiFile.tellg < bound →
      readEvent fuel (r.print [separator]) = some r1 → ¬ toU64 r1.midiFile.tellg < bound →
      readTrackLoop (fuel + 1) bound r = some (r1, [toU64 r.midiFile.tellg])) ∧
    (readTrack 2 (onBytes overrunTrack)).map (fun x => (x.1.midiFile, x.2)) =
      some ({ data := overrunTrack, pos := 12, fail := false }, [8]) := by
  refine ⟨?_, ?_, ?_, ?_, ?_, by decide⟩
  · intro fuel bound r h
    cases fuel <;> simp [readTrackLoop, h]
  · intro fuel bound r h
    simp only [readTrackLoop, h, if_true]
    cases readEvent fuel (r.print [separator]) with
    | none => rfl
    | some r2 =>
      cases hx : readTrackLoop fuel bound r2 with
      | none => simp [hx]
      | some x => simp [hx]
  · intro fuel r r1 started h
    exact readTrackLoop_started _ fuel _ r1 started h
  · intro fuel r h
    have hb : ¬ toU64 (readTrackHeader r).1.midiFile.tellg <
        ((readTrackHeader r).2.2 + (readTrackHeader r).2.1) % 2 ^ 64 := by
      have h2 : (readTrackHeader r).2.2 = toU64 (readTrackHeader r).1.midiFile.tellg := rfl
      have h3 : toU64 (readTrackHeader r).1.midiFile.tellg < 2 ^ 64 := by
        unfold toU64; omega
      rw [h, h2, Nat.add_zero, Nat.mod_eq_of_lt h3]
      exact Nat.lt_irrefl _
    unfold readTrack
    cases fuel <;> simp only [readTrackLoop, if_neg hb]
  · intro fuel bound r r1 h he h1
    simp only [readTrackLoop, h, if_true, he]
    cases fuel <;> simp only [readTrackLoop, if_neg h1]

/-- C9 on the track of declared length 3 that holds the 4-byte event
`00 90 3C 40`: the one event was begun at position 8, below the bound, and the
final position 12 is not below it. -/
theorem track_boundary_witness :
    (∀ p ∈ [8], p < ((readTrackHeader (onBytes overrunTrack)).2.2 +
        (readTrackHeader (onBytes overrunTrack)).2.1) % 2 ^ 64) ∧
    ¬ toU64 (IfStream.tellg { data := overrunTrack, pos := 12, fail := false }) <
        ((readTrackHeader (onBytes overrunTrack)).2.2 +
          (readTrackHeader (onBytes overrunTrack)).2.1) % 2 ^ 64 :=
  track_boundary.2.2.1 2 (onBytes overrunTrack)
    { onBytes overrunTrack with
          midiFile := { data := overrunTrack, pos := 12, fail := false },
          one := 0x90, four := [0x00, 0x00, 0x00, 0x03], lastOp := 0x90, lastChannel := 0,
          cout := [separator, Out.bytes "Chunk Type: " [0x4D, 0x54, 0x72, 0x6B],
                   Out.num "Chunk Length: " 3, separator,
                   Out.num "Delta Time: " 0, Out.num "Midi Event Status Code: " 0x90,
                   Out.num "Channel: " 0, Out.line "Note On",
                   Out.num "    Note Number: " 0x3C, Out.num "    Velocity: " 0x40] }
    [8] (by decide)

/-! ## The table of track positions -/

theorem as32uint_be32 {n : Nat} (h : n < 2 ^ 32) : as32uint (be32 n) = n := by
  unfold be32
  rw [as32uint_bytes (Nat.mod_lt _ (by decide)) (Nat.mod_lt _ (by decide))
    (Nat.mod_lt _ (by decide)) (Nat.mod_lt _ (by decide))]
  omega

theorem be32_length (n : Nat) : (be32 n).length = 4 := rfl

theorem trackChunk_length (c : List Nat × List Nat) :
    (trackChunk c).length = c.1.length + 4 + c.2.length := by
  simp [trackChunk, be32_length]; omega

theorem toU64_pos {p : Nat} (h : p < 2 ^ 64) : toU64 (p : Int) = p := by
  unfold toU64; omega

theorem toStreamoff_pos {p : Nat} (h : p < 2 ^ 63) : toStreamoff p = (p : Int) := by
  unfold toStreamoff
  have : p % 2 ^ 64 = p := Nat.mod_eq_of_lt (by omega)
  rw [this, if_pos h]

/-- `getNextTrackPointer` at the start of a chunk: the position just after the
contents of the chunk. -/
theorem getNextTrackPointer_chunk (r : MidiReader) (c : List Nat × List Nat) (rest : List Nat)
    (hs : r.midiFile.fail = false)
    (hd : r.midiFile.data.drop r.midiFile.pos = trackChunk c ++ rest)
    (htag : c.1.length = 4) (hlen : c.2.length < 2 ^ 32) (hpos : r.midiFile.pos < 2 ^ 63) :
    getNextTrackPointer r =
      (r.midiFile.pos + 8 + c.2.length,
       { r with midiFile := { r.midiFile with pos := r.midiFile.pos + 8 },
                four := be32 c.2.length }) := by
  obtain ⟨⟨data, pos, fl⟩, one, two, four, lo, lc, hct, hl, ff, nt, dt, tp, mm, co⟩ := r
  simp only at hs hd hpos ⊢
  subst hs
  have hd0 : data.drop pos = c.1 ++ (be32 c.2.length ++ (c.2 ++ rest)) := by
    rw [hd, trackChunk]; simp
  have e1 := read_of_append (s := ⟨data, pos, false⟩) four c.1 _ 4 rfl hd0 htag
  have hd1 : data.drop (pos + 4) = be32 c.2.length ++ (c.2 ++ rest) := by
    have := drop_add_of_append hd0
    rw [htag] at this
    exact this
  have e2 := read_of_append (s := ⟨data, pos + 4, false⟩) c.1
    (be32 c.2.length) _ 4 rfl hd1 (be32_length _)
  have e3 : toU64 ((pos + 4 + 4 : Nat) : Int) = pos + 8 := by
    rw [toU64_pos (by omega)]
  have e4 : (pos + (8 + c.2.length)) % 2 ^ 64 = pos + (8 + c.2.length) :=
    Nat.mod_eq_of_lt (by omega)
  simp only [getNextTrackPointer, e1, e2, IfStream.tellg, as32uint_be32 hlen]
  simp only [Bool.false_eq_true, if_false, e3, e4, Nat.add_assoc, Nat.reduceAdd]

theorem seekg_pos (s : IfStream) {p : Nat} (hs : s.fail = false) (hp : p < 2 ^ 63) :
    s.seekg (toStreamoff p) = { s with pos := p } := by
  rw [toStreamoff_pos hp]
  simp [IfStream.seekg, hs]

/-- One iteration of the constructor's loop at the start of a chunk: the end of
the chunk is appended to the table and the stream is moved there. -/
theorem scanTracks_step (n : Nat) (r : MidiReader) (c : List Nat × List Nat)
    (pre rest : List Nat)
    (hm : r.midiFile = { data := pre ++ (trackChunk c ++ rest), pos := pre.length, fail := false })
    (htag : c.1.length = 4) (hlen : c.2.length < 2 ^ 32)
    (hsize : (pre ++ (trackChunk c ++ rest)).length < 2 ^ 63) :
    scanTracks (n + 1) r =
      scanTracks n
        { r with midiFile := { data := pre ++ (trackChunk c ++ rest),
                               pos := pre.length + 8 + c.2.length, fail := false },
                 four := be32 c.2.length,
                 trackPointers := r.trackPointers ++ [pre.length + 8 + c.2.length] } := by
  have hl := trackChunk_length c
  simp only [List.length_append] at hsize
  have hd : r.midiFile.data.drop r.midiFile.pos = trackChunk c ++ rest := by
    rw [hm]; simp
  have hg := getNextTrackPointer_chunk r c rest (by rw [hm]) hd htag hlen (by rw [hm]; simp; omega)
  have hk : ({ data := pre ++ (trackChunk c ++ rest), pos := pre.length + 8, fail := false } :
      IfStream).seekg (toStreamoff (pre.length + 8 + c.2.length)) =
      { data := pre ++ (trackChunk c ++ rest), pos := pre.length + 8 + c.2.length,
        fail := false } := by
    rw [seekg_pos _ rfl (by omega)]
  simp only [scanTracks, hg, hm, hk]

/-- The constructor's loop on a stream positioned at the start of a chunk `c0`
that is followed by the chunks `cs`: one iteration per chunk of `cs` fills the
table with the positions at which the chunks of `cs` start. -/
theorem scanTracks_chunks (cs : List (List Nat × List Nat)) :
    ∀ (c0 : List Nat × List Nat) (pre post : List Nat) (r : MidiReader),
      c0.1.length = 4 → c0.2.length < 2 ^ 32 →
      (∀ c ∈ cs, c.1.length = 4 ∧ c.2.length < 2 ^ 32) →
      r.midiFile = { data := pre ++ (trackChunk c0 ++ (chunks cs ++ post)),
                     pos := pre.length, fail := false } →
      (pre ++ (trackChunk c0 ++ (chunks cs ++ post))).length < 2 ^ 63 →
      (scanTracks cs.length r).trackPointers =
          r.trackPointers ++ chunkStarts (pre.length + 8 + c0.2.length) cs ∧
        (scanTracks cs.length r).midiFile.data = r.midiFile.data ∧
        (scanTracks cs.length r).midiFile.fail = false := by
  induction cs with
  | nil =>
    intro c0 pre post r _ _ _ hm _
    simp [scanTracks, chunkStarts, hm]
  | cons c1 cs ih =>
    intro c0 pre post r htag hlen hcs hm hsize
    have hl := trackChunk_length c0
    rw [List.length_cons, scanTracks_step cs.length r c0 pre (chunks (c1 :: cs) ++ post) hm htag
      hlen hsize]
    have hdata : pre ++ (trackChunk c0 ++ (chunks (c1 :: cs) ++ post)) =
        (pre ++ trackChunk c0) ++ (trackChunk c1 ++ (chunks cs ++ post)) := by
      simp [chunks]
    have hpos : pre.length + 8 + c0.2.length = (pre ++ trackChunk c0).length := by
      rw [List.length_append, hl, htag]; omega
    obtain ⟨h1, h2, h3⟩ := ih c1 (pre ++ trackChunk c0) post
      { r with midiFile := { data := pre ++ (trackChunk c0 ++ (chunks (c1 :: cs) ++ post)),
                             pos := pre.length + 8 + c0.2.length, fail := false },
               four := be32 c0.2.length,
               trackPointers := r.trackPointers ++ [pre.length + 8 + c0.2.length] }
      (hcs c1 (List.mem_cons_self _ _)).1 (hcs c1 (List.mem_cons_self _ _)).2
      (fun c hc => hcs c (List.mem_cons_of_mem _ hc))
      (by rw [hdata, hpos]) (by rw [← hdata]; exact hsize)
    refine ⟨?_, ?_, h3⟩
    · rw [h1, ← hpos]
      simp [chunkStarts]
    · rw [h2, hm]

theorem chunkStarts_length (cs : List (List Nat × List Nat)) :
    ∀ p, (chunkStarts p cs).length = cs.length := by
  induction cs with
  | nil => intro p; rfl
  | cons c cs ih => intro p; simp [chunkStarts, ih]

theorem chunks_append (as bs : List (List Nat × List Nat)) :
    chunks (as ++ bs) = chunks as ++ chunks bs := by
  induction as with
  | nil => rfl
  | cons a as ih => simp [chunks, ih]

/-- The chunk number `i` starts after the chunks before it. -/
theorem chunkStarts_get (cs : List (List Nat × List Nat)) :
    ∀ (p i : Nat) (c : List Nat × List Nat),
      (∀ x ∈ cs, x.1.length = 4 ∧ x.2.length < 2 ^ 32) → cs.get? i = some c →
      (chunkStarts p cs).get? i = some (p + (chunks (cs.take i)).length) := by
  induction cs with
  | nil => intro p i c _ h; simp at h
  | cons a as ih =>
    intro p i c hcs h
    cases i with
    | zero => simp [chunkStarts, chunks]
    | succ i =>
      have ha := (hcs a (List.mem_cons_self _ _)).1
      have := ih (p + 8 + a.2.length) i c (fun x hx => hcs x (List.mem_cons_of_mem _ hx))
        (by simpa using h)
      simp only [chunkStarts, List.get?_cons_succ, this, List.take_succ_cons, chunks,
        List.length_append, trackChunk_length, ha]
      congr 1
      omega

theorem chunks_split (cs : List (List Nat × List Nat)) :
    ∀ (i : Nat) (c : List Nat × List Nat), cs.get? i = some c →
      chunks cs = chunks (cs.take i) ++ (trackChunk c ++ chunks (cs.drop (i + 1))) := by
  induction cs with
  | nil => intro i c h; simp at h
  | cons a as ih =>
    intro i c h
    cases i with
    | zero =>
      have : a = c := by simpa using h
      subst this
      simp [chunks]
    | succ i =>
      have := ih i c (by simpa using h)
      simp only [chunks, List.take_succ_cons, List.drop_succ_cons, List.append_assoc]
      rw [this]

/-- `readTrackHeader` on a stream positioned at the start of a chunk. -/
theorem readTrackHeader_chunk (r : MidiReader) (c : List Nat × List Nat) (pre rest : List Nat)
    (hm : r.midiFile = { data := pre ++ (trackChunk c ++ rest), pos := pre.length, fail := false })
    (htag : c.1.length = 4) (hlen : c.2.length < 2 ^ 32)
    (hsize : (pre ++ (trackChunk c ++ rest)).length < 2 ^ 63) :
    readTrackHeader r =
      ({ r with midiFile := { data := pre ++ (trackChunk c ++ rest), pos := pre.length + 8,
                              fail := false },
                four := be32 c.2.length,
                cout := r.cout ++ [separator, Out.bytes "Chunk Type: " c.1,
                                   Out.num "Chunk Length: " (c.2.length : Int)] },
       c.2.length, pre.length + 8) := by
  have hl := trackChunk_length c
  simp only [List.length_append] at hsize
  have hd0 : (pre ++ (trackChunk c ++ rest)).drop pre.length =
      c.1 ++ (be32 c.2.length ++ (c.2 ++ rest)) := by
    simp [trackChunk]
  have e1 := read_of_append (s := ⟨pre ++ (trackChunk c ++ rest), pre.length, false⟩) r.four c.1 _
    4 rfl hd0 htag
  have hd1 : (pre ++ (trackChunk c ++ rest)).drop (pre.length + 4) =
      be32 c.2.length ++ (c.2 ++ rest) := by
    have := drop_add_of_append hd0
    rw [htag] at this
    exact this
  have e2 := read_of_append (s := ⟨pre ++ (trackChunk c ++ rest), pre.length + 4, false⟩) c.1
    (be32 c.2.length) _ 4 rfl hd1 (be32_length _)
  have e3 : toU64 ((pre.length + 4 + 4 : Nat) : Int) = pre.length + 8 := by
    rw [toU64_pos (by omega)]
  simp only [readTrackHeader, print, hm, e1, e2, IfStream.tellg, as32uint_be32 hlen]
  simp only [Bool.false_eq_true, if_false, e3, Nat.add_assoc, Nat.reduceAdd, List.append_assoc,
    List.cons_append, List.nil_append]

/-- The constructor on a file made of a header chunk and track chunks: the
table holds the positions at which the track chunks start, and the stream has
not failed. -/
theorem construct_chunks (filename : String) (t0 t1 t2 t3 f0 f1 n0 n1 d0 d1 : Nat)
    (extra : List Nat) (tracks : List (List Nat × List Nat))
    (hn0 : n0 < 256) (hn1 : n1 < 256)
    (hH : 6 + extra.length < 2 ^ 32) (hN : tracks.length = n0 * 2 ^ 8 + n1)
    (htracks : ∀ c ∈ tracks, c.1.length = 4 ∧ c.2.length < 2 ^ 32)
    (hsize : (chunks (([t0, t1, t2, t3], [f0, f1, n0, n1, d0, d1] ++ extra) :: tracks)).length
      < 2 ^ 63) :
    (construct filename
        (chunks (([t0, t1, t2, t3], [f0, f1, n0, n1, d0, d1] ++ extra) :: tracks))).trackPointers =
      chunkStarts (8 + (6 + extra.length)) tracks ∧
    (construct filename
        (chunks (([t0, t1, t2, t3], [f0, f1, n0, n1, d0, d1] ++ extra) :: tracks))).midiFile.data =
      chunks (([t0, t1, t2, t3], [f0, f1, n0, n1, d0, d1] ++ extra) :: tracks) ∧
    (construct filename
        (chunks (([t0, t1, t2, t3], [f0, f1, n0, n1, d0, d1] ++ extra) :: tracks))).midiFile.fail =
      false := by
  have hlen : ([f0, f1, n0, n1, d0, d1] ++ extra).length = 6 + extra.length := by
    simp only [List.length_append, List.length_cons, List.length_nil]
  have hfile : chunks (([t0, t1, t2, t3], [f0, f1, n0, n1, d0, d1] ++ extra) :: tracks) =
      [t0, t1, t2, t3, (6 + extra.length) / 2 ^ 24 % 256, (6 + extra.length) / 2 ^ 16 % 256,
        (6 + extra.length) / 2 ^ 8 % 256, (6 + extra.length) % 256, f0, f1, n0, n1, d0, d1] ++
        (extra ++ chunks tracks) := by
    simp only [chunks, trackChunk, be32, List.cons_append, List.nil_append, List.append_assoc]
    rw [show (f0 :: f1 :: n0 :: n1 :: d0 :: d1 :: extra).length = 6 + extra.length by
      simp only [List.length_cons]; omega]
  have hfile2 : chunks (([t0, t1, t2, t3], [f0, f1, n0, n1, d0, d1] ++ extra) :: tracks) =
      [] ++ (trackChunk ([t0, t1, t2, t3], [f0, f1, n0, n1, d0, d1] ++ extra) ++
        (chunks tracks ++ [])) := by
    simp [chunks]
  have hc := construct_header filename t0 t1 t2 t3 ((6 + extra.length) / 2 ^ 24 % 256)
    ((6 + extra.length) / 2 ^ 16 % 256) ((6 + extra.length) / 2 ^ 8 % 256)
    ((6 + extra.length) % 256) f0 f1 n0 n1 d0 d1 (extra ++ chunks tracks)
  rw [← hfile, as16uint_bytes hn0 hn1, ← hN] at hc
  obtain ⟨R0, hR0, hT0, hcR⟩ : ∃ R0 : MidiReader,
      R0.midiFile = IfStream.mk
        (chunks (([t0, t1, t2, t3], [f0, f1, n0, n1, d0, d1] ++ extra) :: tracks)) 0 false ∧
      R0.trackPointers = [] ∧
      construct filename
        (chunks (([t0, t1, t2, t3], [f0, f1, n0, n1, d0, d1] ++ extra) :: tracks)) =
          scanTracks tracks.length R0 := by
    refine ⟨_, ?_, ?_, hc⟩ <;> rfl
  rw [hcR]
  obtain ⟨h1, h2, h3⟩ := scanTracks_chunks tracks
    ([t0, t1, t2, t3], [f0, f1, n0, n1, d0, d1] ++ extra) [] [] R0 rfl
    (by rw [hlen]; exact hH) htracks (by rw [← hfile2]; exact hR0)
    (by rw [← hfile2]; exact hsize)
  refine ⟨?_, ?_, h3⟩
  · rw [h1, hT0, hlen]
    simp
  · rw [h2, hR0]

theorem headerFile_eq (t0 t1 t2 t3 f0 f1 n0 n1 d0 d1 : Nat) (extra : List Nat)
    (tracks : List (List Nat × List Nat)) :
    chunks (([t0, t1, t2, t3], [f0, f1, n0, n1, d0, d1] ++ extra) :: tracks) =
      [t0, t1, t2, t3, (6 + extra.length) / 2 ^ 24 % 256, (6 + extra.length) / 2 ^ 16 % 256,
        (6 + extra.length) / 2 ^ 8 % 256, (6 + extra.length) % 256, f0, f1, n0, n1, d0, d1] ++
        (extra ++ chunks tracks) := by
  simp only [chunks, trackChunk, be32, List.cons_append, List.nil_append, List.append_assoc]
  rw [show (f0 :: f1 :: n0 :: n1 :: d0 :: d1 :: extra).length = 6 + extra.length by
    simp only [List.length_cons]; omega]

/-! ## C8 -/

/-- C8: let `file` be a header chunk (tag `t0..t3`, body `f0 f1 n0 n1 d0 d1` and
possibly more bytes, declared length the length of the body, track count
`n0 n1` equal to the number of track chunks) followed by the track chunks
`tracks`, each a 4-byte tag, the length of its contents as a 32-bit big-endian
value, and its contents. Then the constructor builds a table with one entry per
track and prints the header only; and for every track `i`, with `pre` the bytes
of the file before the chunk of track `i`, entry `i` of the table is the
position `pre.length` of that chunk, `setTrack i` succeeds, and `readTrack`
then runs its loop from `trackStart = pre.length + 8`, the position just after
the length field of track `i`, with the bound `trackStart + length of the
contents of track i`. -/
theorem track_location (filename : String) (t0 t1 t2 t3 f0 f1 n0 n1 d0 d1 : Nat)
    (extra : List Nat) (tracks : List (List Nat × List Nat)) (file : List Nat)
    (hfile : file = chunks (([t0, t1, t2, t3], [f0, f1, n0, n1, d0, d1] ++ extra) :: tracks))
    (hf0 : f0 < 256) (hf1 : f1 < 256) (hn0 : n0 < 256) (hn1 : n1 < 256)
    (hd0 : d0 < 256) (hd1 : d1 < 256)
    (hH : 6 + extra.length < 2 ^ 32) (hN : tracks.length = n0 * 2 ^ 8 + n1)
    (htracks : ∀ c ∈ tracks, c.1.length = 4 ∧ c.2.length < 2 ^ 32)
    (hsize : file.length < 2 ^ 63) :
    (construct filename file).trackPointers.length = tracks.length ∧
    (construct filename file).cout =
      [Out.text "Reading file " filename, separator,
       Out.bytes "Chunk Type: " [t0, t1, t2, t3],
       Out.num "Chunk Length: " ((6 + extra.length : Nat) : Int),
       Out.num "File Format: " ((f0 * 2 ^ 8 + f1 : Nat) : Int),
       Out.num "Number of Tracks: " (tracks.length : Int)] ++
      (if 128 ≤ d0 then
         [Out.line "Division Time Type: SMPTE",
          Out.num "Division Time Format:" ((d0 : Int) - 256),
          Out.num "Ticks Per Frame: " (d1 : Int)]
       else
         [Out.line "Division Time Type: PPQ",
          Out.num "Division Time Ticks Per Quarter Note: " ((d0 * 2 ^ 8 + d1 : Nat) : Int)]) ∧
    ∀ (i : Nat) (tag content : List Nat), tracks.get? i = some (tag, content) →
      ∃ (pre post : List Nat) (ri : MidiReader),
        pre = chunks (([t0, t1, t2, t3], [f0, f1, n0, n1, d0, d1] ++ extra) :: tracks.take i) ∧
        post = chunks (tracks.drop (i + 1)) ∧
        file = pre ++ (tag ++ (be32 content.length ++ (content ++ post))) ∧
        (construct filename file).trackPointers.get? i = some pre.length ∧
        setTrack (construct filename file) i = some ri ∧
        (readTrackHeader ri).2.2 = pre.length + 8 ∧
        (readTrackHeader ri).2.1 = content.length ∧
        (readTrackHeader ri).1.midiFile =
          { data := file, pos := pre.length + 8, fail := false } ∧
        ∀ fuel, readTrack fuel ri =
          readTrackLoop fuel (pre.length + 8 + content.length) (readTrackHeader ri).1 := by
  subst hfile
  obtain ⟨h1, h2, h3⟩ := construct_chunks filename t0 t1 t2 t3 f0 f1 n0 n1 d0 d1 extra tracks
    hn0 hn1 hH hN htracks hsize
  refine ⟨?_, ?_, ?_⟩
  · rw [h1, chunkStarts_length]
  · rw [headerFile_eq]
    have hl : ∀ k, k % 256 < 256 := fun k => Nat.mod_lt _ (by decide)
    have := (construct_header_fields filename t0 t1 t2 t3 ((6 + extra.length) / 2 ^ 24 % 256)
      ((6 + extra.length) / 2 ^ 16 % 256) ((6 + extra.length) / 2 ^ 8 % 256)
      ((6 + extra.length) % 256) f0 f1 n0 n1 d0 d1 (extra ++ chunks tracks)
      (hl _) (hl _) (hl _) (hl _) hf0 hf1 hn0 hn1 hd0 hd1).2.2.2.2.2
    rw [this, hN]
    have e : (6 + extra.length) / 2 ^ 24 % 256 * 2 ^ 24 + (6 + extra.length) / 2 ^ 16 % 256 * 2 ^ 16
        + (6 + extra.length) / 2 ^ 8 % 256 * 2 ^ 8 + (6 + extra.length) % 256
        = 6 + extra.length := by omega
    rw [e]
  · intro i tag content hi
    have hsplit := chunks_split tracks i (tag, content) hi
    have htc := htracks (tag, content) (List.get?_mem hi)
    have hhdr := trackChunk_length ([t0, t1, t2, t3], [f0, f1, n0, n1, d0, d1] ++ extra)
    have hfile : chunks (([t0, t1, t2, t3], [f0, f1, n0, n1, d0, d1] ++ extra) :: tracks) =
        chunks (([t0, t1, t2, t3], [f0, f1, n0, n1, d0, d1] ++ extra) :: tracks.take i) ++
          (trackChunk (tag, content) ++ chunks (tracks.drop (i + 1))) := by
      simp only [chunks, List.append_assoc]
      rw [hsplit]
    have hpre : (chunks (([t0, t1, t2, t3], [f0, f1, n0, n1, d0, d1] ++ extra) ::
        tracks.take i)).length = 8 + (6 + extra.length) + (chunks (tracks.take i)).length := by
      simp only [chunks, List.length_append, hhdr, List.length_cons, List.length_nil]
    have hget := chunkStarts_get tracks (8 + (6 + extra.length)) i (tag, content) htracks hi
    rw [← hpre] at hget
    have hlt : (chunks (([t0, t1, t2, t3], [f0, f1, n0, n1, d0, d1] ++ extra) ::
        tracks.take i)).length + 8 + content.length ≤
        (chunks (([t0, t1, t2, t3], [f0, f1, n0, n1, d0, d1] ++ extra) :: tracks)).length := by
      rw [hfile]
      simp only [List.length_append, trackChunk_length, htc.1]
      omega
    have hseek := seekg_pos
      (construct filename
        (chunks (([t0, t1, t2, t3], [f0, f1, n0, n1, d0, d1] ++ extra) :: tracks))).midiFile
      (p := (chunks (([t0, t1, t2, t3], [f0, f1, n0, n1, d0, d1] ++ extra) ::
        tracks.take i)).length) h3 (by omega)
    rw [h2, h3] at hseek
    have hhead := readTrackHeader_chunk
      { construct filename
          (chunks (([t0, t1, t2, t3], [f0, f1, n0, n1, d0, d1] ++ extra) :: tracks)) with
        midiFile := IfStream.mk
          (chunks (([t0, t1, t2, t3], [f0, f1, n0, n1, d0, d1] ++ extra) :: tracks))
          (chunks (([t0, t1, t2, t3], [f0, f1, n0, n1, d0, d1] ++ extra) ::
            tracks.take i)).length false }
      (tag, content)
      (chunks (([t0, t1, t2, t3], [f0, f1, n0, n1, d0, d1] ++ extra) :: tracks.take i))
      (chunks (tracks.drop (i + 1)))
      (by simp only; rw [← hfile]) htc.1 htc.2 (by rw [← hfile]; exact hsize)
    refine ⟨_, _,
      { construct filename
          (chunks (([t0, t1, t2, t3], [f0, f1, n0, n1, d0, d1] ++ extra) :: tracks)) with
        midiFile := IfStream.mk
          (chunks (([t0, t1, t2, t3], [f0, f1, n0, n1, d0, d1] ++ extra) :: tracks))
          (chunks (([t0, t1, t2, t3], [f0, f1, n0, n1, d0, d1] ++ extra) ::
            tracks.take i)).length false },
      rfl, rfl, ?_, ?_, ?_, ?_, ?_, ?_, ?_⟩
    · rw [hfile]; simp [trackChunk]
    · rw [h1, hget]
    · simp only [setTrack, h1, hget, hseek]
    · rw [hhead]
    · rw [hhead]
    · rw [hhead, ← hfile]
    · intro fuel
      unfold readTrack
      rw [hhead]
      simp only
      rw [Nat.mod_eq_of_lt (by omega)]

/-- C8 on a file with two tracks of 4 and 3 bytes: the table has two entries,
the chunks start at positions 14 and 26, and after `setTrack 1` the loop of
`readTrack` is entered at position 34 with the bound 37. -/
theorem track_location_witness :
    (construct "song.mid" twoTrackFile).trackPointers.length = twoTracks.length ∧
    (construct "song.mid" twoTrackFile).trackPointers = [14, 26] ∧
    ((setTrack (construct "song.mid" twoTrackFile) 1).map
        (fun ri => ((readTrackHeader ri).2.2, (readTrackHeader ri).2.1))) = some (34, 3) :=
  ⟨(track_location "song.mid" 0x4D 0x54 0x68 0x64 0x00 0x01 0x00 0x02 0x00 0x60 [] twoTracks
      twoTrackFile rfl (by decide) (by decide) (by decide) (by decide) (by decide) (by decide)
      (by decide) (by decide) (by decide) (by decide)).1,
   by decide, by decide⟩

/-! ## C15 -/

/-- C15: for every sequence of at most four bytes, in the order in which they
are read, `unstackVariableNumber` on the stack that holds them (last byte on
top) returns the most-significant-first value `r := r * 128 + (b & 0x7F)`
from `0`, and that value is below `2 ^ (7 * k) ≤ 2 ^ 28` for `k` bytes; and on
a stream whose next bytes are bytes with the high bit set followed by a byte
with the high bit clear, the read loop stops right after that byte, with
these bytes on the stack, the last one on top. -/
theorem vlq_reference_accumulation :
    (∀ bytes : List Nat, bytes.length ≤ 4 →
      unstackVariableNumber bytes.reverse = msbFirst bytes ∧
      unstackVariableNumber bytes.reverse < 2 ^ (7 * bytes.length) ∧
      2 ^ (7 * bytes.length) ≤ 2 ^ 28) ∧
    (∀ (cont rest : List Nat) (last fuel one : Nat) (stk : List Nat) (s : IfStream),
      (∀ x ∈ cont, 128 ≤ x ∧ x < 256) → last < 128 → cont.length + 1 ≤ fuel →
      s.fail = false → s.data.drop s.pos = cont ++ last :: rest →
      readVariableLength fuel s one stk =
        some ({ s with pos := s.pos + (cont.length + 1) }, last, last :: (cont.reverse ++ stk))) := by
  constructor
  · intro bytes h
    have h1 := unstackLoop_msbFirst bytes.reverse 0 0 (by simpa using h) (by decide)
    refine ⟨unstackVariableNumber_msbFirst bytes h, ?_, Nat.pow_le_pow_right (by decide) (by omega)⟩
    simpa [unstackVariableNumber] using h1.2
  · intro cont rest last fuel one stk s hc hl hf hs hd
    have hv := isVarLen_append_last cont last hc hl
    have := readVariableLength_isVarLen (cont ++ [last]) fuel s one stk rest hv (by simpa using hf)
      hs (by simpa using hd)
    simpa using this

/-- C15 on the two bytes `82 2C`: the stack `2C 82` gives `2 * 128 + 44 = 300`. -/
theorem vlq_reference_accumulation_witness :
    unstackVariableNumber [0x82, 0x2C].reverse = msbFirst [0x82, 0x2C] ∧
    unstackVariableNumber [0x82, 0x2C].reverse < 2 ^ (7 * [0x82, 0x2C].length) ∧
    2 ^ (7 * [0x82, 0x2C].length) ≤ 2 ^ 28 :=
  vlq_reference_accumulation.1 [0x82, 0x2C] (by decide)

/-! ## C16 -/

/-- C16: an event with status `0xF2` consumes exactly the two bytes after the
status byte, and an event with status `0xF3` exactly the one byte after it,
whatever these bytes are; nothing but the stream, the buffer `one` and the
output changes, so `lastOp` and `lastChannel` keep their values. -/
theorem system_common_payload :
    (∀ (r : MidiReader) (delta rest : List Nat) (a b fuel : Nat),
      isVarLen delta = true → delta.length ≤ fuel → r.midiFile.fail = false →
      r.midiFile.data.drop r.midiFile.pos = delta ++ 0xF2 :: a :: b :: rest →
      readEvent fuel r =
        some { r with midiFile := { r.midiFile with pos := r.midiFile.pos + delta.length + 1 + 2 },
                      one := 0xF2,
                      cout := r.cout ++
                        [Out.num "Delta Time: " (unstackVariableNumber delta.reverse),
                         Out.num "Midi Event Status Code: " 0xF2,
                         Out.line "Song Position Pointer"] }) ∧
    (∀ (r : MidiReader) (delta rest : List Nat) (a fuel : Nat),
      isVarLen delta = true → delta.length ≤ fuel → r.midiFile.fail = false →
      r.midiFile.data.drop r.midiFile.pos = delta ++ 0xF3 :: a :: rest →
      readEvent fuel r =
        some { r with midiFile := { r.midiFile with pos := r.midiFile.pos + delta.length + 1 + 1 },
                      one := 0xF3,
                      cout := r.cout ++
                        [Out.num "Delta Time: " (unstackVariableNumber delta.reverse),
                         Out.num "Midi Event Status Code: " 0xF3,
                         Out.line "Song Select"] }) := by
  constructor
  · intro r delta rest a b fuel hv hf hs hd
    rw [readEvent_start r delta (a :: b :: rest) 0xF2 fuel hv hf hs hd]
    have hd1 : r.midiFile.data.drop (r.midiFile.pos + delta.length + 1) = a :: b :: rest := by
      rw [Nat.add_assoc]; exact drop_succ_of_cons (drop_add_of_append hd)
    have hd2 : r.midiFile.data.drop (r.midiFile.pos + delta.length + 2) = b :: rest :=
      drop_succ_of_cons hd1
    simp [dispatch, print, IfStream.get, hs, hd1, hd2]
  · intro r delta rest a fuel hv hf hs hd
    rw [readEvent_start r delta (a :: rest) 0xF3 fuel hv hf hs hd]
    have hd1 : r.midiFile.data.drop (r.midiFile.pos + delta.length + 1) = a :: rest := by
      rw [Nat.add_assoc]; exact drop_succ_of_cons (drop_add_of_append hd)
    simp [dispatch, print, IfStream.get, hs, hd1]

/-- C16 on the Song Position Pointer `00 F2 7F FF` after a Note-On on channel
3: two bytes are consumed and the running status stays `0x90`, channel `3`. -/
theorem system_common_payload_witness :
    readEvent 1 { onBytes [0x00, 0xF2, 0x7F, 0xFF, 0x10] with lastOp := 0x90, lastChannel := 3 } =
      some { onBytes [0x00, 0xF2, 0x7F, 0xFF, 0x10] with
               lastOp := 0x90, lastChannel := 3,
               midiFile := { data := [0x00, 0xF2, 0x7F, 0xFF, 0x10],
                             pos := 0 + [0x00].length + 1 + 2, fail := false },
               one := 0xF2,
               cout := [] ++ [Out.num "Delta Time: " (unstackVariableNumber [0x00].reverse),
                              Out.num "Midi Event Status Code: " 0xF2,
                              Out.line "Song Position Pointer"] } :=
  system_common_payload.1
    { onBytes [0x00, 0xF2, 0x7F, 0xFF, 0x10] with lastOp := 0x90, lastChannel := 3 }
    [0x00] [0x10] 0x7F 0xFF 1 rfl (by decide) rfl rfl

/-! ## C11 -/

/-- C11 fails on the code: the five bytes `81 80 80 80 00` are taken as one
variable-length quantity, of value `2 ^ 28`; and on `81 80 80 80 80 00`, which
starts with five bytes that have the high bit set, the read loop returns
normally with all six bytes on the stack. -/
theorem vlq_five_bytes_accepted :
    (readVariableLength 5 { data := [0x81, 0x80, 0x80, 0x80, 0x00, 0x55], pos := 0, fail := false }
        0 []).map (fun x => (x.1, unstackVariableNumber x.2.2)) =
      some ({ data := [0x81, 0x80, 0x80, 0x80, 0x00, 0x55], pos := 5, fail := false }, 2 ^ 28) ∧
    readVariableLength 6
        { data := [0x81, 0x80, 0x80, 0x80, 0x80, 0x00, 0x55], pos := 0, fail := false } 0 [] =
      some ({ data := [0x81, 0x80, 0x80, 0x80, 0x80, 0x00, 0x55], pos := 6, fail := false }, 0x00,
            [0x00, 0x80, 0x80, 0x80, 0x80, 0x81]) := by
  decide

/-- C11 as amended: the read loop has no cap on the number of bytes. On a
stream whose next bytes are any number of bytes with the high bit set (five or
more included) followed by a byte with the high bit clear, it does not fail:
it reads up to that byte and returns with every byte read on the stack. -/
theorem vlq_no_length_cap (cont rest : List Nat) (last fuel one : Nat) (s : IfStream)
    (hc : ∀ x ∈ cont, 128 ≤ x ∧ x < 256) (hl : last < 128)
    (hf : cont.length + 1 ≤ fuel) (hs : s.fail = false)
    (hd : s.data.drop s.pos = cont ++ last :: rest) :
    readVariableLength fuel s one [] =
      some ({ s with pos := s.pos + (cont.length + 1) }, last, last :: cont.reverse) := by
  have hv := isVarLen_append_last cont last hc hl
  have := readVariableLength_isVarLen (cont ++ [last]) fuel s one [] rest hv (by simpa using hf)
    hs (by simpa using hd)
  simpa using this

/-- C11 as amended, on `81 80 80 80 80 00`. -/
theorem vlq_no_length_cap_witness :
    readVariableLength 6
        { data := [0x81, 0x80, 0x80, 0x80, 0x80, 0x00, 0x55], pos := 0, fail := false } 0 [] =
      some ({ data := [0x81, 0x80, 0x80, 0x80, 0x80, 0x00, 0x55],
              pos := 0 + ([0x81, 0x80, 0x80, 0x80, 0x80].length + 1), fail := false }, 0x00,
            0x00 :: [0x81, 0x80, 0x80, 0x80, 0x80].reverse) :=
  vlq_no_length_cap [0x81, 0x80, 0x80, 0x80, 0x80] [0x55] 0x00 6 0
    { data := [0x81, 0x80, 0x80, 0x80, 0x80, 0x00, 0x55], pos := 0, fail := false }
    (by decide) (by decide) (by decide) rfl rfl

/-! ## C12 -/

/-- C12 fails on the code: on `00 3C 40`, read from a new reader (no event
decoded yet), `readEvent` returns normally with the stream at position 1, just
before the byte `3C`, and a second `readEvent` goes on, taking `3C` as a
delta-time. -/
theorem missing_running_status_continues :
    (readEvent 1 (onBytes [0x00, 0x3C, 0x40])).map
        (fun r => (r.cout, r.midiFile, r.lastOp, r.lastChannel)) =
      some ([Out.num "Delta Time: " 0, Out.num "Channel: " 0,
             Out.num "Unknown operation: " 0x3C],
            { data := [0x00, 0x3C, 0x40], pos := 1, fail := false }, 0, 0) ∧
    ((readEvent 1 (onBytes [0x00, 0x3C, 0x40])).bind (readEvent 1)).map
        (fun r => (r.cout, r.midiFile, r.lastOp, r.lastChannel)) =
      some ([Out.num "Delta Time: " 0, Out.num "Channel: " 0,
             Out.num "Unknown operation: " 0x3C,
             Out.num "Delta Time: " 0x3C, Out.num "Channel: " 0,
             Out.num "Unknown operation: " 0x40],
            { data := [0x00, 0x3C, 0x40], pos := 2, fail := false }, 0, 0) := by
  decide

/-- C12 as amended: when the byte `b` after the delta-time has its high bit
clear and no channel-voice event has been decoded yet (`lastOp = 0`),
`readEvent` does not fail. It pushes `b` back, prints the channel and
`Unknown operation` with `b`, and returns with the stream just after the
delta-time and `lastOp`, `lastChannel` unchanged; decoding goes on from there. -/
theorem missing_running_status (r : MidiReader) (delta rest : List Nat) (b fuel : Nat)
    (hv : isVarLen delta = true) (hf : delta.length ≤ fuel) (hs : r.midiFile.fail = false)
    (hd : r.midiFile.data.drop r.midiFile.pos = delta ++ b :: rest)
    (hb : b < 128) (hop : r.lastOp = 0) :
    readEvent fuel r =
      some { r with midiFile := { r.midiFile with pos := r.midiFile.pos + delta.length },
                    one := b,
                    cout := r.cout ++
                      [Out.num "Delta Time: " (unstackVariableNumber delta.reverse),
                       Out.num "Channel: " r.lastChannel,
                       Out.num "Unknown operation: " b] } := by
  have hb0 : b &&& 0x80 = 0 := highbit_clear hb
  have hrun := data_status_cases hb
  have e0 : b ≠ 0xF0 := by omega
  have e1 : b ≠ 0xFF := by omega
  have e2 : ¬ b > 0xF0 := by omega
  have e3 : b ≠ 0xF2 := by omega
  have e4 : b ≠ 0xF3 := by omega
  rw [readEvent_start r delta rest b fuel hv hf hs hd]
  simp [dispatch, channelEvent, switchOp, print, hb0, hrun, e0, e1, e2, e3, e4, IfStream.unget,
    hs, hop]

/-- C12 as amended, on `00 3C 40` read from a new reader. -/
theorem missing_running_status_witness :
    readEvent 1 (onBytes [0x00, 0x3C, 0x40]) =
      some { onBytes [0x00, 0x3C, 0x40] with
               midiFile := { data := [0x00, 0x3C, 0x40], pos := 0 + [0x00].length,
                             fail := false },
               one := 0x3C,
               cout := [] ++ [Out.num "Delta Time: " (unstackVariableNumber [0x00].reverse),
                              Out.num "Channel: " (0 : Nat),
                              Out.num "Unknown operation: " (0x3C : Nat)] } :=
  missing_running_status (onBytes [0x00, 0x3C, 0x40]) [0x00] [0x40] 0x3C 1 rfl (by decide) rfl
    rfl (by decide) rfl

/-! ## C13 -/

/-- The loop over the tracks does not touch the running status. -/
theorem scanTracks_running_status (n : Nat) :
    ∀ r : MidiReader,
      (scanTracks n r).lastOp = r.lastOp ∧ (scanTracks n r).lastChannel = r.lastChannel := by
  induction n with
  | zero => intro r; simp [scanTracks]
  | succ n ih =>
    intro r
    simp only [scanTracks]
    simpa [getNextTrackPointer] using ih _

/-- The constructor leaves the running status at its initial value. -/
theorem construct_running_status (filename : String) (contents : List Nat) :
    (construct filename contents).lastOp = 0 ∧ (construct filename contents).lastChannel = 0 := by
  unfold construct
  simp only [printHeaderContent_eq]
  constructor
  · rw [(scanTracks_running_status _ _).1]; rfl
  · rw [(scanTracks_running_status _ _).2]; rfl

set_option maxRecDepth 8192 in
/-- C13 fails on the code: in the file `twoTrackFile`, after track 1 (a Program
Change on channel 0) has been read, `setTrack 0` moves the stream to position
14 and leaves `lastOp = 0xC0`, whereas a newly opened session has `lastOp = 0`. -/
theorem setTrack_no_reset :
    (((setTrack (construct "song.mid" twoTrackFile) 1).bind (fun r => readTrack 2 r)).bind
        (fun x => setTrack x.1 0)).map (fun r => (r.midiFile.pos, r.lastOp, r.lastChannel)) =
      some (14, 0xC0, 0) ∧
    ((construct "song.mid" twoTrackFile).lastOp, (construct "song.mid" twoTrackFile).lastChannel) =
      (0, 0) := by
  decide

/-- C13 as amended: `setTrack` moves the stream to the position stored in the
table for that track and changes nothing else, so `lastOp` and `lastChannel`
are what the events decoded before left. The running status after `setTrack`
is the `no prior status` state `lastOp = 0`, `lastChannel = 0` when it is
called on the state left by the constructor, as the program does. -/
theorem setTrack_keeps_running_status :
    (∀ (r r1 : MidiReader) (i : Nat), setTrack r i = some r1 →
      ∃ tp, r.trackPointers.get? i = some tp ∧
        r1 = { r with midiFile := r.midiFile.seekg (toStreamoff tp) } ∧
        r1.lastOp = r.lastOp ∧ r1.lastChannel = r.lastChannel) ∧
    (∀ (filename : String) (contents : List Nat) (r1 : MidiReader) (i : Nat),
      setTrack (construct filename contents) i = some r1 → r1.lastOp = 0 ∧ r1.lastChannel = 0) := by
  have key : ∀ (r r1 : MidiReader) (i : Nat), setTrack r i = some r1 →
      ∃ tp, r.trackPointers.get? i = some tp ∧
        r1 = { r with midiFile := r.midiFile.seekg (toStreamoff tp) } ∧
        r1.lastOp = r.lastOp ∧ r1.lastChannel = r.lastChannel := by
    intro r r1 i h
    unfold setTrack at h
    cases hg : r.trackPointers.get? i with
    | none => rw [hg] at h; cases h
    | some tp =>
      rw [hg] at h
      cases h
      exact ⟨tp, rfl, rfl, rfl, rfl⟩
  refine ⟨key, ?_⟩
  intro filename contents r1 i h
  obtain ⟨tp, _, _, h1, h2⟩ := key _ r1 i h
  rw [h1, h2]
  exact construct_running_status filename contents

/-- C13 as amended, on `twoTrackFile`: after `setTrack 1` on a state whose
running status is `0x90`, channel `3`, the running status is still that. -/
theorem setTrack_keeps_running_status_witness :
    ∃ tp, ({ construct "song.mid" twoTrackFile with
              lastOp := 0x90, lastChannel := 3 } : MidiReader).trackPointers.get? 1 = some tp ∧
      ({ construct "song.mid" twoTrackFile with
          lastOp := 0x90, lastChannel := 3,
          midiFile := { data := twoTrackFile, pos := 26, fail := false } } : MidiReader) =
        { ({ construct "song.mid" twoTrackFile with
              lastOp := 0x90, lastChannel := 3 } : MidiReader) with
          midiFile := IfStream.seekg
            ({ construct "song.mid" twoTrackFile with
                lastOp := 0x90, lastChannel := 3 } : MidiReader).midiFile (toStreamoff tp) } ∧
      ({ construct "song.mid" twoTrackFile with
          lastOp := 0x90, lastChannel := 3,
          midiFile := { data := twoTrackFile, pos := 26, fail := false } } : MidiReader).lastOp =
        ({ construct "song.mid" twoTrackFile with
            lastOp := 0x90, lastChannel := 3 } : MidiReader).lastOp ∧
      ({ construct "song.mid" twoTrackFile with
          lastOp := 0x90, lastChannel := 3,
          midiFile := { data := twoTrackFile, pos := 26, fail := false } } : MidiReader).lastChannel =
        ({ construct "song.mid" twoTrackFile with
            lastOp := 0x90, lastChannel := 3 } : MidiReader).lastChannel :=
  setTrack_keeps_running_status.1
    { construct "song.mid" twoTrackFile with lastOp := 0x90, lastChannel := 3 }
    { construct "song.mid" twoTrackFile with
        lastOp := 0x90, lastChannel := 3,
        midiFile := { data := twoTrackFile, pos := 26, fail := false } }
    1 (by decide)

/-! ## C14 -/

theorem read_failed (s : IfStream) (buf : List Nat) (n : Nat) (hs : s.fail = true) :
    s.read buf n = (buf, s) := by
  simp [IfStream.read, hs]

theorem read_short (s : IfStream) (buf : List Nat) (n : Nat) (hs : s.fail = false)
    (hn : (s.data.drop s.pos).length < n) : (s.read buf n).2.fail = true := by
  have : ¬ min n (s.data.length - s.pos) = n := by
    rw [List.length_drop] at hn; omega
  simp [IfStream.read, hs, this]

theorem read_twice_short (s : IfStream) (b1 : List Nat) (hs : s.fail = false)
    (hn : (s.data.drop s.pos).length < 8) :
    ∀ b2, ((s.read b1 4).2.read b2 4).2.fail = true := by
  intro b2
  rcases Nat.lt_or_ge (s.data.drop s.pos).length 4 with h | h
  · have h1 := read_short s b1 4 hs h
    rw [read_failed _ b2 4 h1]
    exact h1
  · have hg : min 4 (s.data.length - s.pos) = 4 := by
      rw [List.length_drop] at h; omega
    have e : s.read b1 4 = ((s.data.drop s.pos).take 4, { s with pos := s.pos + 4 }) := by
      simp [IfStream.read, hs, hg]
    rw [e]
    exact read_short { s with pos := s.pos + 4 } b2 4 hs
      (by simp only [List.length_drop] at hn ⊢; omega)

theorem seekg_failed (s : IfStream) (p : Int) (hs : s.fail = true) : s.seekg p = s := by
  simp [IfStream.seekg, hs]

theorem getNextTrackPointer_failed (r : MidiReader) (hs : r.midiFile.fail = true) :
    (getNextTrackPointer r).2.midiFile = r.midiFile := by
  simp [getNextTrackPointer, read_failed _ _ _ hs]

theorem scanTracks_failed (n : Nat) :
    ∀ r : MidiReader, r.midiFile.fail = true → (scanTracks n r).midiFile.fail = true := by
  induction n with
  | zero => intro r h; simpa [scanTracks] using h
  | succ n ih =>
    intro r h
    simp only [scanTracks]
    apply ih
    simp [getNextTrackPointer_failed r h, IfStream.seekg, h]

theorem scanTracks_length (n : Nat) :
    ∀ r : MidiReader, (scanTracks n r).trackPointers.length = r.trackPointers.length + n := by
  induction n with
  | zero => intro r; simp [scanTracks]
  | succ n ih =>
    intro r
    simp only [scanTracks]
    rw [ih]
    simp [getNextTrackPointer]
    omega

/-- C14 fails on the code: on a file whose first track chunk has only 3 of its 8
header bytes, the constructor completes; the table has the 2 entries that the
header asks for, the second one computed from the failed stream and the
partly filled buffer (`0x4D547206 - 1`), and the stream is left failed. On a
file of 3 bytes the constructor completes as well, with the stream failed. -/
theorem truncated_header_no_error :
    (construct "song.mid" truncatedTrackFile).trackPointers = [14, 0x4D547205] ∧
    (construct "song.mid" truncatedTrackFile).midiFile.fail = true ∧
    (construct "song.mid" [0x4D, 0x54, 0x68]).midiFile.fail = true := by
  decide

/-- C14 as amended: reading a chunk header when fewer than 8 bytes remain
raises no error. `getNextTrackPointer` leaves the stream failed and returns
`2 ^ 64 - 1` (the failed `tellg()`) plus the value of the buffer `four`,
modulo `2 ^ 64`; the constructor on a source shorter than 8 bytes completes
with the stream failed; and the constructor always builds a table of
`numberOfTracks` entries. -/
theorem truncated_chunk_header :
    (∀ r : MidiReader, r.midiFile.fail = false →
      (r.midiFile.data.drop r.midiFile.pos).length < 8 →
      (getNextTrackPointer r).2.midiFile.fail = true ∧
      (getNextTrackPointer r).1 =
        (2 ^ 64 - 1 + as32uint (getNextTrackPointer r).2.four) % 2 ^ 64) ∧
    (∀ (filename : String) (contents : List Nat), contents.length < 8 →
      (construct filename contents).midiFile.fail = true) ∧
    (∀ (filename : String) (contents : List Nat),
      (construct filename contents).trackPointers.length =
        (construct filename contents).numberOfTracks) := by
  refine ⟨?_, ?_, ?_⟩
  · intro r hs hn
    have hf := read_twice_short r.midiFile r.four hs hn (r.midiFile.read r.four 4).1
    refine ⟨hf, ?_⟩
    simp only [getNextTrackPointer, IfStream.tellg, hf, if_true]
    rfl
  · intro filename contents hn
    unfold construct
    simp only [printHeaderContent_eq]
    apply scanTracks_failed
    have hf := read_twice_short { data := contents, pos := 0, fail := false } [0, 0, 0, 0] rfl
      (by simpa using hn)
      (IfStream.read { data := contents, pos := 0, fail := false } [0, 0, 0, 0] 4).1
    have e3 := read_failed _ [0, 0] 2 hf
    simp only [fresh, print, e3, seekg_failed _ _ hf, hf]
  · intro filename contents
    unfold construct
    simp only [printHeaderContent_eq]
    rw [scanTracks_length, (scanTracks_frame _ _).2.2.2.2.1]
    simp [fresh, print]

/-- C14 as amended, on the stream of `truncatedTrackFile` at position 14, where
3 bytes remain. -/
theorem truncated_chunk_header_witness :
    (getNextTrackPointer
        { onBytes truncatedTrackFile with
            midiFile := { data := truncatedTrackFile, pos := 14, fail := false } }).2.midiFile.fail =
      true ∧
    (getNextTrackPointer
        { onBytes truncatedTrackFile with
            midiFile := { data := truncatedTrackFile, pos := 14, fail := false } }).1 =
      (2 ^ 64 - 1 + as32uint (getNextTrackPointer
        { onBytes truncatedTrackFile with
            midiFile := { data := truncatedTrackFile, pos := 14, fail := false } }).2.four) %
        2 ^ 64 :=
  truncated_chunk_header.1
    { onBytes truncatedTrackFile with
        midiFile := { data := truncatedTrackFile, pos := 14, fail := false } }
    rfl (by decide)

/-! ## C17 -/

theorem mapIndex_label (m : List (Nat × String)) (k : Nat) :
    (mapIndex m k).1 = (m.lookup k).getD "" := by
  unfold mapIndex
  cases m.lookup k <;> rfl

/-- A lookup leaves the label of every key as it was. -/
theorem mapIndex_mapIndex (m : List (Nat × String)) (t k : Nat) :
    (mapIndex (mapIndex m t).2 k).1 = (mapIndex m k).1 := by
  rw [mapIndex_label, mapIndex_label]
  unfold mapIndex
  cases ht : m.lookup t with
  | some v => rfl
  | none =>
    simp only [List.lookup_append]
    cases hk : m.lookup k with
    | some v => rfl
    | none =>
      simp only [Option.or, List.lookup_cons, List.lookup_nil]
      cases k == t <;> rfl

theorem mapIndex_foldl (ts : List Nat) (k : Nat) :
    ∀ m : List (Nat × String),
      (mapIndex (ts.foldl (fun m t => (mapIndex m t).2) m) k).1 = (mapIndex m k).1 := by
  induction ts with
  | nil => intro m; rfl
  | cons t ts ih =>
    intro m
    rw [List.foldl_cons, ih, mapIndex_mapIndex]

/-- C17: in the table the program starts with, the lookup `metaEventTypes[t]`
returns a non-empty label exactly for the 15 type bytes `0x00..0x07`, `0x20`,
`0x2F`, `0x51`, `0x54`, `0x58`, `0x59`, `0x7F`, and the empty label for every
other type byte (the lookup is a total function, there is no error). A lookup
never changes the label that later lookups return, for any key and any state
of the table, so after any sequence of lookups every label is the initial
one. In particular the Meta event `00 FF 10 00` of the unrecognized type
`0x10` is printed with the empty label and adds the entry `(0x10, "")`. -/
theorem meta_type_labels :
    (∀ t : Nat, (mapIndex metaEventTypes t).1 ≠ "" ↔
      t ∈ [0x00, 0x01, 0x02, 0x03, 0x04, 0x05, 0x06, 0x07, 0x20, 0x2F, 0x51, 0x54, 0x58, 0x59,
           0x7F]) ∧
    (∀ (m : List (Nat × String)) (t k : Nat),
      (mapIndex (mapIndex m t).2 k).1 = (mapIndex m k).1) ∧
    (∀ (ts : List Nat) (k : Nat),
      (mapIndex (ts.foldl (fun m t => (mapIndex m t).2) metaEventTypes) k).1 =
        (mapIndex metaEventTypes k).1) ∧
    (readEvent 1 (onBytes [0x00, 0xFF, 0x10, 0x00])).map (fun r => (r.cout, r.metaMap)) =
      some ([Out.num "Delta Time: " 0, Out.num "Midi Event Status Code: " 0xFF,
             Out.line "Meta Event", Out.text "Meta Event Type: " "", Out.num "Length: " 0,
             Out.bytes "Data(text): " [], Out.bytes "Data(hex): " []],
            metaEventTypes ++ [(0x10, "")]) := by
  refine ⟨?_, mapIndex_mapIndex, fun ts k => mapIndex_foldl ts k _, by decide⟩
  intro t
  rcases Nat.lt_or_ge t 128 with h | h
  · interval_cases t <;> decide
  · have hnone : metaEventTypes.lookup t = none := by
      rw [List.lookup_eq_none_iff]
      intro p hp
      simp only [metaEventTypes, List.mem_cons, List.mem_singleton, List.not_mem_nil,
        or_false] at hp
      rcases hp with h | h | h | h | h | h | h | h | h | h | h | h | h | h | h <;> subst h <;>
        simp <;> omega
    rw [mapIndex_label, hnone]
    simp
    omega

/-! ## The running status through `readEvent` -/

/-- The chain of cases leaves the running status alone for every status byte
from `0xF0` on. -/
theorem dispatch_high_status (fuel status : Nat) (r r1 : MidiReader) (hst : 0xF0 ≤ status)
    (h : dispatch fuel status r = some r1) :
    r1.lastOp = r.lastOp ∧ r1.lastChannel = r.lastChannel := by
  unfold dispatch at h
  split at h
  · cases h1 : readVariableLength fuel r.midiFile r.one [] with
    | none => simp [h1] at h
    | some x =>
      obtain ⟨s2, one2, stk2⟩ := x
      simp only [h1] at h
      cases h2 : skipLoop fuel 0 (unstackVariableNumber stk2) s2 with
      | none => simp [h2] at h
      | some s3 =>
        simp only [h2, Option.some.injEq] at h
        subst h
        exact ⟨rfl, rfl⟩
  · split at h
    · simp only [print, Option.some.injEq] at h
      subst h
      exact ⟨rfl, rfl⟩
    · split at h
      · simp only [print, Option.some.injEq] at h
        subst h
        exact ⟨rfl, rfl⟩
      · split at h
        · simp only [print] at h
          cases h1 : readVariableLength fuel r.midiFile.get.2 r.one [] with
          | none => simp [h1] at h
          | some x =>
            obtain ⟨s2, one2, stk2⟩ := x
            simp only [h1] at h
            cases h2 : dataLoop fuel 0 (unstackVariableNumber stk2) s2 [] with
            | none => simp [h2] at h
            | some y =>
              obtain ⟨s3, data⟩ := y
              simp only [h2, Option.some.injEq] at h
              subst h
              exact ⟨rfl, rfl⟩
        · split at h
          · simp only [Option.some.injEq] at h
            subst h
            exact ⟨rfl, rfl⟩
          · omega

/-- What `readEvent` does before the chain of cases, when it returns. -/
theorem readEvent_eq_dispatch (fuel : Nat) (r r1 : MidiReader) (h : readEvent fuel r = some r1) :
    ∃ (s1 : IfStream) (one1 : Nat) (stk1 : List Nat) (r0 : MidiReader),
      readVariableLength fuel r.midiFile r.one [] = some (s1, one1, stk1) ∧
      r0.midiFile = (s1.read1 one1).2 ∧ r0.one = (s1.read1 one1).1 ∧
      r0.lastOp = r.lastOp ∧ r0.lastChannel = r.lastChannel ∧
      (r0.cout = r.cout ++ [Out.num "Delta Time: " (unstackVariableNumber stk1)] ∨
       r0.cout = r.cout ++ [Out.num "Delta Time: " (unstackVariableNumber stk1),
                            Out.num "Midi Event Status Code: " ((s1.read1 one1).1 : Int)]) ∧
      dispatch fuel (s1.read1 one1).1 r0 = some r1 := by
  unfold readEvent at h
  cases h1 : readVariableLength fuel r.midiFile r.one [] with
  | none => simp [h1] at h
  | some x =>
    obtain ⟨s1, one1, stk1⟩ := x
    simp only [h1] at h
    refine ⟨s1, one1, stk1, _, rfl, ?_, ?_, ?_, ?_, ?_, h⟩
    · split <;> rfl
    · split <;> rfl
    · split <;> rfl
    · split <;> rfl
    · split
      · right; simp [print]
      · left; rfl

/-- The `switch`: either the opcode is one of the seven channel-voice opcodes,
it becomes the running status and nothing is printed as unknown, or the
default arm prints `Unknown operation` and changes nothing else. -/
theorem switchOp_cases (status op channel : Nat) (r : MidiReader) :
    (op ∈ [0x80, 0x90, 0xA0, 0xB0, 0xC0, 0xD0, 0xE0] ∧
      (switchOp status op channel r).lastOp = op ∧
      (switchOp status op channel r).lastChannel = channel ∧
      ∃ items, (switchOp status op channel r).cout = r.cout ++ items ∧
        ∀ v, Out.num "Unknown operation: " v ∉ items) ∨
    (op ∉ [0x80, 0x90, 0xA0, 0xB0, 0xC0, 0xD0, 0xE0] ∧
      switchOp status op channel r = r.print [Out.num "Unknown operation: " status]) := by
  unfold switchOp
  split_ifs with h1 h2 h3 h4 h5 h6 h7
  · left; subst h1
    exact ⟨by decide, rfl, rfl, _, by simp [voice, noteOff, takeTwo, print]; rfl, by simp⟩
  · left; subst h2
    exact ⟨by decide, rfl, rfl, _, by simp [voice, noteOn, takeTwo, print]; rfl, by simp⟩
  · left; subst h3
    exact ⟨by decide, rfl, rfl, _, by simp [voice, pkp, takeTwo, print]; rfl, by simp⟩
  · left; subst h4
    exact ⟨by decide, rfl, rfl, _, by simp [voice, controlChange, takeTwo, print]; rfl, by simp⟩
  · left; subst h5
    exact ⟨by decide, rfl, rfl, _, by simp [voice, programChange, takeOne, print]; rfl, by simp⟩
  · left; subst h6
    exact ⟨by decide, rfl, rfl, _, by simp [voice, channelPressure, takeOne, print]; rfl, by simp⟩
  · left; subst h7
    exact ⟨by decide, rfl, rfl, _, by simp [voice, pitchWheelChange, takeTwo, print]; rfl,
      by simp⟩
  · right
    refine ⟨?_, rfl⟩
    simp only [List.mem_cons, List.mem_singleton, List.not_mem_nil, or_false]
    omega

theorem status_below_f0 {s : Nat} (h : s < 0xF0) :
    (s < 0x80 ∧ (s &&& 0xF0) &&& 0x80 = 0) ∨
    (0x80 ≤ s ∧ (s &&& 0xF0) &&& 0x80 ≠ 0 ∧
      s &&& 0xF0 ∈ [0x80, 0x90, 0xA0, 0xB0, 0xC0, 0xD0, 0xE0] ∧ s &&& 0x0F ≤ 15) := by
  rcases Nat.lt_or_ge s 0x80 with h1 | h1
  · exact Or.inl ⟨h1, data_status_cases h1⟩
  · right
    obtain ⟨h2, h3⟩ := voice_status_cases h1 (by omega : s ≤ 0xEF)
    refine ⟨h1, h2, ?_, Nat.and_le_right⟩
    simpa using h3

/-- The last `else` of `readEvent`, for a byte below `0xF0`: a byte below `0x80`
keeps the running status, and `Unknown operation` is printed only then and
only when `lastOp` is not a channel-voice opcode; a byte from `0x80` on makes
its opcode and channel the running status. -/
theorem channelEvent_cases (status : Nat) (r : MidiReader) (h : status < 0xF0) :
    ((status < 0x80 ∧ (channelEvent status r).lastOp = r.lastOp ∧
        (channelEvent status r).lastChannel = r.lastChannel) ∨
     (0x80 ≤ status ∧
        (channelEvent status r).lastOp ∈ [0x80, 0x90, 0xA0, 0xB0, 0xC0, 0xD0, 0xE0] ∧
        (channelEvent status r).lastChannel ≤ 15)) ∧
    ∃ items, (channelEvent status r).cout = r.cout ++ items ∧
      ∀ v, Out.num "Unknown operation: " v ∈ items →
        v = (status : Int) ∧ status < 0x80 ∧
          r.lastOp ∉ [0x80, 0x90, 0xA0, 0xB0, 0xC0, 0xD0, 0xE0] := by
  rcases status_below_f0 h with ⟨h1, h2⟩ | ⟨h1, h2, h3, h4⟩
  · have e : channelEvent status r =
        switchOp status r.lastOp r.lastChannel
          ({ r with midiFile := r.midiFile.unget }.print [Out.num "Channel: " r.lastChannel]) := by
      simp [channelEvent, h2]
    rw [e]
    rcases switchOp_cases status r.lastOp r.lastChannel
      ({ r with midiFile := r.midiFile.unget }.print [Out.num "Channel: " r.lastChannel])
      with ⟨_, g1, g2, items, g3, g4⟩ | ⟨g1, g2⟩
    · refine ⟨Or.inl ⟨h1, g1, g2⟩, Out.num "Channel: " r.lastChannel :: items,
        by rw [g3]; simp [print], ?_⟩
      intro v hv
      rcases List.mem_cons.mp hv with hv | hv
      · simp at hv
      · exact absurd hv (g4 v)
    · rw [g2]
      refine ⟨Or.inl ⟨h1, rfl, rfl⟩, _, by simp [print]; rfl, ?_⟩
      intro v hv
      simp at hv
      exact ⟨hv, h1, g1⟩
  · have e : channelEvent status r =
        switchOp status (status &&& 0xF0) (status &&& 0x0F)
          (r.print [Out.num "Channel: " ((status &&& 0x0F : Nat) : Int)]) := by
      simp [channelEvent, h2]
    rw [e]
    rcases switchOp_cases status (status &&& 0xF0) (status &&& 0x0F)
      (r.print [Out.num "Channel: " ((status &&& 0x0F : Nat) : Int)])
      with ⟨_, g1, g2, items, g3, g4⟩ | ⟨g1, _⟩
    · refine ⟨Or.inr ⟨h1, by rw [g1]; exact h3, by rw [g2]; exact h4⟩,
        Out.num "Channel: " ((status &&& 0x0F : Nat) : Int) :: items,
        by rw [g3]; simp [print], ?_⟩
      intro v hv
      rcases List.mem_cons.mp hv with hv | hv
      · simp at hv
      · exact absurd hv (g4 v)
    · exact absurd h3 g1

/-- For a status byte from `0xF0` on, nothing is printed as unknown. -/
theorem dispatch_high_cout (fuel status : Nat) (r r1 : MidiReader) (hst : 0xF0 ≤ status)
    (h : dispatch fuel status r = some r1) :
    ∃ items, r1.cout = r.cout ++ items ∧ ∀ v, Out.num "Unknown operation: " v ∉ items := by
  unfold dispatch at h
  split at h
  · cases h1 : readVariableLength fuel r.midiFile r.one [] with
    | none => simp [h1] at h
    | some x =>
      obtain ⟨s2, one2, stk2⟩ := x
      simp only [h1] at h
      cases h2 : skipLoop fuel 0 (unstackVariableNumber stk2) s2 with
      | none => simp [h2] at h
      | some s3 =>
        simp only [h2, Option.some.injEq] at h
        subst h
        exact ⟨_, rfl, by simp⟩
  · split at h
    · simp only [print, Option.some.injEq] at h
      subst h
      exact ⟨_, rfl, by simp⟩
    · split at h
      · simp only [print, Option.some.injEq] at h
        subst h
        exact ⟨_, rfl, by simp⟩
      · split at h
        · simp only [print] at h
          cases h1 : readVariableLength fuel r.midiFile.get.2 r.one [] with
          | none => simp [h1] at h
          | some x =>
            obtain ⟨s2, one2, stk2⟩ := x
            simp only [h1] at h
            cases h2 : dataLoop fuel 0 (unstackVariableNumber stk2) s2 [] with
            | none => simp [h2] at h
            | some y =>
              obtain ⟨s3, data⟩ := y
              simp only [h2, Option.some.injEq] at h
              subst h
              refine ⟨[Out.line "Meta Event",
                Out.text "Meta Event Type: " (mapIndex r.metaMap (toUChar r.midiFile.get.1)).1,
                Out.num "Length: " (unstackVariableNumber stk2),
                Out.bytes "Data(text): " data, Out.bytes "Data(hex): " data], by simp, by simp⟩
        · split at h
          · simp only [Option.some.injEq] at h
            subst h
            exact ⟨[], by simp, by simp⟩
          · omega

/-- The chain of cases, for any status byte: the running status is kept or
becomes a channel-voice opcode with a channel of at most 15, and `Unknown
operation` is printed only for a byte below `0x80` when `lastOp` is not a
channel-voice opcode. -/
theorem dispatch_cases (fuel status : Nat) (r r1 : MidiReader)
    (h : dispatch fuel status r = some r1) :
    ((r1.lastOp = r.lastOp ∧ r1.lastChannel = r.lastChannel) ∨
      (r1.lastOp ∈ [0x80, 0x90, 0xA0, 0xB0, 0xC0, 0xD0, 0xE0] ∧ r1.lastChannel ≤ 15)) ∧
    ∃ items, r1.cout = r.cout ++ items ∧
      ∀ v, Out.num "Unknown operation: " v ∈ items →
        v = (status : Int) ∧ status < 0x80 ∧
          r.lastOp ∉ [0x80, 0x90, 0xA0, 0xB0, 0xC0, 0xD0, 0xE0] := by
  rcases Nat.lt_or_ge status 0xF0 with hlt | hge
  · have e : dispatch fuel status r = some (channelEvent status r) := by
      have e0 : status ≠ 0xF0 := by omega
      have e1 : status ≠ 0xFF := by omega
      have e2 : ¬ status > 0xF0 := by omega
      have e3 : status ≠ 0xF2 := by omega
      have e4 : status ≠ 0xF3 := by omega
      simp [dispatch, e0, e1, e2, e3, e4]
    rw [e] at h
    cases h
    obtain ⟨hc, items, hi, hu⟩ := channelEvent_cases status r hlt
    refine ⟨?_, items, hi, hu⟩
    rcases hc with ⟨_, a, b⟩ | ⟨_, a, b⟩
    · exact Or.inl ⟨a, b⟩
    · exact Or.inr ⟨a, b⟩
  · obtain ⟨items, hi, hu⟩ := dispatch_high_cout fuel status r r1 hge h
    exact ⟨Or.inl (dispatch_high_status fuel status r r1 hge h), items, hi,
      fun v hv => absurd hv (hu v)⟩

/-! ## C18 -/

/-- One `readEvent` keeps the invariant of the running status, and prints
`Unknown operation` only for a byte below `0x80` with `lastOp = 0`. -/
theorem readEvent_invariant (fuel : Nat) (r r1 : MidiReader)
    (hinv : (r.lastOp = 0 ∨ r.lastOp ∈ [0x80, 0x90, 0xA0, 0xB0, 0xC0, 0xD0, 0xE0]) ∧
      r.lastChannel ≤ 15)
    (h : readEvent fuel r = some r1) :
    ((r1.lastOp = 0 ∨ r1.lastOp ∈ [0x80, 0x90, 0xA0, 0xB0, 0xC0, 0xD0, 0xE0]) ∧
      r1.lastChannel ≤ 15) ∧
    ∃ items, r1.cout = r.cout ++ items ∧
      ∀ v, Out.num "Unknown operation: " v ∈ items → 0 ≤ v ∧ v < 0x80 ∧ r.lastOp = 0 := by
  obtain ⟨s1, one1, stk1, r0, _, _, _, hop, hch, hcout, hd⟩ := readEvent_eq_dispatch fuel r r1 h
  obtain ⟨hc, items, hi, hu⟩ := dispatch_cases fuel _ r0 r1 hd
  rw [hop, hch] at hc
  rw [hop] at hu
  constructor
  · rcases hc with ⟨a, b⟩ | ⟨a, b⟩
    · rw [a, b]; exact hinv
    · exact ⟨Or.inr a, b⟩
  · have hun : ∀ v, Out.num "Unknown operation: " v ∈ items →
        0 ≤ v ∧ v < 0x80 ∧ r.lastOp = 0 := by
      intro v hv
      obtain ⟨e, hlt, hnot⟩ := hu v hv
      refine ⟨by rw [e]; exact Int.ofNat_nonneg _, by rw [e]; exact_mod_cast hlt, ?_⟩
      rcases hinv.1 with h0 | h0
      · exact h0
      · exact absurd h0 hnot
    rcases hcout with hc0 | hc0
    · refine ⟨Out.num "Delta Time: " (unstackVariableNumber stk1) :: items,
        by rw [hi, hc0]; simp, ?_⟩
      intro v hv
      rcases List.mem_cons.mp hv with hv | hv
      · simp at hv
      · exact hun v hv
    · refine ⟨Out.num "Delta Time: " (unstackVariableNumber stk1) ::
        Out.num "Midi Event Status Code: " ((s1.read1 one1).1 : Int) :: items,
        by rw [hi, hc0]; simp, ?_⟩
      intro v hv
      rcases List.mem_cons.mp hv with hv | hv
      · simp at hv
      · rcases List.mem_cons.mp hv with hv | hv
        · simp at hv
        · exact hun v hv

/-- C18: after any sequence of `readEvent` calls (with any fuels) that starts
from a state with `lastOp = 0` and `lastChannel = 0`, as a new reader is,
`lastOp` is `0` or one of `0x80, 0x90, 0xA0, 0xB0, 0xC0, 0xD0, 0xE0` and
`lastChannel ≤ 15`; and a `readEvent` call from a state with this property
keeps it and prints `Unknown operation` (the default arm of the switch) only
with a byte below `0x80` and only when `lastOp = 0`, that is when no
channel-voice event has been decoded before. -/
theorem running_status_invariant :
    (∀ (fuels : List Nat) (r0 r : MidiReader), r0.lastOp = 0 → r0.lastChannel = 0 →
      fuels.foldlM (fun r fuel => readEvent fuel r) r0 = some r →
      (r.lastOp = 0 ∨ r.lastOp ∈ [0x80, 0x90, 0xA0, 0xB0, 0xC0, 0xD0, 0xE0]) ∧
        r.lastChannel ≤ 15) ∧
    (∀ (fuel : Nat) (r r1 : MidiReader),
      (r.lastOp = 0 ∨ r.lastOp ∈ [0x80, 0x90, 0xA0, 0xB0, 0xC0, 0xD0, 0xE0]) ∧
        r.lastChannel ≤ 15 →
      readEvent fuel r = some r1 →
      ((r1.lastOp = 0 ∨ r1.lastOp ∈ [0x80, 0x90, 0xA0, 0xB0, 0xC0, 0xD0, 0xE0]) ∧
        r1.lastChannel ≤ 15) ∧
      ∃ items, r1.cout = r.cout ++ items ∧
        ∀ v, Out.num "Unknown operation: " v ∈ items → 0 ≤ v ∧ v < 0x80 ∧ r.lastOp = 0) := by
  refine ⟨?_, fun fuel r r1 hinv h => readEvent_invariant fuel r r1 hinv h⟩
  have gen : ∀ (fuels : List Nat) (r0 r : MidiReader),
      (r0.lastOp = 0 ∨ r0.lastOp ∈ [0x80, 0x90, 0xA0, 0xB0, 0xC0, 0xD0, 0xE0]) ∧
        r0.lastChannel ≤ 15 →
      fuels.foldlM (fun r fuel => readEvent fuel r) r0 = some r →
      (r.lastOp = 0 ∨ r.lastOp ∈ [0x80, 0x90, 0xA0, 0xB0, 0xC0, 0xD0, 0xE0]) ∧
        r.lastChannel ≤ 15 := by
    intro fuels
    induction fuels with
    | nil =>
      intro r0 r hinv h
      simp only [List.foldlM_nil, pure, Option.some.injEq] at h
      subst h
      exact hinv
    | cons f fs ih =>
      intro r0 r hinv h
      rw [List.foldlM_cons] at h
      cases he : readEvent f r0 with
      | none => simp [he] at h
      | some r1 =>
        rw [he] at h
        exact ih r1 r (readEvent_invariant f r0 r1 hinv he).1 h
  intro fuels r0 r h0 h1 h
  exact gen fuels r0 r ⟨Or.inl h0, by omega⟩ h

/-- C18 on `00 90 3C 40 00 3C 00` read from a new reader: after the two events
`lastOp` is a channel-voice opcode and `lastChannel ≤ 15`. -/
theorem running_status_invariant_witness :
    ((switchOp 0x3C 0x90 0
        { onBytes [0x00, 0x90, 0x3C, 0x40, 0x00, 0x3C, 0x00] with
            midiFile := { data := [0x00, 0x90, 0x3C, 0x40, 0x00, 0x3C, 0x00], pos := 4 + 1,
                          fail := false },
            one := 0x3C, lastOp := 0x90, lastChannel := 0,
            cout := [Out.num "Delta Time: " 0, Out.num "Midi Event Status Code: " 0x90,
                     Out.num "Channel: " 0, Out.line "Note On",
                     Out.num "    Note Number: " 0x3C, Out.num "    Velocity: " 0x40] ++
                    [Out.num "Delta Time: " (unstackVariableNumber [0x00].reverse),
                     Out.num "Channel: " (0 : Nat)] }).lastOp = 0 ∨
      (switchOp 0x3C 0x90 0
        { onBytes [0x00, 0x90, 0x3C, 0x40, 0x00, 0x3C, 0x00] with
            midiFile := { data := [0x00, 0x90, 0x3C, 0x40, 0x00, 0x3C, 0x00], pos := 4 + 1,
                          fail := false },
            one := 0x3C, lastOp := 0x90, lastChannel := 0,
            cout := [Out.num "Delta Time: " 0, Out.num "Midi Event Status Code: " 0x90,
                     Out.num "Channel: " 0, Out.line "Note On",
                     Out.num "    Note Number: " 0x3C, Out.num "    Velocity: " 0x40] ++
                    [Out.num "Delta Time: " (unstackVariableNumber [0x00].reverse),
                     Out.num "Channel: " (0 : Nat)] }).lastOp ∈
        [0x80, 0x90, 0xA0, 0xB0, 0xC0, 0xD0, 0xE0]) ∧
    (switchOp 0x3C 0x90 0
        { onBytes [0x00, 0x90, 0x3C, 0x40, 0x00, 0x3C, 0x00] with
            midiFile := { data := [0x00, 0x90, 0x3C, 0x40, 0x00, 0x3C, 0x00], pos := 4 + 1,
                          fail := false },
            one := 0x3C, lastOp := 0x90, lastChannel := 0,
            cout := [Out.num "Delta Time: " 0, Out.num "Midi Event Status Code: " 0x90,
                     Out.num "Channel: " 0, Out.line "Note On",
                     Out.num "    Note Number: " 0x3C, Out.num "    Velocity: " 0x40] ++
                    [Out.num "Delta Time: " (unstackVariableNumber [0x00].reverse),
                     Out.num "Channel: " (0 : Nat)] }).lastChannel ≤ 15 :=
  running_status_invariant.1 [1, 1] (onBytes [0x00, 0x90, 0x3C, 0x40, 0x00, 0x3C, 0x00]) _ rfl rfl
    (by decide)

/-! ## C20 -/

/-- One Meta, SysEx, `0xF2` or `0xF3` event leaves the running status alone. -/
theorem nonChannelStep_running_status (r r1 : MidiReader) (h : NonChannelStep r r1) :
    r1.lastOp = r.lastOp ∧ r1.lastChannel = r.lastChannel := by
  obtain ⟨fuel, delta, rest, status, hv, hs, hd, hst, he⟩ := h
  rcases Nat.lt_or_ge fuel delta.length with hf | hf
  · rw [readEvent_short_fuel r delta (status :: rest) fuel hv hf hs hd] at he
    cases he
  · rw [readEvent_start r delta rest status fuel hv hf hs hd] at he
    have hge : 0xF0 ≤ status := by
      simp only [List.mem_cons, List.mem_singleton, List.not_mem_nil, or_false] at hst
      omega
    have := dispatch_high_status fuel status _ r1 hge he
    split at this <;> exact this

/-- Any number of Meta, SysEx, `0xF2` and `0xF3` events leave the running status
alone. -/
theorem nonChannelSteps_running_status (r r1 : MidiReader)
    (h : Relation.ReflTransGen NonChannelStep r r1) :
    r1.lastOp = r.lastOp ∧ r1.lastChannel = r.lastChannel := by
  induction h with
  | refl => exact ⟨rfl, rfl⟩
  | tail _ hstep ih =>
    obtain ⟨a, b⟩ := nonChannelStep_running_status _ _ hstep
    exact ⟨a.trans ih.1, b.trans ih.2⟩

/-- C20: a `readEvent` on an event whose status byte is `0xFF` (Meta), `0xF0`
(SysEx), `0xF2` or `0xF3` never changes `lastOp` or `lastChannel`; so after
any number of such events that follow a state with a channel-voice running
status, an event whose first byte `b` is below `0x80` is decoded by the switch
on that same `lastOp` and `lastChannel`, with `b` as first data byte. In
particular on `mixedStream` the data bytes `3C 00` that follow a Meta, a
`0xF2`, a `0xF3` and a SysEx event are printed as a Note-On on channel 0, the
running status of the first event. -/
theorem running_status_survives :
    (∀ (fuel : Nat) (r r1 : MidiReader) (delta rest : List Nat) (status : Nat),
      isVarLen delta = true → r.midiFile.fail = false →
      r.midiFile.data.drop r.midiFile.pos = delta ++ status :: rest →
      status ∈ [0xFF, 0xF0, 0xF2, 0xF3] → readEvent fuel r = some r1 →
      r1.lastOp = r.lastOp ∧ r1.lastChannel = r.lastChannel) ∧
    (∀ (r r1 : MidiReader), Relation.ReflTransGen NonChannelStep r r1 →
      r1.lastOp = r.lastOp ∧ r1.lastChannel = r.lastChannel) ∧
    (∀ (r r1 : MidiReader) (delta more rest : List Nat) (b fuel : Nat),
      Relation.ReflTransGen NonChannelStep r r1 →
      r.lastOp ∈ [0x80, 0x90, 0xA0, 0xB0, 0xC0, 0xD0, 0xE0] →
      isVarLen delta = true → delta.length ≤ fuel → r1.midiFile.fail = false →
      r1.midiFile.data.drop r1.midiFile.pos = delta ++ b :: (more ++ rest) →
      b < 128 →
      more.length = (if r.lastOp = 0xC0 ∨ r.lastOp = 0xD0 then 0 else 1) →
      (∀ x ∈ more, x < 256) →
      readEvent fuel r1 =
        some (switchOp b r.lastOp r.lastChannel
          { r1 with midiFile := { r1.midiFile with pos := r1.midiFile.pos + delta.length },
                    one := b,
                    cout := r1.cout ++
                      [Out.num "Delta Time: " (unstackVariableNumber delta.reverse),
                       Out.num "Channel: " r.lastChannel] })) ∧
    ([3, 3, 3, 3, 3, 3].foldlM (fun r fuel => readEvent fuel r) (onBytes mixedStream)).map
        (fun r => (r.cout, r.midiFile, r.lastOp, r.lastChannel)) =
      some ([Out.num "Delta Time: " 0, Out.num "Midi Event Status Code: " 0x90,
             Out.num "Channel: " 0, Out.line "Note On",
             Out.num "    Note Number: " 0x3C, Out.num "    Velocity: " 0x40,
             Out.num "Delta Time: " 0, Out.num "Midi Event Status Code: " 0xFF,
             Out.line "Meta Event", Out.text "Meta Event Type: " "Text Event",
             Out.num "Length: " 1, Out.bytes "Data(text): " [0x41],
             Out.bytes "Data(hex): " [0x41],
             Out.num "Delta Time: " 0, Out.num "Midi Event Status Code: " 0xF2,
             Out.line "Song Position Pointer",
             Out.num "Delta Time: " 0, Out.num "Midi Event Status Code: " 0xF3,
             Out.line "Song Select",
             Out.num "Delta Time: " 0, Out.num "Midi Event Status Code: " 0xF0,
             Out.bytes "SysEx Event Length: " [0x02], Out.num "" 2,
             Out.num "Delta Time: " 0, Out.num "Channel: " 0, Out.line "Note On",
             Out.num "    Note Number: " 0x3C, Out.num "    Velocity: " 0x00],
            { data := mixedStream, pos := 24, fail := false }, 0x90, 0) := by
  refine ⟨?_, nonChannelSteps_running_status, ?_, by decide⟩
  · intro fuel r r1 delta rest status hv hs hd hst he
    exact nonChannelStep_running_status r r1 ⟨fuel, delta, rest, status, hv, hs, hd, hst, he⟩
  · intro r r1 delta more rest b fuel hsteps hop hv hf hs hd hb hm hbytes
    obtain ⟨e1, e2⟩ := nonChannelSteps_running_status r r1 hsteps
    have := (running_status_general r1 delta more rest b fuel hv hf hs hd hb (by rw [e1]; exact hop)
      (by rw [e1]; exact hm) hbytes).1
    rw [this, e1, e2]

/-- C20 on the Meta event `00 FF 2F 00` read in a state whose running status is
`0x90`, channel `3`. -/
theorem running_status_survives_witness :
    ({ onBytes [0x00, 0xFF, 0x2F, 0x00] with
        lastOp := 0x90, lastChannel := 3,
        midiFile := { data := [0x00, 0xFF, 0x2F, 0x00], pos := 4, fail := false },
        one := 0x00,
        cout := [Out.num "Delta Time: " 0, Out.num "Midi Event Status Code: " 0xFF,
                 Out.line "Meta Event", Out.text "Meta Event Type: " "End of Track",
                 Out.num "Length: " 0, Out.bytes "Data(text): " [],
                 Out.bytes "Data(hex): " []] } : MidiReader).lastOp =
      ({ onBytes [0x00, 0xFF, 0x2F, 0x00] with lastOp := 0x90, lastChannel := 3 } :
        MidiReader).lastOp ∧
    ({ onBytes [0x00, 0xFF, 0x2F, 0x00] with
        lastOp := 0x90, lastChannel := 3,
        midiFile := { data := [0x00, 0xFF, 0x2F, 0x00], pos := 4, fail := false },
        one := 0x00,
        cout := [Out.num "Delta Time: " 0, Out.num "Midi Event Status Code: " 0xFF,
                 Out.line "Meta Event", Out.text "Meta Event Type: " "End of Track",
                 Out.num "Length: " 0, Out.bytes "Data(text): " [],
                 Out.bytes "Data(hex): " []] } : MidiReader).lastChannel =
      ({ onBytes [0x00, 0xFF, 0x2F, 0x00] with lastOp := 0x90, lastChannel := 3 } :
        MidiReader).lastChannel :=
  running_status_survives.1 1
    { onBytes [0x00, 0xFF, 0x2F, 0x00] with lastOp := 0x90, lastChannel := 3 } _
    [0x00] [0x2F, 0x00] 0xFF rfl rfl rfl (by decide) (by decide)

/-! ## Progress of the stream -/

theorem IfStream.Moved.refl (s : IfStream) : s.Moved s :=
  ⟨rfl, by cases h : s.fail <;> simp⟩

theorem IfStream.Advanced.moved {s a : IfStream} (h : s.Advanced a) : s.Moved a := by
  obtain ⟨hd, h⟩ := h
  refine ⟨hd, ?_⟩
  rcases h with h | ⟨h1, h2, h3⟩
  · exact Or.inl h
  · exact Or.inr ⟨h1, by omega, fun _ => h3⟩

theorem IfStream.Moved.trans {s a b : IfStream} (h1 : s.Moved a) (h2 : a.Moved b) : s.Moved b := by
  obtain ⟨d1, h1⟩ := h1
  obtain ⟨d2, h2⟩ := h2
  refine ⟨d2.trans d1, ?_⟩
  rcases h2 with h2 | ⟨f2, p2, l2⟩
  · exact Or.inl h2
  · rcases h1 with h1 | ⟨f1, p1, l1⟩
    · rw [f2] at h1; cases h1
    · right
      rw [d1] at l2
      exact ⟨f1, by omega, fun h => l2 (l1 h)⟩

theorem IfStream.Advanced.trans_moved {s a b : IfStream} (h1 : s.Advanced a) (h2 : a.Moved b) :
    s.Advanced b := by
  obtain ⟨d1, h1⟩ := h1
  obtain ⟨d2, h2⟩ := h2
  refine ⟨d2.trans d1, ?_⟩
  rcases h2 with h2 | ⟨f2, p2, l2⟩
  · exact Or.inl h2
  · rcases h1 with h1 | ⟨f1, p1, l1⟩
    · rw [f2] at h1; cases h1
    · right
      rw [d1] at l2
      exact ⟨f1, by omega, l2 l1⟩

theorem IfStream.Moved.trans_advanced {s a b : IfStream} (h1 : s.Moved a) (h2 : a.Advanced b) :
    s.Advanced b := by
  obtain ⟨d1, h1⟩ := h1
  obtain ⟨d2, h2⟩ := h2
  refine ⟨d2.trans d1, ?_⟩
  rcases h2 with h2 | ⟨f2, p2, l2⟩
  · exact Or.inl h2
  · rcases h1 with h1 | ⟨f1, p1, _⟩
    · rw [f2] at h1; cases h1
    · right
      rw [d1] at l2
      exact ⟨f1, by omega, l2⟩

theorem get_advanced (s : IfStream) : s.Advanced s.get.2 := by
  unfold IfStream.get
  cases hf : s.fail with
  | true => exact ⟨rfl, Or.inl (by simp [hf])⟩
  | false =>
    simp only [Bool.false_eq_true, if_false]
    cases hd : s.data.drop s.pos with
    | nil => exact ⟨rfl, Or.inl rfl⟩
    | cons b rest =>
      refine ⟨rfl, Or.inr ⟨hf, Nat.lt_succ_self _, ?_⟩⟩
      have : (s.data.drop s.pos).length = rest.length + 1 := by rw [hd]; rfl
      rw [List.length_drop] at this
      show s.pos + 1 ≤ s.data.length
      omega

theorem read1_advanced (s : IfStream) (one : Nat) : s.Advanced (s.read1 one).2 := by
  unfold IfStream.read1
  cases hf : s.fail with
  | true => exact ⟨rfl, Or.inl (by simp [hf])⟩
  | false =>
    simp only [Bool.false_eq_true, if_false]
    cases hd : s.data.drop s.pos with
    | nil => exact ⟨rfl, Or.inl rfl⟩
    | cons b rest =>
      refine ⟨rfl, Or.inr ⟨hf, Nat.lt_succ_self _, ?_⟩⟩
      have : (s.data.drop s.pos).length = rest.length + 1 := by rw [hd]; rfl
      rw [List.length_drop] at this
      show s.pos + 1 ≤ s.data.length
      omega

theorem unget_of_advanced {s a : IfStream} (h : s.Advanced a) : s.Moved a.unget := by
  obtain ⟨d, h⟩ := h
  unfold IfStream.unget
  cases hf : a.fail with
  | true => exact ⟨d, Or.inl (by simp [hf])⟩
  | false =>
    rcases h with h | ⟨f, p, l⟩
    · rw [hf] at h; cases h
    · have hp : a.pos ≠ 0 := by omega
      simp only [Bool.false_eq_true, if_false, hp]
      refine ⟨d, Or.inr ⟨f, ?_, fun _ => ?_⟩⟩
      · show s.pos ≤ a.pos - 1
        omega
      · show a.pos - 1 ≤ s.data.length
        omega

theorem readVariableLength_advanced :
    ∀ (fuel : Nat) (s : IfStream) (one : Nat) (stk : List Nat) (s1 : IfStream) (one1 : Nat)
      (stk1 : List Nat),
      readVariableLength fuel s one stk = some (s1, one1, stk1) → s.Advanced s1 := by
  intro fuel
  induction fuel with
  | zero => intro s one stk s1 one1 stk1 h; simp [readVariableLength] at h
  | succ fuel ih =>
    intro s one stk s1 one1 stk1 h
    simp only [readVariableLength] at h
    split at h
    · exact (read1_advanced s one).trans_moved (ih _ _ _ _ _ _ h).moved
    · simp only [Option.some.injEq, Prod.mk.injEq] at h
      rw [← h.1]
      exact read1_advanced s one

theorem skipLoop_moved :
    ∀ (fuel i length : Nat) (s s1 : IfStream), skipLoop fuel i length s = some s1 → s.Moved s1 := by
  intro fuel
  induction fuel with
  | zero =>
    intro i length s s1 h
    simp only [skipLoop] at h
    split at h
    · cases h
    · cases h; exact IfStream.Moved.refl s
  | succ fuel ih =>
    intro i length s s1 h
    simp only [skipLoop] at h
    split at h
    · exact (get_advanced s).moved.trans (ih _ _ _ _ h)
    · cases h; exact IfStream.Moved.refl s

theorem dataLoop_moved :
    ∀ (fuel i length : Nat) (s : IfStream) (data : List Nat) (s1 : IfStream) (data1 : List Nat),
      dataLoop fuel i length s data = some (s1, data1) → s.Moved s1 := by
  intro fuel
  induction fuel with
  | zero =>
    intro i length s data s1 data1 h
    simp only [dataLoop] at h
    split at h
    · cases h
    · cases h; exact IfStream.Moved.refl s
  | succ fuel ih =>
    intro i length s data s1 data1 h
    simp only [dataLoop] at h
    split at h
    · exact (get_advanced s).moved.trans (ih _ _ _ _ _ _ h)
    · cases h; exact IfStream.Moved.refl s

theorem takeOne_moved (label1 : String) (r : MidiReader) :
    r.midiFile.Moved (takeOne label1 r).midiFile :=
  (get_advanced r.midiFile).moved

theorem takeTwo_moved (label1 label2 : String) (r : MidiReader) :
    r.midiFile.Moved (takeTwo label1 label2 r).midiFile :=
  (get_advanced r.midiFile).moved.trans (get_advanced r.midiFile.get.2).moved

theorem switchOp_moved (status op channel : Nat) (r : MidiReader) :
    r.midiFile.Moved (switchOp status op channel r).midiFile := by
  unfold switchOp
  split_ifs <;>
    first
    | exact IfStream.Moved.refl _
    | (simp only [voice, noteOff, noteOn, pkp, controlChange, programChange, channelPressure,
        pitchWheelChange]
       first
       | exact takeTwo_moved _ _ (r.print _)
       | exact takeOne_moved _ (r.print _))

theorem channelEvent_moved (status : Nat) (r : MidiReader) (s0 : IfStream)
    (h : s0.Advanced r.midiFile) : s0.Moved (channelEvent status r).midiFile := by
  unfold channelEvent
  by_cases hr : (status &&& 0xF0) &&& 0b10000000 = 0
  · simp only [hr, decide_True, if_true]
    exact (unget_of_advanced h).trans (switchOp_moved _ _ _ _)
  · simp only [hr, decide_False, Bool.false_eq_true, if_false]
    exact h.moved.trans (switchOp_moved _ _ _ _)

/-- The chain of cases never moves the stream back before the byte that was
read as status. -/
theorem dispatch_moved (fuel status : Nat) (r r1 : MidiReader) (s0 : IfStream)
    (h0 : s0.Advanced r.midiFile) (h : dispatch fuel status r = some r1) :
    s0.Moved r1.midiFile := by
  unfold dispatch at h
  split at h
  · cases h1 : readVariableLength fuel r.midiFile r.one [] with
    | none => simp [h1] at h
    | some x =>
      obtain ⟨s2, one2, stk2⟩ := x
      simp only [h1] at h
      cases h2 : skipLoop fuel 0 (unstackVariableNumber stk2) s2 with
      | none => simp [h2] at h
      | some s3 =>
        simp only [h2, Option.some.injEq] at h
        subst h
        exact h0.moved.trans ((readVariableLength_advanced _ _ _ _ _ _ _ h1).moved.trans
          (skipLoop_moved _ _ _ _ _ h2))
  · split at h
    · simp only [print, Option.some.injEq] at h
      subst h
      exact h0.moved.trans ((get_advanced _).moved.trans (get_advanced _).moved)
    · split at h
      · simp only [print, Option.some.injEq] at h
        subst h
        exact h0.moved.trans (get_advanced _).moved
      · split at h
        · simp only [print] at h
          cases h1 : readVariableLength fuel r.midiFile.get.2 r.one [] with
          | none => simp [h1] at h
          | some x =>
            obtain ⟨s2, one2, stk2⟩ := x
            simp only [h1] at h
            cases h2 : dataLoop fuel 0 (unstackVariableNumber stk2) s2 [] with
            | none => simp [h2] at h
            | some y =>
              obtain ⟨s3, data⟩ := y
              simp only [h2, Option.some.injEq] at h
              subst h
              exact h0.moved.trans ((get_advanced _).moved.trans
                ((readVariableLength_advanced _ _ _ _ _ _ _ h1).moved.trans
                  (dataLoop_moved _ _ _ _ _ _ _ h2)))
        · split at h
          · simp only [Option.some.injEq] at h
            subst h
            exact h0.moved
          · simp only [Option.some.injEq] at h
            subst h
            exact channelEvent_moved status r s0 h0

/-- Progress: whenever `readEvent` returns, the stream has failed or is strictly
after where it started, within the contents. -/
theorem readEvent_advanced (fuel : Nat) (r r1 : MidiReader) (h : readEvent fuel r = some r1) :
    r.midiFile.Advanced r1.midiFile := by
  obtain ⟨s1, one1, stk1, r0, h1, hm, _, _, _, _, hd⟩ := readEvent_eq_dispatch fuel r r1 h
  have a1 := readVariableLength_advanced _ _ _ _ _ _ _ h1
  have a2 : s1.Advanced r0.midiFile := by rw [hm]; exact read1_advanced s1 one1
  exact a1.trans_moved (dispatch_moved fuel _ r0 r1 s1 a2 hd)

/-! ## Termination of `readEvent` -/

theorem skipLoop_returns (length : Nat) (hl : length < 256) :
    ∀ (fuel i : Nat) (s : IfStream), i ≤ length → length - i ≤ fuel →
      ∃ s1, skipLoop fuel i length s = some s1 := by
  intro fuel
  induction fuel with
  | zero =>
    intro i s hi hf
    have : ¬ i < length := by omega
    exact ⟨s, by simp [skipLoop, this]⟩
  | succ fuel ih =>
    intro i s hi hf
    by_cases h : i < length
    · have e : (i + 1) % 256 = i + 1 := Nat.mod_eq_of_lt (by omega)
      obtain ⟨s1, h1⟩ := ih (i + 1) s.get.2 (by omega) (by omega)
      exact ⟨s1, by simp [skipLoop, h, e, h1]⟩
    · exact ⟨s, by simp [skipLoop, h]⟩

theorem dataLoop_returns (length : Nat) (hl : length < 256) :
    ∀ (fuel i : Nat) (s : IfStream) (data : List Nat), i ≤ length → length - i ≤ fuel →
      ∃ x, dataLoop fuel i length s data = some x := by
  intro fuel
  induction fuel with
  | zero =>
    intro i s data hi hf
    have : ¬ i < length := by omega
    exact ⟨(s, data), by simp [dataLoop, this]⟩
  | succ fuel ih =>
    intro i s data hi hf
    by_cases h : i < length
    · have e : (i + 1) % 256 = i + 1 := Nat.mod_eq_of_lt (by omega)
      obtain ⟨x, h1⟩ := ih (i + 1) s.get.2 (data ++ [toUChar s.get.1]) (by omega) (by omega)
      exact ⟨x, by simp [dataLoop, h, e, h1]⟩
    · exact ⟨(s, data), by simp [dataLoop, h]⟩

/-- The chain of cases returns when, for a SysEx or Meta event, the length ends
within the stream and is below 256. -/
theorem dispatch_returns (fuel status : Nat) (r : MidiReader) (tail : List Nat)
    (hs : r.midiFile.fail = false) (hd : r.midiFile.data.drop r.midiFile.pos = tail)
    (hfuel : tail.length + 255 ≤ fuel)
    (hF0 : status = 0xF0 → ∃ len rest, tail = len ++ rest ∧ isVarLen len = true ∧
      unstackVariableNumber len.reverse < 256)
    (hFF : status = 0xFF → ∃ t len rest, tail = t :: (len ++ rest) ∧ isVarLen len = true ∧
      unstackVariableNumber len.reverse < 256) :
    ∃ r1, dispatch fuel status r = some r1 := by
  by_cases h0 : status = 0xF0
  · obtain ⟨len, rest, ht, hv, hl⟩ := hF0 h0
    have hlen : len.length ≤ fuel := by
      have : tail.length = len.length + rest.length := by rw [ht, List.length_append]
      omega
    have h1 := readVariableLength_isVarLen len fuel r.midiFile r.one [] rest hv hlen hs
      (by rw [hd, ht])
    obtain ⟨s3, h2⟩ := skipLoop_returns _ hl fuel 0
      { r.midiFile with pos := r.midiFile.pos + len.length } (Nat.zero_le _) (by omega)
    apply Option.isSome_iff_exists.mp
    simp [dispatch, h0, h1, h2]
  · by_cases hf : status = 0xFF
    · obtain ⟨t, len, rest, ht, hv, hl⟩ := hFF hf
      have hlen : len.length ≤ fuel := by
        have : tail.length = 1 + (len.length + rest.length) := by
          rw [ht, List.length_cons, List.length_append]; omega
        omega
      have hg := get_cons hs (by rw [hd, ht] : r.midiFile.data.drop r.midiFile.pos =
        t :: (len ++ rest))
      have hd1 : ({ r.midiFile with pos := r.midiFile.pos + 1 } : IfStream).data.drop
          ({ r.midiFile with pos := r.midiFile.pos + 1 } : IfStream).pos = len ++ rest :=
        drop_succ_of_cons (by rw [hd, ht] : r.midiFile.data.drop r.midiFile.pos =
          t :: (len ++ rest))
      have h1 := readVariableLength_isVarLen len fuel
        { r.midiFile with pos := r.midiFile.pos + 1 } r.one [] rest hv hlen hs hd1
      obtain ⟨x, h2⟩ := dataLoop_returns _ hl fuel 0
        { data := r.midiFile.data, pos := r.midiFile.pos + 1 + len.length,
          fail := r.midiFile.fail } [] (Nat.zero_le _) (by omega)
      apply Option.isSome_iff_exists.mp
      simp [dispatch, hf, print, hg, h1, h2]
    · unfold dispatch
      simp only [h0, hf, if_false]
      split_ifs <;> exact ⟨_, rfl⟩

/-- Termination: on a stream that has not failed and holds a complete head of
an event, `readEvent` returns, given fuel for the bytes left and 255 more. -/
theorem readEvent_returns (fuel : Nat) (r : MidiReader) (hs : r.midiFile.fail = false)
    (hc : completeHead (r.midiFile.data.drop r.midiFile.pos))
    (hfuel : (r.midiFile.data.drop r.midiFile.pos).length + 255 ≤ fuel) :
    ∃ r1, readEvent fuel r = some r1 := by
  obtain ⟨delta, tail, status, hb, hv, hF0c, hFFc⟩ := hc
  have hF0 : status = 0xF0 → ∃ len rest, tail = len ++ rest ∧ isVarLen len = true ∧
      unstackVariableNumber len.reverse < 256 := by
    intro h
    obtain ⟨len, rest, h1, h2, _, h3⟩ := hF0c h
    exact ⟨len, rest, h1, h2, h3⟩
  have hFF : status = 0xFF → ∃ t len rest, tail = t :: (len ++ rest) ∧ isVarLen len = true ∧
      unstackVariableNumber len.reverse < 256 := by
    intro h
    obtain ⟨t, len, rest, h1, h2, _, h3⟩ := hFFc h
    exact ⟨t, len, rest, h1, h2, h3⟩
  have hlen : (r.midiFile.data.drop r.midiFile.pos).length = delta.length + (1 + tail.length) := by
    rw [hb, List.length_append, List.length_cons]; omega
  rw [readEvent_start r delta tail status fuel hv (by omega) hs hb]
  have hd1 : r.midiFile.data.drop (r.midiFile.pos + delta.length + 1) = tail := by
    rw [Nat.add_assoc]; exact drop_succ_of_cons (drop_add_of_append hb)
  split
  · exact dispatch_returns fuel status _ tail hs hd1 (by omega) hF0 hFF
  · exact dispatch_returns fuel status _ tail hs hd1 (by omega) hF0 hFF

/-! ## The loop of `readTrack` -/

theorem toU64_tellg (s : IfStream) (hp : s.fail = false → s.pos < 2 ^ 64) :
    toU64 s.tellg = if s.fail then 2 ^ 64 - 1 else s.pos := by
  unfold IfStream.tellg
  cases hf : s.fail with
  | true => simp [toU64]
  | false =>
    simp only [Bool.false_eq_true, if_false]
    exact toU64_pos (hp hf)

/-- The number of events that the loop begins is at most the distance from the
position to the bound. -/
theorem readTrackLoop_count (bound : Nat) (hb : bound < 2 ^ 64) :
    ∀ (fuel : Nat) (r r1 : MidiReader) (started : List Nat),
      r.midiFile.data.length < 2 ^ 64 → (r.midiFile.fail = false → r.midiFile.pos < 2 ^ 64) →
      readTrackLoop fuel bound r = some (r1, started) →
      started.length ≤ if r.midiFile.fail then 0 else bound - r.midiFile.pos := by
  intro fuel
  induction fuel with
  | zero =>
    intro r r1 started _ _ h
    simp only [readTrackLoop] at h
    split at h
    · cases h
    · cases h; simp
  | succ fuel ih =>
    intro r r1 started hlen hp h
    simp only [readTrackLoop] at h
    split at h
    · rename_i hc
      rw [toU64_tellg _ hp] at hc
      cases hf : r.midiFile.fail with
      | true => rw [hf] at hc; simp only [if_true] at hc; omega
      | false =>
        rw [hf] at hc
        simp only [Bool.false_eq_true, if_false] at hc ⊢
        cases he : readEvent fuel (r.print [separator]) with
        | none => simp [he] at h
        | some r2 =>
          cases hl : readTrackLoop fuel bound r2 with
          | none => simp [he, hl] at h
          | some x =>
            obtain ⟨r3, st⟩ := x
            simp only [he, hl, Option.some.injEq, Prod.mk.injEq] at h
            obtain ⟨_, rfl⟩ := h
            obtain ⟨hdat, hadv⟩ := readEvent_advanced fuel _ r2 he
            have hdat' : r2.midiFile.data = r.midiFile.data := hdat
            have hi := ih r2 r3 st (by rw [hdat']; exact hlen)
              (by
                intro hf2
                rcases hadv with h1 | ⟨_, _, h3⟩
                · rw [hf2] at h1; cases h1
                · have h3' : r2.midiFile.pos ≤ r.midiFile.data.length := h3
                  omega) hl
            rw [List.length_cons]
            rcases hadv with h1 | ⟨_, h2, _⟩
            · rw [h1] at hi
              simp only [if_true] at hi
              omega
            · have h2' : r.midiFile.pos < r2.midiFile.pos := h2
              split at hi <;> omega
    · cases h; simp

/-- The loop returns when each `readEvent` call it makes returns. -/
theorem readTrackLoop_returns (bound F : Nat) (hb : bound < 2 ^ 64) (r : MidiReader)
    (hev : ∀ a, LoopReaches bound r a → toU64 a.midiFile.tellg < bound →
      ∀ f, F ≤ f → ∃ b, readEvent f (a.print [separator]) = some b) :
    ∀ (n : Nat) (a : MidiReader), LoopReaches bound r a →
      a.midiFile.data.length < 2 ^ 64 → (a.midiFile.fail = false → a.midiFile.pos < 2 ^ 64) →
      (if a.midiFile.fail then 0 else bound - a.midiFile.pos) ≤ n →
      ∀ fuel, F + n ≤ fuel → ∃ x, readTrackLoop fuel bound a = some x := by
  intro n
  induction n with
  | zero =>
    intro a _ _ hp hm fuel _
    have hc : ¬ toU64 a.midiFile.tellg < bound := by
      rw [toU64_tellg _ hp]
      split at hm <;> simp_all <;> omega
    exact ⟨(a, []), by cases fuel <;> simp only [readTrackLoop, if_neg hc]⟩
  | succ n ih =>
    intro a hra hlen hp hm fuel hfuel
    by_cases hc : toU64 a.midiFile.tellg < bound
    · obtain ⟨f, rfl⟩ : ∃ f, fuel = f + 1 := ⟨fuel - 1, by omega⟩
      obtain ⟨b, hb1⟩ := hev a hra hc f (by omega)
      obtain ⟨hdat, hadv⟩ := readEvent_advanced f _ b hb1
      have hdat' : b.midiFile.data = a.midiFile.data := hdat
      rw [toU64_tellg _ hp] at hc
      have hfa : a.midiFile.fail = false := by
        cases hf : a.midiFile.fail with
        | true => rw [hf] at hc; simp only [if_true] at hc; omega
        | false => rfl
      rw [hfa] at hc hm
      simp only [Bool.false_eq_true, if_false] at hc hm
      obtain ⟨x, hx⟩ := ih b (LoopReaches.next hra (by rw [toU64_tellg _ hp, hfa]; simpa using hc) hb1)
        (by rw [hdat']; exact hlen)
        (by
          intro hf2
          rcases hadv with h1 | ⟨_, _, h3⟩
          · rw [hf2] at h1; cases h1
          · have h3' : b.midiFile.pos ≤ a.midiFile.data.length := h3
            omega)
        (by
          rcases hadv with h1 | ⟨_, h2, _⟩
          · rw [h1]; simp
          · have h2' : a.midiFile.pos < b.midiFile.pos := h2
            split <;> omega)
        f (by omega)
      refine ⟨(x.1, toU64 a.midiFile.tellg :: x.2), ?_⟩
      have hc' : toU64 a.midiFile.tellg < bound := by
        rw [toU64_tellg _ hp, hfa]; simpa using hc
      simp only [readTrackLoop, hc', if_true, hb1, hx]
    · exact ⟨(a, []), by cases fuel <;> simp only [readTrackLoop, if_neg hc]⟩

theorem read_moved (s : IfStream) (buf : List Nat) (n : Nat) : s.Moved (s.read buf n).2 := by
  unfold IfStream.read
  cases hf : s.fail with
  | true => exact ⟨rfl, Or.inl (by simp [hf])⟩
  | false =>
    simp only [Bool.false_eq_true, if_false]
    split
    · rename_i hg
      refine ⟨rfl, Or.inr ⟨hf, Nat.le_add_right _ _, fun _ => ?_⟩⟩
      simp only [List.length_take, List.length_drop] at hg
      show s.pos + n ≤ s.data.length
      omega
    · exact ⟨rfl, Or.inl rfl⟩

theorem readTrackHeader_moved (r : MidiReader) :
    r.midiFile.Moved (readTrackHeader r).1.midiFile :=
  (read_moved _ _ _).trans (read_moved _ _ _)

theorem readTrackHeader_start (r : MidiReader) :
    (readTrackHeader r).2.2 = toU64 (readTrackHeader r).1.midiFile.tellg := rfl

/-- The facts about the state in which the loop of `readTrack` starts: the
stream has failed or is within the contents, and the distance to the bound is
at most the declared length. -/
theorem readTrackHeader_measure (r : MidiReader) (hlen : r.midiFile.data.length < 2 ^ 64)
    (hpos : r.midiFile.pos ≤ r.midiFile.data.length) :
    (readTrackHeader r).1.midiFile.data.length < 2 ^ 64 ∧
    ((readTrackHeader r).1.midiFile.fail = false → (readTrackHeader r).1.midiFile.pos < 2 ^ 64) ∧
    (if (readTrackHeader r).1.midiFile.fail then 0
      else ((readTrackHeader r).2.2 + (readTrackHeader r).2.1) % 2 ^ 64 -
        (readTrackHeader r).1.midiFile.pos) ≤ (readTrackHeader r).2.1 := by
  obtain ⟨hd, hm⟩ := readTrackHeader_moved r
  have hp : (readTrackHeader r).1.midiFile.fail = false →
      (readTrackHeader r).1.midiFile.pos < 2 ^ 64 := by
    intro hf
    rcases hm with h | ⟨_, _, h3⟩
    · rw [hf] at h; cases h
    · have := h3 hpos
      omega
  refine ⟨by rw [hd]; exact hlen, hp, ?_⟩
  rw [readTrackHeader_start, toU64_tellg _ hp]
  cases hf : (readTrackHeader r).1.midiFile.fail with
  | true => simp
  | false =>
    have := hp hf
    simp only [Bool.false_eq_true, if_false]
    omega

/-! ## A delta-time that does not end -/

/-- The read loop never returns when every byte left has the high bit set (and,
if none is left, the buffer `one` has it set). -/
theorem readVariableLength_all_high :
    ∀ (fuel : Nat) (s : IfStream) (one : Nat) (stk : List Nat),
      (∀ x ∈ s.data.drop s.pos, 128 ≤ x ∧ x < 256) →
      ((s.fail = true ∨ s.data.drop s.pos = []) → one &&& 128 ≠ 0) →
      readVariableLength fuel s one stk = none := by
  intro fuel
  induction fuel with
  | zero => intro s one stk _ _; rfl
  | succ fuel ih =>
    intro s one stk hall hone
    simp only [readVariableLength]
    cases hf : s.fail with
    | true =>
      have h1 := hone (Or.inl hf)
      have e : s.read1 one = (one, s) := by simp [IfStream.read1, hf]
      rw [e]
      simp only [ne_eq, h1, not_false_eq_true, if_true]
      exact ih s one _ hall hone
    | false =>
      cases hd : s.data.drop s.pos with
      | nil =>
        have h1 := hone (Or.inr hd)
        have e : s.read1 one = (one, { s with fail := true }) := by
          simp [IfStream.read1, hf, hd]
        rw [e]
        simp only [ne_eq, h1, not_false_eq_true, if_true]
        exact ih _ one _ (by simp [hd]) (fun _ => h1)
      | cons b rest =>
        have hb := hall b (by rw [hd]; exact List.mem_cons_self _ _)
        have h1 := highbit_set hb.1 hb.2
        have e : s.read1 one = (b, { s with pos := s.pos + 1 }) := read1_cons one hf hd
        rw [e]
        simp only [ne_eq, h1, not_false_eq_true, if_true]
        have hd2 : s.data.drop (s.pos + 1) = rest := drop_succ_of_cons hd
        refine ih _ b _ ?_ (fun _ => h1)
        intro x hx
        have hx' : x ∈ rest := by
          have : x ∈ s.data.drop (s.pos + 1) := hx
          rwa [hd2] at this
        exact hall x (by rw [hd]; exact List.mem_cons_of_mem _ hx')

theorem readEvent_all_high (fuel : Nat) (r : MidiReader) (hs : r.midiFile.fail = false)
    (hne : r.midiFile.data.drop r.midiFile.pos ≠ [])
    (hall : ∀ x ∈ r.midiFile.data.drop r.midiFile.pos, 128 ≤ x ∧ x < 256) :
    readEvent fuel r = none := by
  have := readVariableLength_all_high fuel r.midiFile r.one [] hall (by
    rintro (h | h)
    · rw [hs] at h; cases h
    · exact absurd h hne)
  simp [readEvent, this]

theorem loopReaches_data {bound : Nat} {r a : MidiReader} (h : LoopReaches bound r a) :
    a.midiFile.data = r.midiFile.data := by
  induction h with
  | start => rfl
  | next _ _ he ih => rw [(readEvent_advanced _ _ _ he).1]; exact ih

/-- The loop of `readTrack` returns when, in each state in which it calls
`readEvent`, the bytes at the cursor start with a complete event head. -/
theorem readTrack_returns (r : MidiReader) (hlen : r.midiFile.data.length < 2 ^ 64)
    (hpos : r.midiFile.pos ≤ r.midiFile.data.length)
    (hc : ∀ a, LoopReaches (((readTrackHeader r).2.2 + (readTrackHeader r).2.1) % 2 ^ 64)
        (readTrackHeader r).1 a →
      toU64 a.midiFile.tellg < ((readTrackHeader r).2.2 + (readTrackHeader r).2.1) % 2 ^ 64 →
      completeHead (a.midiFile.data.drop a.midiFile.pos))
    (fuel : Nat) (hfuel : r.midiFile.data.length + 255 + (readTrackHeader r).2.1 ≤ fuel) :
    ∃ x, readTrack fuel r = some x := by
  obtain ⟨h1, h2, h3⟩ := readTrackHeader_measure r hlen hpos
  have hb : ((readTrackHeader r).2.2 + (readTrackHeader r).2.1) % 2 ^ 64 < 2 ^ 64 :=
    Nat.mod_lt _ (by decide)
  have hd : (readTrackHeader r).1.midiFile.data = r.midiFile.data := (readTrackHeader_moved r).1
  refine readTrackLoop_returns _ (r.midiFile.data.length + 255) hb (readTrackHeader r).1 ?_
    (readTrackHeader r).2.1 (readTrackHeader r).1 LoopReaches.start h1 h2 h3 fuel hfuel
  intro a ha hlt f hf
  have hs : a.midiFile.fail = false := by
    cases hfa : a.midiFile.fail with
    | false => rfl
    | true =>
      exfalso
      have e : toU64 a.midiFile.tellg = 2 ^ 64 - 1 := by
        simp [IfStream.tellg, hfa, toU64]
      omega
  have hda : a.midiFile.data = r.midiFile.data := (loopReaches_data ha).trans hd
  refine readEvent_returns f (a.print [separator]) hs (hc a ha hlt) ?_
  show (a.midiFile.data.drop a.midiFile.pos).length + 255 ≤ f
  rw [List.length_drop, hda]
  omega

theorem readTrack_count (fuel : Nat) (r r1 : MidiReader) (started : List Nat)
    (hlen : r.midiFile.data.length < 2 ^ 64) (hpos : r.midiFile.pos ≤ r.midiFile.data.length)
    (h : readTrack fuel r = some (r1, started)) :
    started.length ≤ (readTrackHeader r).2.1 := by
  obtain ⟨h1, h2, h3⟩ := readTrackHeader_measure r hlen hpos
  exact le_trans
    (readTrackLoop_count _ (Nat.mod_lt _ (by decide)) fuel (readTrackHeader r).1 r1 started h1 h2 h)
    h3

set_option maxRecDepth 8192 in
/-- C19 fails on the code: the file `danglingTrackFile` holds every byte of its
one track (declared length 1, one byte `80`) and no Meta or SysEx event. The
constructor finds the track at position 14 and `setTrack 0` moves the stream
there without failure, but `readTrack` never returns: the delta-time loop of
`readEvent` reads `80`, then fails at the end of the file with `one` still
`80`, and repeats without end. -/
theorem dangling_delta_time_never_returns :
    (setTrack (construct "song.mid" danglingTrackFile) 0).map (fun r => r.midiFile) =
      some { data := danglingTrackFile, pos := 14, fail := false } ∧
    danglingTrackFile.length = 23 ∧
    ∀ fuel : Nat,
      (setTrack (construct "song.mid" danglingTrackFile) 0).bind (readTrack fuel) = none := by
  have hm : (setTrack (construct "song.mid" danglingTrackFile) 0).map (fun r => r.midiFile) =
      some { data := danglingTrackFile, pos := 14, fail := false } := by decide
  refine ⟨hm, by decide, fun fuel => ?_⟩
  cases hs : setTrack (construct "song.mid" danglingTrackFile) 0 with
  | none => rfl
  | some R =>
    rw [hs] at hm
    have hR : R.midiFile = { data := danglingTrackFile, pos := 14, fail := false } := by
      simpa using hm
    have hfile : danglingTrackFile =
        [0x4D, 0x54, 0x68, 0x64, 0x00, 0x00, 0x00, 0x06, 0x00, 0x01, 0x00, 0x01, 0x00, 0x60] ++
          (trackChunk ([0x4D, 0x54, 0x72, 0x6B], [0x80]) ++ []) := by decide
    have hh := readTrackHeader_chunk R ([0x4D, 0x54, 0x72, 0x6B], [0x80])
      [0x4D, 0x54, 0x68, 0x64, 0x00, 0x00, 0x00, 0x06, 0x00, 0x01, 0x00, 0x01, 0x00, 0x60] []
      (by rw [hR, hfile]; rfl) rfl (by decide) (by decide)
    rw [← hfile] at hh
    have key : ∀ H : MidiReader,
        H.midiFile = { data := danglingTrackFile, pos := 22, fail := false } →
        readTrackLoop fuel 23 H = none := by
      intro H hH
      have hlt : toU64 H.midiFile.tellg < 23 := by rw [hH]; decide
      cases fuel with
      | zero => simp only [readTrackLoop]; rw [if_pos hlt]
      | succ fuel =>
        have hev : readEvent fuel (H.print [separator]) = none := by
          apply readEvent_all_high
          · show H.midiFile.fail = false
            rw [hH]
          · show H.midiFile.data.drop H.midiFile.pos ≠ []
            rw [hH]; decide
          · show ∀ x ∈ H.midiFile.data.drop H.midiFile.pos, 128 ≤ x ∧ x < 256
            rw [hH]; decide
        simp only [readTrackLoop]
        rw [if_pos hlt, hev]
    show readTrack fuel R = none
    unfold readTrack
    rw [hh]
    exact key _ rfl

/-- C19 as amended: (1) whenever `readEvent` returns, the stream holds the same
bytes and has either failed or is at a position strictly after the one at
which the call started, within the contents; this includes the case in which a
data byte is pushed back. (2) `readEvent` returns when the stream has not
failed and the bytes at the cursor start with a complete head: a delta-time
that ends, one more byte, and for `F0` and `FF` a length of at most five bytes
that ends and is below 256. (3) Whenever `readTrack`, started within a source
of less than 2^64 bytes, returns, it has begun at most `trackLength` events.
(4) `readTrack` returns when the bytes at the cursor start with a complete
head each time its loop calls `readEvent`. Without the condition of (2)
`readEvent` need not return, even when every byte of the track is present: a
delta-time or length that runs to the end of the source never ends, and a
length of six or more bytes is decoded with a shift count of 32 or more, which
C++ does not define (the bytes `A0 80 80 80 80 00` give 256 on x86-64). -/
theorem progress_and_termination :
    (∀ (fuel : Nat) (r r1 : MidiReader), readEvent fuel r = some r1 →
      r1.midiFile.data = r.midiFile.data ∧
      (r1.midiFile.fail = true ∨
        (r.midiFile.fail = false ∧ r.midiFile.pos < r1.midiFile.pos ∧
          r1.midiFile.pos ≤ r.midiFile.data.length))) ∧
    (∀ (fuel : Nat) (r : MidiReader), r.midiFile.fail = false →
      completeHead (r.midiFile.data.drop r.midiFile.pos) →
      (r.midiFile.data.drop r.midiFile.pos).length + 255 ≤ fuel →
      ∃ r1, readEvent fuel r = some r1) ∧
    (∀ (fuel : Nat) (r r1 : MidiReader) (started : List Nat),
      r.midiFile.data.length < 2 ^ 64 → r.midiFile.pos ≤ r.midiFile.data.length →
      readTrack fuel r = some (r1, started) →
      started.length ≤ (readTrackHeader r).2.1) ∧
    (∀ (fuel : Nat) (r : MidiReader),
      r.midiFile.data.length < 2 ^ 64 → r.midiFile.pos ≤ r.midiFile.data.length →
      (∀ a, LoopReaches (((readTrackHeader r).2.2 + (readTrackHeader r).2.1) % 2 ^ 64)
          (readTrackHeader r).1 a →
        toU64 a.midiFile.tellg < ((readTrackHeader r).2.2 + (readTrackHeader r).2.1) % 2 ^ 64 →
        completeHead (a.midiFile.data.drop a.midiFile.pos)) →
      r.midiFile.data.length + 255 + (readTrackHeader r).2.1 ≤ fuel →
      ∃ x, readTrack fuel r = some x) :=
  ⟨fun fuel r r1 h => readEvent_advanced fuel r r1 h,
   fun fuel r hs hc hf => readEvent_returns fuel r hs hc hf,
   fun fuel r r1 started hl hp h => readTrack_count fuel r r1 started hl hp h,
   fun fuel r hl hp hc hf => readTrack_returns r hl hp hc fuel hf⟩

/-- C19 on the Meta event `00 FF 2F 00`: the bytes are a complete head, so
`readEvent` returns with fuel 259. -/
theorem progress_and_termination_witness :
    (onBytes [0x00, 0xFF, 0x2F, 0x00]).midiFile.fail = false ∧
    completeHead ((onBytes [0x00, 0xFF, 0x2F, 0x00]).midiFile.data.drop
      (onBytes [0x00, 0xFF, 0x2F, 0x00]).midiFile.pos) ∧
    ∃ r1, readEvent 259 (onBytes [0x00, 0xFF, 0x2F, 0x00]) = some r1 :=
  ⟨rfl,
   ⟨[0x00], [0x2F, 0x00], 0xFF, rfl, rfl, fun h => absurd h (by decide),
     fun _ => ⟨0x2F, [0x00], [], rfl, rfl, by decide, by decide⟩⟩,
   progress_and_termination.2.1 259 (onBytes [0x00, 0xFF, 0x2F, 0x00]) rfl
     ⟨[0x00], [0x2F, 0x00], 0xFF, rfl, rfl, fun h => absurd h (by decide),
       fun _ => ⟨0x2F, [0x00], [], rfl, rfl, by decide, by decide⟩⟩
     (by decide)⟩

end Midi
